import Mathlib

/-! # ckcdda: AccurateRip checksums at every read offset

A shallow embedding of `src/ckcdda.c`.

Conventions of the embedding.

* `uint32_t` values are natural numbers; every store into a `uint32_t`
  object goes through `u32`, the reduction modulo `2^32` of the integer
  value of the right-hand side.
* `int` values are mathematical integers (`Int`) or, for the counters that
  the program only ever increments from zero, natural numbers; `int`
  overflow is not modelled.
* The heap tables (`arcf`, `sum`, `crc2`, `arcf450`, `frame`, `length`,
  `dbcrc`, `dbcrc450`) are total maps from the index to the stored word,
  `calloc` giving the all-zero map.  The allocated sizes are not part of
  the tables; statements about indices staying inside a table are made on
  the index values themselves.
* `argv` is the list of the `atoi` images of the program arguments
  (entry 0 standing for the program name), `stdin` the list of complete
  4-byte records, each a pair of 16-bit words.
* Progress lines printed to stdout are not modelled; the result lines are.
-/

namespace Ckcdda

/-! ## Constants and helpers -/

def SAMPLES_PER_FRAME : Nat := 588

def CHECK_RADIUS : Nat := 5 * SAMPLES_PER_FRAME - 1

def ARCFS_PER_TRACK : Nat := 2 * CHECK_RADIUS + 1

def ARCF_IDX (track offset : Nat) : Nat := offset + track * ARCFS_PER_TRACK

/-- Conversion of an integer value to `uint32_t`. -/
def u32 (x : Int) : Nat := (x % 4294967296).toNat

/-- Store `v` at index `i` of a table. -/
def store (f : Nat → Nat) (i v : Nat) : Nat → Nat :=
  fun j => if j = i then v else f j

/-! ## read_value -/

/-- The word `(sample[1] << 16) | sample[0]` as stored into `*value`. -/
def packSample (sample0 sample1 : Nat) : Nat :=
  ((sample1 <<< 16) ||| sample0) % 4294967296

/-- Reading one record: `none` is the end of file (return value 0), otherwise
the packed value and the rest of the stream. -/
def read_value : List (Nat × Nat) → Option (Nat × List (Nat × Nat))
  | [] => none
  | sample :: rest => some (packSample sample.1 sample.2, rest)

/-! ## update_arcf -/

def update_arcf (arcf sum : Nat → Nat) (track track_count : Nat)
    (length : Nat → Int) (ti tr last_tr : Nat) (value : Nat) :
    (Nat → Nat) × (Nat → Nat) :=
  let base : (Nat → Nat) × (Nat → Nat) :=
    if track < track_count then
      let arcf1 :=
        if tr < ARCFS_PER_TRACK - 1 then store arcf (ARCF_IDX track (tr + 1)) value
        else arcf
      let sum1 := store sum track (u32 ((sum track : Int) + value))
      let arcf2 := store arcf1 (ARCF_IDX track 0)
        (u32 ((arcf1 (ARCF_IDX track 0) : Int) + (value : Int) * ((ti : Int) + 1)))
      (arcf2, sum1)
    else (arcf, sum)
  if 0 < track ∧ tr < ARCFS_PER_TRACK - 1 then
    let first := base.1 (ARCF_IDX (track - 1) (tr + 1))
    let arcf3 := store base.1 (ARCF_IDX (track - 1) (tr + 1))
      (u32 ((base.1 (ARCF_IDX (track - 1) tr) : Int)
            - (length (track - 1) - (last_tr : Int)) * (first : Int)
            - (base.2 (track - 1) : Int)
            + length (track - 1) * (value : Int)))
    let sum3 := store base.2 (track - 1)
      (u32 ((base.2 (track - 1) : Int) + ((value : Int) - (first : Int))))
    (arcf3, sum3)
  else base

/-! ## update_framecrc -/

def update_framecrc (frame : Nat → Nat) (framesum framecrc : Nat)
    (ti : Nat) (value : Nat) : (Nat → Nat) × Nat × Nat :=
  if ti < SAMPLES_PER_FRAME then
    let subtr : Nat := 0
    let frame1 := store frame (ti % SAMPLES_PER_FRAME) value
    let framecrc1 := u32 ((framecrc : Int) + (value : Int) * ((ti : Int) + 1))
    (frame1, u32 ((framesum : Int) + ((value : Int) - (subtr : Int))), framecrc1)
  else
    let subtr : Nat := frame (ti % SAMPLES_PER_FRAME)
    let frame1 := store frame (ti % SAMPLES_PER_FRAME) value
    let framecrc1 :=
      u32 ((framecrc : Int) + ((value : Int) * (SAMPLES_PER_FRAME : Int) - (framesum : Int)))
    (frame1, u32 ((framesum : Int) + ((value : Int) - (subtr : Int))), framecrc1)

/-! ## main: the state of the sample loop -/

structure State where
  arcf : Nat → Nat
  sum : Nat → Nat
  crc2 : Nat → Nat
  arcf450 : Nat → Nat
  frame : Nat → Nat
  track : Nat
  ti : Nat
  tr : Nat
  di : Nat
  ti2 : Nat
  track2 : Nat
  framesum : Nat
  framecrc : Nat
  last_tr : Nat

/-- The state on entry to the loop (lines 179-191), all tables zeroed. -/
def initState : State where
  arcf := fun _ => 0
  sum := fun _ => 0
  crc2 := fun _ => 0
  arcf450 := fun _ => 0
  frame := fun _ => 0
  track := 0
  ti := CHECK_RADIUS
  tr := 0
  di := 0
  ti2 := 0
  track2 := 0
  framesum := 0
  framecrc := 0
  last_tr := 0

/-- Lines 204-206: the call of `update_arcf`. -/
def stepArcf (track_count : Nat) (length : Nat → Int) (st : State) (value : Nat) : State :=
  let r := update_arcf st.arcf st.sum st.track track_count length st.ti st.tr st.last_tr value
  { st with arcf := r.1, sum := r.2 }

/-- Lines 208-221: the trailing cursor, v2 accumulator and frame checksum. -/
def stepTrailing (st : State) (value : Nat) : State :=
  if CHECK_RADIUS ≤ st.di then
    let calcvalue : Nat := (value * (st.ti2 + 1)) % 18446744073709551616
    let crc2a := store st.crc2 st.track2
      (u32 ((st.crc2 st.track2 : Int) + ((calcvalue &&& 0xFFFFFFFF : Nat) : Int)))
    let crc2b := store crc2a st.track2
      (u32 ((crc2a st.track2 : Int) + ((calcvalue / 0x100000000 : Nat) : Int)))
    let offset : Int :=
      (st.ti2 : Int) - (451 * (SAMPLES_PER_FRAME : Int) - 1 - (CHECK_RADIUS : Int))
    if offset < (ARCFS_PER_TRACK : Int) then
      let f := update_framecrc st.frame st.framesum st.framecrc st.ti2 value
      let arcf450a :=
        if 0 ≤ offset then store st.arcf450 (ARCF_IDX st.track2 offset.toNat) f.2.2
        else st.arcf450
      { st with crc2 := crc2b, frame := f.1, framesum := f.2.1, framecrc := f.2.2,
                arcf450 := arcf450a }
    else { st with crc2 := crc2b }
  else st

/-- Lines 223-244: the counters and the two track-boundary tests. -/
def stepCounters (length : Nat → Int) (st : State) : State :=
  let st1 : State :=
    { st with di := st.di + 1, ti := st.ti + 1, tr := st.tr + 1, ti2 := st.ti2 + 1 }
  let st2 : State :=
    if (st1.ti : Int) = length st1.track then
      { st1 with last_tr := st1.tr, ti := 0, tr := 0, track := st1.track + 1 }
    else st1
  if (st2.ti2 : Int) = length st2.track2 then
    { st2 with ti2 := 0, framesum := 0, framecrc := 0, frame := fun _ => 0,
               track2 := st2.track2 + 1 }
  else st2

/-- One iteration of the loop once the sample has been read. -/
def loopBody (track_count : Nat) (length : Nat → Int) (st : State) (value : Nat) : State :=
  stepCounters length (stepTrailing (stepArcf track_count length st value) value)

inductive Failure where
  | arguments
  | allocation
  | eof
  deriving DecidableEq, Repr

/-- The loop `while (di < total_length)` of lines 192-245.  On the empty
stream `read_value` reports the end of file and the program exits. -/
def mainLoop (track_count : Nat) (length : Nat → Int) (total_length : Int) :
    List (Nat × Nat) → State → Except Failure State
  | [], st => if (st.di : Int) < total_length then .error .eof else .ok st
  | sample :: rest, st =>
    if (st.di : Int) < total_length then
      mainLoop track_count length total_length rest
        (loopBody track_count length st (packSample sample.1 sample.2))
    else .ok st

/-! ## main: arguments and tables -/

structure Tables where
  length : Nat → Int
  dbcrc : Nat → Nat
  dbcrc450 : Nat → Nat
  total_length : Int

def atoiArg (argv : List Int) (p : Nat) : Int := argv.getD p 0

/-- Storing into the `int` table `length`. -/
def storeInt (f : Nat → Int) (i : Nat) (v : Int) : Nat → Int :=
  fun j => if j = i then v else f j

/-- Lines 125-136: `num_pairs_per_track` and `track_count`. -/
def checkArgs (argv : List Int) : Except Failure (Int × Int) :=
  let argc : Int := argv.length
  if argc < 2 then .error .arguments
  else
    let num_pairs_per_track := atoiArg argv 1
    let track_count := Int.tdiv (argc - 2) (num_pairs_per_track * 2 + 1)
    if Int.tmod (argc - 2) (num_pairs_per_track * 2 + 1) ≠ 0 then .error .arguments
    else .ok (num_pairs_per_track, track_count)

/-- Lines 163-167 for one `j` (with `k = num_pairs_per_track + j`). -/
def readPair (argv : List Int) (P trackno p : Nat) (tb : Tables) (j : Nat) : Tables :=
  let k := P + j
  { tb with dbcrc := store tb.dbcrc (trackno * P + j) (u32 (atoiArg argv (p + j + 1))),
            dbcrc450 := store tb.dbcrc450 (trackno * P + j) (u32 (atoiArg argv (p + k + 1))) }

/-- Lines 158-170 for one `trackno`. -/
def readTrack (argv : List Int) (P : Nat) (tb : Tables) (trackno : Nat) : Tables :=
  let p := 2 + trackno * (2 * P + 1)
  let tb1 : Tables :=
    { tb with length := storeInt tb.length trackno (atoiArg argv p * (SAMPLES_PER_FRAME : Int)) }
  let tb2 := (List.range P).foldl (readPair argv P trackno p) tb1
  { tb2 with total_length := tb2.total_length + tb2.length trackno }

def zeroTables : Tables where
  length := fun _ => 0
  dbcrc := fun _ => 0
  dbcrc450 := fun _ => 0
  total_length := 0

/-- Lines 157-170. -/
def readTables (argv : List Int) (P T : Nat) : Tables :=
  (List.range T).foldl (readTrack argv P) zeroTables

/-- Lines 173-174.  With `track_count = 0` the first store addresses
`length[-1]`, outside the table, and is dropped here. -/
def adjustLength (length : Nat → Int) (track_count : Nat) : Nat → Int :=
  let length1 :=
    if 0 < track_count then
      storeInt length (track_count - 1)
        (length (track_count - 1) - ((CHECK_RADIUS : Int) + 1))
    else length
  storeInt length1 track_count (2 * (CHECK_RADIUS : Int) + 1)

/-! ## main: the report -/

inductive ResultLine where
  | offset0 (trackno : Nat) (offset : Int) (crc crc450 crc2 : Nat)
  | matched (trackno : Nat) (offset : Int) (crc crc450 : Nat)
  deriving DecidableEq, Repr

def ResultLine.trackno : ResultLine → Nat
  | .offset0 t _ _ _ _ => t
  | .matched t _ _ _ => t

def ResultLine.offset : ResultLine → Int
  | .offset0 _ o _ _ _ => o
  | .matched _ o _ _ => o

def ResultLine.isOffset0 : ResultLine → Bool
  | .offset0 _ _ _ _ _ => true
  | .matched _ _ _ _ => false

/-- Lines 250-264: what is printed for one `(trackno, o)`. -/
def reportSlot (P : Nat) (dbcrc dbcrc450 arcf arcf450 crc2 : Nat → Nat)
    (trackno o : Nat) : List ResultLine :=
  let offset : Int := (o : Int) - (CHECK_RADIUS : Int)
  let crc := arcf (ARCF_IDX trackno o)
  let crc450 := arcf450 (ARCF_IDX trackno o)
  if offset = 0 then
    [.offset0 trackno ((o : Int) - (CHECK_RADIUS : Int)) crc crc450 (crc2 trackno)]
  else
    (List.range P).flatMap fun j =>
      if crc = dbcrc (trackno * P + j) ∨ crc450 = dbcrc450 (trackno * P + j) then
        [.matched trackno ((o : Int) - (CHECK_RADIUS : Int)) crc crc450]
      else []

/-- Lines 247-266. -/
def report (T P : Nat) (dbcrc dbcrc450 arcf arcf450 crc2 : Nat → Nat) : List ResultLine :=
  (List.range T).flatMap fun trackno =>
    (List.range ARCFS_PER_TRACK).flatMap fun o =>
      reportSlot P dbcrc dbcrc450 arcf arcf450 crc2 trackno o

/-! ### printf conversions -/

/-- Zero-padding to a minimum field width. -/
def zeroPad (width : Nat) (digits : List Char) : List Char :=
  List.replicate (width - digits.length) '0' ++ digits

/-- The conversion `%03u`. -/
def fmt03u (n : Nat) : String := String.mk (zeroPad 3 (Nat.toDigits 10 n))

/-- The conversion `%08X`. -/
def fmt08X (n : Nat) : String :=
  String.mk (zeroPad 8 ((Nat.toDigits 16 n).map Char.toUpper))

/-- The conversion `%i`. -/
def fmtInt (i : Int) : String :=
  match i with
  | Int.ofNat n => String.mk (Nat.toDigits 10 n)
  | Int.negSucc n => "-" ++ String.mk (Nat.toDigits 10 (n + 1))

/-- The text of a result line, without the final newline. -/
def ResultLine.render : ResultLine → String
  | .offset0 t o crc crc450 crc2 =>
    fmt03u t ++ "," ++ fmtInt o ++ ": " ++ fmt08X crc ++ " " ++ fmt08X crc450 ++ " "
      ++ fmt08X crc2
  | .matched t o crc crc450 =>
    fmt03u t ++ "," ++ fmtInt o ++ ": " ++ fmt08X crc ++ " " ++ fmt08X crc450

/-! ## main -/

structure Final where
  track_count : Nat
  num_pairs : Nat
  tables : Tables
  state : State

/-- Everything up to the end of the sample loop. -/
def run (argv : List Int) (stdin : List (Nat × Nat)) : Except Failure Final :=
  match checkArgs argv with
  | .error e => .error e
  | .ok (num_pairs_per_track, track_count) =>
    -- a negative count makes `calloc` fail (lines 141-151)
    if track_count < 0 then .error .allocation
    else
      let T := track_count.toNat
      let P := num_pairs_per_track.toNat
      let tb := readTables argv P T
      let length := adjustLength tb.length T
      match mainLoop T length tb.total_length stdin initState with
      | .error e => .error e
      | .ok st => .ok ⟨T, P, { tb with length := length }, st⟩

def reportFinal (f : Final) : List ResultLine :=
  report f.track_count f.num_pairs f.tables.dbcrc f.tables.dbcrc450
    f.state.arcf f.state.arcf450 f.state.crc2

/-- The program: the result lines on success, the failure otherwise. -/
def main (argv : List Int) (stdin : List (Nat × Nat)) : Except Failure (List ResultLine) :=
  match run argv stdin with
  | .error e => .error e
  | .ok f => .ok (reportFinal f)

/-! ## Notions used to state the properties -/

/-- The `i`-th sample value delivered by `read_value` on the stream. -/
def sampleAt (stdin : List (Nat × Nat)) (i : Nat) : Nat :=
  (stdin.map fun sample => packSample sample.1 sample.2).getD i 0

/-- The loop state after `n` iterations fed with the values `s 0, ..., s (n-1)`. -/
def iterBody (track_count : Nat) (length : Nat → Int) (s : Nat → Nat) : Nat → State
  | 0 => initState
  | n + 1 => loopBody track_count length (iterBody track_count length s n) (s n)

/-- Sample count of track `k` as read from the arguments (line 160). -/
def trackSamples (argv : List Int) (P k : Nat) : Int :=
  atoiArg argv (2 + k * (2 * P + 1)) * (SAMPLES_PER_FRAME : Int)

/-- Global start `S_k` of track `k`: the samples of the tracks before it. -/
def trackStart (argv : List Int) (P k : Nat) : Int :=
  ∑ j ∈ Finset.range k, trackSamples argv P j

/-- The table `length` as the loop sees it: read from the arguments, then adjusted. -/
def lengthTable (argv : List Int) (P T : Nat) : Nat → Int :=
  adjustLength (readTables argv P T).length T

/-- Adjusted length `n_k` of the claims. -/
def adjustedLength (argv : List Int) (P T k : Nat) : Int :=
  if k + 1 = T then trackSamples argv P k - ((CHECK_RADIUS : Int) + 1)
  else trackSamples argv P k

/-- First half of `update_arcf` (lines 39-50). -/
def updateBase (arcf sum : Nat → Nat) (track track_count : Nat) (ti tr : Nat) (value : Nat) :
    (Nat → Nat) × (Nat → Nat) :=
  if track < track_count then
    let arcf1 :=
      if tr < ARCFS_PER_TRACK - 1 then store arcf (ARCF_IDX track (tr + 1)) value
      else arcf
    let sum1 := store sum track (u32 ((sum track : Int) + value))
    let arcf2 := store arcf1 (ARCF_IDX track 0)
      (u32 ((arcf1 (ARCF_IDX track 0) : Int) + (value : Int) * ((ti : Int) + 1)))
    (arcf2, sum1)
  else (arcf, sum)

/-- Second half of `update_arcf` (lines 54-65). -/
def updateDerived (base : (Nat → Nat) × (Nat → Nat)) (track : Nat) (length : Nat → Int)
    (tr last_tr : Nat) (value : Nat) : (Nat → Nat) × (Nat → Nat) :=
  if 0 < track ∧ tr < ARCFS_PER_TRACK - 1 then
    let first := base.1 (ARCF_IDX (track - 1) (tr + 1))
    let arcf3 := store base.1 (ARCF_IDX (track - 1) (tr + 1))
      (u32 ((base.1 (ARCF_IDX (track - 1) tr) : Int)
            - (length (track - 1) - (last_tr : Int)) * (first : Int)
            - (base.2 (track - 1) : Int)
            + length (track - 1) * (value : Int)))
    let sum3 := store base.2 (track - 1)
      (u32 ((base.2 (track - 1) : Int) + ((value : Int) - (first : Int))))
    (arcf3, sum3)
  else base

/-- Weighted sum of the `m` samples from stream position `b + o` on, the first one
weighted by `c + 1`. -/
def winCrc (s : Nat → Nat) (b m c o : Nat) : Nat :=
  ∑ t ∈ Finset.range m, s (b + o + t) * (c + t + 1)

/-- Plain sum of the `m` samples from stream position `b + o` on. -/
def winSum (s : Nat → Nat) (b m o : Nat) : Nat :=
  ∑ t ∈ Finset.range m, s (b + o + t)

/-- Number `c_k` of leading positions of track `k` that the leading cursor skips. -/
def cFirst (k : Nat) : Nat := if k = 0 then CHECK_RADIUS else 0

/-- Number of samples the leading cursor spends in track `k` of length `N k`. -/
def mLead (N : Nat → Nat) (k : Nat) : Nat := N k - cFirst k

/-- Stream position at which the leading cursor enters track `k`. -/
def bLead (N : Nat → Nat) (k : Nat) : Nat := ∑ j ∈ Finset.range k, mLead N j

/-- Invariant of the leading cursor (`track`, `ti`, `tr`, `last_tr`, `arcf`, `sum`)
at the head of the loop, for a table of lengths `N`. -/
structure LeadInv (T : Nat) (N : Nat → Nat) (s : Nat → Nat) (st : State) : Prop where
  track_le : st.track ≤ T + 1
  di_eq : st.di = bLead N st.track + st.tr
  ti_eq : st.ti = cFirst st.track + st.tr
  tr_lt : st.track ≤ T → st.tr < mLead N st.track
  tr_end : st.track = T + 1 → st.tr = 0
  last : 1 ≤ st.track → st.last_tr = mLead N (st.track - 1)
  done : ∀ j o, j + 1 < st.track → o < 5879 →
    st.arcf (ARCF_IDX j o) = winCrc s (bLead N j) (mLead N j) (cFirst j) o % 4294967296
  prevDone : ∀ j o, j + 1 = st.track → j < T → o ≤ st.tr → o < 5879 →
    st.arcf (ARCF_IDX j o) = winCrc s (bLead N j) (mLead N j) (cFirst j) o % 4294967296
  prevSaved : ∀ j o, j + 1 = st.track → j < T → st.tr ≤ o → o + 1 < 5879 →
    st.arcf (ARCF_IDX j (o + 1)) = s (bLead N j + o)
  prevSum : ∀ j, j + 1 = st.track → j < T → st.tr < 5879 →
    st.sum j = winSum s (bLead N j) (mLead N j) st.tr % 4294967296
  curCrc : st.track < T →
    st.arcf (ARCF_IDX st.track 0)
      = winCrc s (bLead N st.track) st.tr (cFirst st.track) 0 % 4294967296
  curSaved : st.track < T → ∀ o, o < st.tr → o + 1 < 5879 →
    st.arcf (ARCF_IDX st.track (o + 1)) = s (bLead N st.track + o)
  curSum : st.track < T →
    st.sum st.track = winSum s (bLead N st.track) st.tr 0 % 4294967296
  future : ∀ j, st.track < j →
    (∀ o, o < 5879 → st.arcf (ARCF_IDX j o) = 0) ∧ st.sum j = 0

/-- The entries of the table of lengths as natural numbers. -/
def lenNat (argv : List Int) (P T : Nat) (k : Nat) : Nat := (lengthTable argv P T k).toNat

/-- Weighted sum of a window, the first entry weighted by `i`. -/
def naiveV1From (i : Nat) : List Nat → Nat
  | [] => 0
  | x :: xs => x * i + naiveV1From (i + 1) xs

/-- The naive AccurateRip v1 checksum of a window `w`: the sum of `w_i * i`, `i` from 1,
modulo `2^32`. -/
def naiveV1 (w : List Nat) : Nat := naiveV1From 1 w % 4294967296

/-- The `n`-sample window of the stream that starts at position `start`, its first `c`
entries excluded (taken as 0). -/
def streamWindow (stdin : List (Nat × Nat)) (start : Int) (n c : Nat) : List Nat :=
  (List.range n).map fun t => if t < c then 0 else sampleAt stdin (start + (t : Int)).toNat

/-- Sum of the first `k` entries of a table of lengths. -/
def lenSum (len : Nat → Int) (k : Nat) : Int := ∑ j ∈ Finset.range k, len j

/-- The AccurateRip v2 contribution of one sample: the low and the high half of the
product `x`. -/
def foldProduct (x : Nat) : Nat := x % 4294967296 + x / 4294967296

/-- What the v2 accumulator gathers over the first `m` samples of a track that starts
at stream position `b`: the folded 64-bit products of the samples at stream positions
from `R` on. -/
def v2Sum (s : Nat → Nat) (b m : Nat) : Nat :=
  ∑ t ∈ Finset.range m,
    if 2939 ≤ b + t then foldProduct ((s (b + t) * (t + 1)) % 18446744073709551616) else 0

/-- Plain sum of the (at most 588) values fed last before step `t`. -/
def frameWindowSum (g : Nat → Nat) (t : Nat) : Nat :=
  ∑ x ∈ Finset.Ico (t - 588) t, g x

/-- Weighted sum of the (at most 588) values fed last before step `t`, the oldest one
weighted by 1. -/
def frameWindowCrc (g : Nat → Nat) (t : Nat) : Nat :=
  ∑ x ∈ Finset.Ico (t - 588) t, g x * (x + 1 - (t - 588))

/-- The state of the frame checksum after the values `g 0, ..., g (t-1)` have been fed
at steps `0, ..., t-1`. -/
structure Rolling (g : Nat → Nat) (t : Nat) (frame : Nat → Nat) (framesum framecrc : Nat) :
    Prop where
  ring : ∀ x, x < t → t ≤ x + 588 → frame (x % 588) = g x
  sum : framesum = frameWindowSum g t % 4294967296
  crc : framecrc = frameWindowCrc g t % 4294967296

/-- Feeding `update_framecrc` from the reset state with the values `f 0, f 1, ...` at the
steps `ti = 0, 1, ...`: the state after `t` calls. -/
def feedFrame (f : Nat → Nat) : Nat → (Nat → Nat) × Nat × Nat
  | 0 => (fun _ => 0, 0, 0)
  | t + 1 =>
    update_framecrc (feedFrame f t).1 (feedFrame f t).2.1 (feedFrame f t).2.2 t (f t)

/-- The value the frame engine holds for position `x` of a track that starts at stream
position `b`: the sample, or 0 where the trailing cursor consumes nothing (stream
positions below `R`). -/
def fedValue (s : Nat → Nat) (b : Nat) (x : Nat) : Nat :=
  if 2939 ≤ b + x then s (b + x) else 0

/-- The outcome of a run on accepted arguments and a long enough stream. -/
def finalOf (argv : List Int) (stdin : List (Nat × Nat)) (P T : Nat) : Final :=
  ⟨T, P, { readTables argv P T with length := lengthTable argv P T },
    iterBody T (lengthTable argv P T) (sampleAt stdin) (trackStart argv P T).toNat⟩

/-- All tables and both frame accumulators of a state are zero. -/
def State.Zeroed (st : State) : Prop :=
  st.arcf = (fun _ => 0) ∧ st.sum = (fun _ => 0) ∧ st.crc2 = (fun _ => 0)
  ∧ st.arcf450 = (fun _ => 0) ∧ st.frame = (fun _ => 0)
  ∧ st.framesum = 0 ∧ st.framecrc = 0

/-! ## Access traces and the samples of a track -/

/-- The samples the leading cursor has consumed in track `k` during the first `n`
iterations, in the order of the stream. -/
def leadConsumed (track_count : Nat) (length : Nat → Int) (s : Nat → Nat) (n k : Nat) :
    List Nat :=
  ((List.range n).filter fun i => (iterBody track_count length s i).track = k).map s

/-- The `arcf` slots, as pairs (track index, offset index), that one call of
`update_arcf` reads or writes (lines 39-65). -/
def arcfSlots (track track_count tr : Nat) : List (Nat × Nat) :=
  (if track < track_count then
    (if tr < ARCFS_PER_TRACK - 1 then [(track, tr + 1)] else []) ++ [(track, 0)]
  else [])
  ++ (if 0 < track ∧ tr < ARCFS_PER_TRACK - 1 then [(track - 1, tr + 1), (track - 1, tr)]
      else [])

/-- The `arcf450` slot, as the pair (track index, offset), that one iteration writes
(lines 208-221), if it writes one. -/
def arcf450Slot (st : State) : Option (Nat × Int) :=
  if CHECK_RADIUS ≤ st.di then
    let offset : Int :=
      (st.ti2 : Int) - (451 * (SAMPLES_PER_FRAME : Int) - 1 - (CHECK_RADIUS : Int))
    if offset < (ARCFS_PER_TRACK : Int) then
      if 0 ≤ offset then some (st.track2, offset) else none
    else none
  else none

theorem SAMPLES_PER_FRAME_eq : SAMPLES_PER_FRAME = 588 := rfl

theorem CHECK_RADIUS_eq : CHECK_RADIUS = 2939 := by
  simp [CHECK_RADIUS, SAMPLES_PER_FRAME]

theorem ARCFS_PER_TRACK_eq : ARCFS_PER_TRACK = 5879 := by
  simp [ARCFS_PER_TRACK, CHECK_RADIUS_eq]

theorem ARCF_IDX_eq (track offset : Nat) : ARCF_IDX track offset = offset + track * 5879 := by
  simp [ARCF_IDX, ARCFS_PER_TRACK_eq]

theorem read_value_nil : read_value [] = none := rfl

theorem read_value_cons (sample : Nat × Nat) (rest : List (Nat × Nat)) :
    read_value (sample :: rest) = some (packSample sample.1 sample.2, rest) := rfl

/-- The loop written with the call of `read_value`. -/
theorem mainLoop_read_value (T : Nat) (length : Nat → Int) (total : Int)
    (stdin : List (Nat × Nat)) (st : State) :
    mainLoop T length total stdin st =
      if (st.di : Int) < total then
        match read_value stdin with
        | none => .error .eof
        | some (value, rest) => mainLoop T length total rest (loopBody T length st value)
      else .ok st := by
  cases stdin <;> simp [mainLoop, read_value]

theorem stepCounters_di (length : Nat → Int) (st : State) :
    (stepCounters length st).di = st.di + 1 := by
  unfold stepCounters
  simp only
  split_ifs <;> rfl

theorem stepTrailing_di (st : State) (v : Nat) : (stepTrailing st v).di = st.di := by
  unfold stepTrailing
  simp only
  split_ifs <;> rfl

theorem loopBody_di (T : Nat) (length : Nat → Int) (st : State) (v : Nat) :
    (loopBody T length st v).di = st.di + 1 := by
  simp [loopBody, stepCounters_di, stepTrailing_di, stepArcf]

theorem mainLoop_eq_foldl (T : Nat) (length : Nat → Int) (total : Int) :
    ∀ (stdin : List (Nat × Nat)) (st : State),
      mainLoop T length total stdin st =
        if (total - st.di).toNat ≤ stdin.length then
          .ok (((stdin.take (total - st.di).toNat).map
                  fun sample => packSample sample.1 sample.2).foldl (loopBody T length) st)
        else .error .eof := by
  intro stdin
  induction stdin with
  | nil =>
    intro st
    by_cases h : (st.di : Int) < total
    · have : ¬ (total - (st.di : Int)).toNat ≤ ([] : List (Nat × Nat)).length := by
        simp only [List.length_nil]; omega
      rw [mainLoop, if_pos h, if_neg this]
    · have : (total - (st.di : Int)).toNat = 0 := by omega
      rw [mainLoop, if_neg h, this]
      simp
  | cons r rest ih =>
    intro st
    by_cases h : (st.di : Int) < total
    · have e : (total - (st.di : Int)).toNat
          = (total - ((loopBody T length st (packSample r.1 r.2)).di : Int)).toNat + 1 := by
        rw [loopBody_di]; push_cast; omega
      rw [mainLoop, if_pos h, ih, e]
      simp [List.take_succ_cons]
    · have : (total - (st.di : Int)).toNat = 0 := by omega
      rw [mainLoop, if_neg h, this]
      simp

theorem iterBody_di (T : Nat) (length : Nat → Int) (s : Nat → Nat) (n : Nat) :
    (iterBody T length s n).di = n := by
  induction n with
  | zero => rfl
  | succ n ih => simp [iterBody, loopBody_di, ih]

theorem foldl_take_eq_iterBody (T : Nat) (length : Nat → Int) (vals : List Nat) :
    ∀ n, n ≤ vals.length →
      (vals.take n).foldl (loopBody T length) initState
        = iterBody T length (fun i => vals.getD i 0) n := by
  intro n
  induction n with
  | zero => intro _; simp [iterBody]
  | succ n ih =>
    intro h
    have hn : n < vals.length := h
    rw [List.take_succ, List.foldl_append, ih (Nat.le_of_lt hn)]
    simp [iterBody, List.getElem?_eq_getElem hn, List.getD_eq_getElem?_getD]

/-- The loop on the program's own initial state: it succeeds exactly when the
stream carries `total_length` samples, and then ends in `iterBody` at
`total_length`. -/
theorem mainLoop_init (T : Nat) (length : Nat → Int) (total : Int)
    (stdin : List (Nat × Nat)) :
    mainLoop T length total stdin initState =
      if total.toNat ≤ stdin.length then
        .ok (iterBody T length (sampleAt stdin) total.toNat)
      else .error .eof := by
  rw [mainLoop_eq_foldl]
  have h0 : (total - ((initState.di : Nat) : Int)).toNat = total.toNat := by
    simp [initState]
  rw [h0]
  by_cases h : total.toNat ≤ stdin.length
  · simp only [if_pos h]
    have := foldl_take_eq_iterBody T length
      (stdin.map fun sample => packSample sample.1 sample.2) total.toNat (by simpa using h)
    rw [← List.map_take] at this
    rw [this]
    rfl
  · simp [h]

/-! ## Argument tables -/

theorem store_apply (f : Nat → Nat) (i v j : Nat) :
    store f i v j = if j = i then v else f j := rfl

theorem storeInt_apply (f : Nat → Int) (i : Nat) (v : Int) (j : Nat) :
    storeInt f i v j = if j = i then v else f j := rfl

theorem foldl_readPair_length (argv : List Int) (P trackno p : Nat) (n : Nat) (tb : Tables) :
    ((List.range n).foldl (readPair argv P trackno p) tb).length = tb.length
    ∧ ((List.range n).foldl (readPair argv P trackno p) tb).total_length = tb.total_length := by
  induction n with
  | zero => simp
  | succ n ih => simp [List.range_succ, List.foldl_append, readPair, ih]

theorem foldl_readPair_dbcrc (argv : List Int) (P trackno p : Nat) (n : Nat) (tb : Tables)
    (i : Nat) :
    ((List.range n).foldl (readPair argv P trackno p) tb).dbcrc i
      = (if trackno * P ≤ i ∧ i < trackno * P + n then
           u32 (atoiArg argv (p + (i - trackno * P) + 1)) else tb.dbcrc i)
    ∧ ((List.range n).foldl (readPair argv P trackno p) tb).dbcrc450 i
      = (if trackno * P ≤ i ∧ i < trackno * P + n then
           u32 (atoiArg argv (p + (P + (i - trackno * P)) + 1)) else tb.dbcrc450 i) := by
  induction n with
  | zero =>
    have h : ¬ (trackno * P ≤ i ∧ i < trackno * P) := by omega
    simp [h]
  | succ n ih =>
    simp only [List.range_succ, List.foldl_append, List.foldl_cons, List.foldl_nil, readPair,
      store_apply, ih.1, ih.2]
    by_cases h1 : i = trackno * P + n
    · subst h1
      simp
    · by_cases h2 : trackno * P ≤ i ∧ i < trackno * P + n
      · have h3 : trackno * P ≤ i ∧ i < trackno * P + (n + 1) := ⟨h2.1, by omega⟩
        simp [h1, h2, h3]
      · have h3 : ¬ (trackno * P ≤ i ∧ i < trackno * P + (n + 1)) := by
          intro h; exact h2 ⟨h.1, by omega⟩
        simp [h1, h2, h3]

theorem readTrack_length (argv : List Int) (P : Nat) (tb : Tables) (trackno k : Nat) :
    (readTrack argv P tb trackno).length k
      = if k = trackno then trackSamples argv P trackno else tb.length k := by
  simp [readTrack, (foldl_readPair_length argv P trackno _ P _).1, storeInt_apply, trackSamples]

theorem readTrack_total (argv : List Int) (P : Nat) (tb : Tables) (trackno : Nat) :
    (readTrack argv P tb trackno).total_length
      = tb.total_length + trackSamples argv P trackno := by
  simp [readTrack, (foldl_readPair_length argv P trackno _ P _).1,
    (foldl_readPair_length argv P trackno _ P _).2, storeInt_apply, trackSamples]

theorem readTrack_dbcrc (argv : List Int) (P : Nat) (tb : Tables) (trackno i : Nat) :
    (readTrack argv P tb trackno).dbcrc i
      = (if trackno * P ≤ i ∧ i < trackno * P + P then
           u32 (atoiArg argv (2 + trackno * (2 * P + 1) + (i - trackno * P) + 1))
         else tb.dbcrc i)
    ∧ (readTrack argv P tb trackno).dbcrc450 i
      = (if trackno * P ≤ i ∧ i < trackno * P + P then
           u32 (atoiArg argv (2 + trackno * (2 * P + 1) + (P + (i - trackno * P)) + 1))
         else tb.dbcrc450 i) := by
  simp only [readTrack, (foldl_readPair_dbcrc _ _ _ _ _ _ _).1,
    (foldl_readPair_dbcrc _ _ _ _ _ _ _).2]
  simp

theorem readTables_length (argv : List Int) (P T k : Nat) :
    (readTables argv P T).length k = if k < T then trackSamples argv P k else 0 := by
  induction T with
  | zero => simp [readTables, zeroTables]
  | succ T ih =>
    have e : readTables argv P (T + 1) = readTrack argv P (readTables argv P T) T := by
      simp [readTables, List.range_succ, List.foldl_append]
    rw [e, readTrack_length, ih]
    by_cases h1 : k = T
    · subst h1; simp
    · by_cases h2 : k < T
      · have : k < T + 1 := by omega
        simp [h1, h2, this]
      · have : ¬ k < T + 1 := by omega
        simp [h1, h2, this]

theorem readTables_total (argv : List Int) (P T : Nat) :
    (readTables argv P T).total_length = trackStart argv P T := by
  induction T with
  | zero => simp [readTables, zeroTables, trackStart]
  | succ T ih =>
    have e : readTables argv P (T + 1) = readTrack argv P (readTables argv P T) T := by
      simp [readTables, List.range_succ, List.foldl_append]
    rw [e, readTrack_total, ih]
    simp [trackStart, Finset.sum_range_succ]

theorem readTables_dbcrc (argv : List Int) (P T k j : Nat) (hk : k < T) (hj : j < P) :
    (readTables argv P T).dbcrc (k * P + j)
      = u32 (atoiArg argv (2 + k * (2 * P + 1) + j + 1))
    ∧ (readTables argv P T).dbcrc450 (k * P + j)
      = u32 (atoiArg argv (2 + k * (2 * P + 1) + (P + j) + 1)) := by
  induction T with
  | zero => omega
  | succ T ih =>
    have e : readTables argv P (T + 1) = readTrack argv P (readTables argv P T) T := by
      simp [readTables, List.range_succ, List.foldl_append]
    rw [e, (readTrack_dbcrc _ _ _ _ _).1, (readTrack_dbcrc _ _ _ _ _).2]
    by_cases h1 : k = T
    · subst h1
      have : k * P ≤ k * P + j ∧ k * P + j < k * P + P := ⟨by omega, by omega⟩
      simp [this]
    · have hkT : k < T := by omega
      have hmul : (k + 1) * P ≤ T * P := Nat.mul_le_mul_right P hkT
      have : ¬ (T * P ≤ k * P + j ∧ k * P + j < T * P + P) := by
        intro h
        have : k * P + P ≤ T * P := by rw [Nat.add_mul, Nat.one_mul] at hmul; exact hmul
        omega
      simp only [if_neg this]
      exact ih hkT

theorem checkArgs_eq (argv : List Int) (P : Nat) (h2 : 2 ≤ argv.length)
    (hP : atoiArg argv 1 = (P : Int)) :
    checkArgs argv =
      if (argv.length - 2) % (2 * P + 1) ≠ 0 then .error .arguments
      else .ok ((P : Int), (((argv.length - 2) / (2 * P + 1) : Nat) : Int)) := by
  have e1 : ((argv.length : Int) - 2) = ((argv.length - 2 : Nat) : Int) := by omega
  have e2 : ((P : Int) * 2 + 1) = ((2 * P + 1 : Nat) : Int) := by push_cast; ring
  have h3 : ¬ ((argv.length : Int) < 2) := by omega
  simp only [checkArgs, hP, if_neg h3, e1, e2, ← Int.ofNat_tdiv, ← Int.ofNat_tmod]
  by_cases h : (argv.length - 2) % (2 * P + 1) = 0
  · have h' : ¬ (((argv.length - 2) % (2 * P + 1) : Nat) : Int) ≠ 0 := by
      rw [h]; simp
    rw [if_neg h', if_neg (by simpa using h)]
  · have h' : (((argv.length - 2) % (2 * P + 1) : Nat) : Int) ≠ 0 := by exact_mod_cast h
    rw [if_pos h', if_pos h]

theorem lengthTable_apply (argv : List Int) (P T k : Nat) :
    lengthTable argv P T k =
      if k = T then 2 * (CHECK_RADIUS : Int) + 1
      else if k < T then adjustedLength argv P T k else 0 := by
  simp only [lengthTable, adjustLength, adjustedLength, storeInt_apply]
  by_cases h1 : k = T
  · simp [h1]
  · simp only [if_neg h1]
    by_cases h2 : k < T
    · have hT : 0 < T := by omega
      have hT1 : T - 1 < T := by omega
      by_cases h3 : k + 1 = T
      · have : k = T - 1 := by omega
        have h5 : T - 1 + 1 = T := by omega
        simp [hT, h2, h3, this, storeInt_apply, readTables_length, hT1, h5]
      · have : ¬ k = T - 1 := by omega
        simp [hT, h2, h3, this, storeInt_apply, readTables_length]
    · have h4 : ¬ k = T - 1 := by omega
      by_cases hT : 0 < T
      · simp [hT, h2, h4, storeInt_apply, readTables_length]
      · simp [hT, h2, storeInt_apply, readTables_length]

/-- The run once the arguments have been accepted. -/
theorem run_eq (argv : List Int) (stdin : List (Nat × Nat)) (P T : Nat)
    (hargs : checkArgs argv = .ok ((P : Int), (T : Int))) :
    run argv stdin =
      if (trackStart argv P T).toNat ≤ stdin.length then
        .ok (finalOf argv stdin P T)
      else .error .eof := by
  have hT : ¬ ((T : Int) < 0) := by omega
  simp only [run, hargs, if_neg hT, Int.toNat_ofNat, mainLoop_init, readTables_total]
  by_cases h : (trackStart argv P T).toNat ≤ stdin.length
  · simp [h, lengthTable, finalOf, readTables_total]
  · simp [h]

theorem main_eq (argv : List Int) (stdin : List (Nat × Nat)) (P T : Nat)
    (hargs : checkArgs argv = .ok ((P : Int), (T : Int))) :
    main argv stdin =
      if (trackStart argv P T).toNat ≤ stdin.length then
        .ok (reportFinal (finalOf argv stdin P T))
      else .error .eof := by
  simp only [main, run_eq argv stdin P T hargs]
  split_ifs <;> rfl

theorem main_arguments_iff (argv : List Int) (stdin : List (Nat × Nat)) :
    main argv stdin = .error .arguments ↔ checkArgs argv = .error .arguments := by
  unfold main run
  cases hc : checkArgs argv with
  | error e =>
    simp only
    constructor <;> intro h <;> simpa using h
  | ok pt =>
    obtain ⟨p, t⟩ := pt
    simp only
    by_cases ht : t < 0
    · simp [ht]
    · simp only [if_neg ht]
      rw [mainLoop_init]
      split_ifs <;> simp

theorem packSample_eq (left right : Nat) (hl : left < 65536) (hr : right < 65536) :
    packSample left right = right * 65536 + left := by
  unfold packSample
  have h1 : right <<< 16 = 2 ^ 16 * right := by rw [Nat.shiftLeft_eq]; ring
  have h2 : 2 ^ 16 * right ||| left = 2 ^ 16 * right + left :=
    (Nat.mul_add_lt_is_or (by simpa using hl) right).symm
  rw [h1, h2]
  omega

theorem packSample_lt (sample0 sample1 : Nat) : packSample sample0 sample1 < 4294967296 := by
  unfold packSample
  omega

theorem sampleAt_lt (stdin : List (Nat × Nat)) (i : Nat) : sampleAt stdin i < 4294967296 := by
  unfold sampleAt
  rw [List.getD_eq_getElem?_getD]
  cases h : (List.map (fun sample => packSample sample.1 sample.2) stdin)[i]? with
  | none => simp
  | some v =>
    have := List.getElem?_mem h
    simp only [List.mem_map] at this
    obtain ⟨a, _, rfl⟩ := this
    simpa using packSample_lt a.1 a.2

/-! ## The report -/

theorem flatMap_range_single {α : Type} (n a : Nat) (g : Nat → List α)
    (h : ∀ i, i ≠ a → g i = []) (ha : a < n) : (List.range n).flatMap g = g a := by
  induction n with
  | zero => omega
  | succ n ih =>
    rw [List.range_succ, List.flatMap_append, List.flatMap_singleton]
    by_cases hn : a = n
    · subst hn
      have : (List.range a).flatMap g = [] := by
        rw [List.flatMap_eq_nil_iff]
        intro x hx
        exact h x (by have := List.mem_range.mp hx; omega)
      rw [this, List.nil_append]
    · rw [ih (by omega), h n (by omega), List.append_nil]

theorem flatMap_ite_singleton {α β : Type} (l : List α) (c : α → Prop) [DecidablePred c]
    (x : β) :
    (l.flatMap fun j => if c j then [x] else []) = List.replicate (l.filter c).length x := by
  induction l with
  | nil => simp
  | cons a l ih =>
    rw [List.flatMap_cons, ih]
    by_cases h : c a
    · simp [h, List.replicate_succ]
    · simp [h]

theorem mem_reportSlot {P : Nat} {dbcrc dbcrc450 arcf arcf450 crc2 : Nat → Nat}
    {trackno o : Nat} {l : ResultLine}
    (h : l ∈ reportSlot P dbcrc dbcrc450 arcf arcf450 crc2 trackno o) :
    l.trackno = trackno ∧ l.offset = (o : Int) - (CHECK_RADIUS : Int)
    ∧ (l.isOffset0 = true ↔ o = CHECK_RADIUS) := by
  unfold reportSlot at h
  simp only at h
  split_ifs at h with h0
  · simp only [List.mem_singleton] at h
    subst h
    exact ⟨rfl, rfl, by simp [ResultLine.isOffset0]; omega⟩
  · simp only [List.mem_flatMap] at h
    obtain ⟨j, _, hj⟩ := h
    split_ifs at hj
    · simp only [List.mem_singleton] at hj
      subst hj
      exact ⟨rfl, rfl, by simp [ResultLine.isOffset0]; omega⟩
    · simp at hj

theorem reportSlot_of_ne (P : Nat) (dbcrc dbcrc450 arcf arcf450 crc2 : Nat → Nat)
    (trackno o : Nat) (h : o ≠ CHECK_RADIUS) :
    reportSlot P dbcrc dbcrc450 arcf arcf450 crc2 trackno o =
      List.replicate
        ((List.range P).filter fun j =>
          arcf (ARCF_IDX trackno o) = dbcrc (trackno * P + j)
            ∨ arcf450 (ARCF_IDX trackno o) = dbcrc450 (trackno * P + j)).length
        (.matched trackno ((o : Int) - (CHECK_RADIUS : Int)) (arcf (ARCF_IDX trackno o))
          (arcf450 (ARCF_IDX trackno o))) := by
  have h0 : ¬ ((o : Int) - (CHECK_RADIUS : Int) = 0) := by omega
  simp only [reportSlot, if_neg h0]
  exact flatMap_ite_singleton _ _ _

theorem reportSlot_of_eq (P : Nat) (dbcrc dbcrc450 arcf arcf450 crc2 : Nat → Nat)
    (trackno : Nat) :
    reportSlot P dbcrc dbcrc450 arcf arcf450 crc2 trackno CHECK_RADIUS =
      [.offset0 trackno 0 (arcf (ARCF_IDX trackno CHECK_RADIUS))
        (arcf450 (ARCF_IDX trackno CHECK_RADIUS)) (crc2 trackno)] := by
  simp [reportSlot]

/-! ## The all-zero stream -/

theorem u32_zero : u32 0 = 0 := rfl

theorem store_zero (i : Nat) : store (fun _ => 0) i 0 = fun _ => 0 := by
  funext j
  simp [store]

theorem update_arcf_zero (track T : Nat) (length : Nat → Int) (ti tr last_tr : Nat) :
    update_arcf (fun _ => 0) (fun _ => 0) track T length ti tr last_tr 0
      = (fun _ => 0, fun _ => 0) := by
  unfold update_arcf
  simp only [Nat.cast_zero, zero_mul, add_zero, u32_zero, store_zero, ite_self, mul_zero,
    sub_zero, sub_self]

theorem update_framecrc_zero (ti : Nat) :
    update_framecrc (fun _ => 0) 0 0 ti 0 = (fun _ => 0, 0, 0) := by
  unfold update_framecrc
  simp only [Nat.cast_zero, zero_mul, add_zero, u32_zero, store_zero, ite_self, mul_zero,
    sub_zero, sub_self]

theorem loopBody_zeroed (T : Nat) (length : Nat → Int) (st : State) (h : st.Zeroed) :
    (loopBody T length st 0).Zeroed := by
  obtain ⟨h1, h2, h3, h4, h5, h6, h7⟩ := h
  unfold loopBody stepCounters stepTrailing stepArcf
  simp only [h1, h2, h3, h4, h5, h6, h7, update_arcf_zero, update_framecrc_zero]
  simp only [Nat.cast_zero, zero_mul, add_zero, u32_zero, store_zero, ite_self, mul_zero,
    sub_zero, sub_self, Nat.zero_mod, Nat.zero_div, Nat.zero_and, State.Zeroed]
  split_ifs <;> simp

theorem iterBody_zeroed (T : Nat) (length : Nat → Int) (s : Nat → Nat) (n : Nat)
    (hs : ∀ i, i < n → s i = 0) : (iterBody T length s n).Zeroed := by
  induction n with
  | zero => simp [iterBody, initState, State.Zeroed]
  | succ n ih =>
    rw [iterBody, hs n (by omega)]
    exact loopBody_zeroed T length _ (ih fun i hi => hs i (by omega))

theorem packSample_zero : packSample 0 0 = 0 := by decide

theorem sampleAt_zero (stdin : List (Nat × Nat)) (hz : ∀ r ∈ stdin, r = (0, 0)) (i : Nat) :
    sampleAt stdin i = 0 := by
  unfold sampleAt
  rw [List.getD_eq_getElem?_getD]
  cases h : (List.map (fun sample => packSample sample.1 sample.2) stdin)[i]? with
  | none => simp
  | some v =>
    have := List.getElem?_mem h
    simp only [List.mem_map] at this
    obtain ⟨a, ha, rfl⟩ := this
    rw [hz a ha]
    simpa using packSample_zero

theorem report_filter_offset0 (T P : Nat) (dbcrc dbcrc450 arcf arcf450 crc2 : Nat → Nat) :
    (report T P dbcrc dbcrc450 arcf arcf450 crc2).filter ResultLine.isOffset0
      = (List.range T).map (fun k =>
          ResultLine.offset0 k 0 (arcf (ARCF_IDX k CHECK_RADIUS))
            (arcf450 (ARCF_IDX k CHECK_RADIUS)) (crc2 k)) := by
  have hR : CHECK_RADIUS < ARCFS_PER_TRACK := by
    rw [CHECK_RADIUS_eq, ARCFS_PER_TRACK_eq]; omega
  have key : ∀ k, (((List.range ARCFS_PER_TRACK).flatMap fun o =>
        reportSlot P dbcrc dbcrc450 arcf arcf450 crc2 k o).filter ResultLine.isOffset0)
      = [ResultLine.offset0 k 0 (arcf (ARCF_IDX k CHECK_RADIUS))
          (arcf450 (ARCF_IDX k CHECK_RADIUS)) (crc2 k)] := by
    intro k
    rw [List.filter_flatMap, flatMap_range_single ARCFS_PER_TRACK CHECK_RADIUS _ _ hR]
    · rw [reportSlot_of_eq]
      simp [ResultLine.isOffset0]
    · intro i hi
      rw [List.filter_eq_nil_iff]
      intro a ha
      have := (mem_reportSlot ha).2.2
      intro h
      exact hi (this.mp h)
  unfold report
  rw [List.filter_flatMap, List.map_eq_flatMap]
  simp only [key]

theorem offset0_mem_report (T P : Nat) (dbcrc dbcrc450 arcf arcf450 crc2 : Nat → Nat)
    (k : Nat) (hk : k < T) :
    ResultLine.offset0 k 0 (arcf (ARCF_IDX k CHECK_RADIUS))
        (arcf450 (ARCF_IDX k CHECK_RADIUS)) (crc2 k)
      ∈ report T P dbcrc dbcrc450 arcf arcf450 crc2 := by
  have h : ResultLine.offset0 k 0 (arcf (ARCF_IDX k CHECK_RADIUS))
        (arcf450 (ARCF_IDX k CHECK_RADIUS)) (crc2 k)
      ∈ (report T P dbcrc dbcrc450 arcf arcf450 crc2).filter ResultLine.isOffset0 := by
    rw [report_filter_offset0, List.mem_map]
    exact ⟨k, List.mem_range.mpr hk, rfl⟩
  exact (List.mem_filter.mp h).1

/-! ## update_arcf on the two-dimensional view of `arcf` -/

theorem fst_ite {α β : Type} (c : Prop) [Decidable c] (x y : α × β) :
    (if c then x else y).1 = if c then x.1 else y.1 := by split_ifs <;> rfl

theorem snd_ite {α β : Type} (c : Prop) [Decidable c] (x y : α × β) :
    (if c then x else y).2 = if c then x.2 else y.2 := by split_ifs <;> rfl

theorem fun_ite {α β : Type} (c : Prop) [Decidable c] (f g : α → β) (a : α) :
    (if c then f else g) a = if c then f a else g a := by split_ifs <;> rfl

theorem update_arcf_eq (arcf sum : Nat → Nat) (k T : Nat) (len : Nat → Int)
    (ti tr ltr v : Nat) :
    update_arcf arcf sum k T len ti tr ltr v
      = updateDerived (updateBase arcf sum k T ti tr v) k len tr ltr v := rfl

theorem updateBase_arcf (arcf sum : Nat → Nat) (k T : Nat) (ti tr v : Nat) (j o : Nat)
    (ho : o < 5879) :
    (updateBase arcf sum k T ti tr v).1 (ARCF_IDX j o) =
      if k < T ∧ j = k ∧ o = 0 then
        u32 ((arcf (ARCF_IDX k 0) : Int) + (v : Int) * ((ti : Int) + 1))
      else if k < T ∧ j = k ∧ tr < 5878 ∧ o = tr + 1 then v
      else arcf (ARCF_IDX j o) := by
  simp only [updateBase, ARCF_IDX_eq, ARCFS_PER_TRACK_eq, fst_ite, snd_ite, fun_ite,
    store_apply]
  split_ifs <;> first | (with_reducible rfl) | (exfalso; omega)

theorem updateBase_sum (arcf sum : Nat → Nat) (k T : Nat) (ti tr v : Nat) (j : Nat) :
    (updateBase arcf sum k T ti tr v).2 j =
      if k < T ∧ j = k then u32 ((sum k : Int) + (v : Int)) else sum j := by
  simp only [updateBase, fst_ite, snd_ite, fun_ite, store_apply]
  split_ifs <;> first | (with_reducible rfl) | (exfalso; omega)

theorem updateDerived_arcf (b : (Nat → Nat) × (Nat → Nat)) (k : Nat) (len : Nat → Int)
    (tr ltr v : Nat) (j o : Nat) (ho : o < 5879) :
    (updateDerived b k len tr ltr v).1 (ARCF_IDX j o) =
      if 0 < k ∧ tr < 5878 ∧ j + 1 = k ∧ o = tr + 1 then
        u32 ((b.1 (ARCF_IDX j tr) : Int)
              - (len j - (ltr : Int)) * (b.1 (ARCF_IDX j (tr + 1)) : Int)
              - (b.2 j : Int) + len j * (v : Int))
      else b.1 (ARCF_IDX j o) := by
  rcases Nat.eq_zero_or_pos k with hk | hk
  · subst hk
    simp only [updateDerived, ARCF_IDX_eq, ARCFS_PER_TRACK_eq, fst_ite, snd_ite, fun_ite,
      store_apply]
    split_ifs <;> first | (with_reducible rfl) | (exfalso; omega)
  · obtain ⟨k, rfl⟩ : ∃ k2, k = k2 + 1 := ⟨k - 1, by omega⟩
    simp only [updateDerived, ARCF_IDX_eq, ARCFS_PER_TRACK_eq, fst_ite, snd_ite, fun_ite,
      store_apply, Nat.add_sub_cancel]
    split_ifs <;> first | (with_reducible rfl) | (exfalso; omega) | skip
    all_goals
      have hjk : j = k := by omega
      subst hjk
      with_reducible rfl

theorem updateDerived_sum (b : (Nat → Nat) × (Nat → Nat)) (k : Nat) (len : Nat → Int)
    (tr ltr v : Nat) (j : Nat) :
    (updateDerived b k len tr ltr v).2 j =
      if 0 < k ∧ tr < 5878 ∧ j + 1 = k then
        u32 ((b.2 j : Int) + ((v : Int) - (b.1 (ARCF_IDX j (tr + 1)) : Int)))
      else b.2 j := by
  rcases Nat.eq_zero_or_pos k with hk | hk
  · subst hk
    simp only [updateDerived, ARCF_IDX_eq, ARCFS_PER_TRACK_eq, fst_ite, snd_ite, fun_ite,
      store_apply]
    split_ifs <;> first | (with_reducible rfl) | (exfalso; omega)
  · obtain ⟨k, rfl⟩ : ∃ k2, k = k2 + 1 := ⟨k - 1, by omega⟩
    simp only [updateDerived, ARCF_IDX_eq, ARCFS_PER_TRACK_eq, fst_ite, snd_ite, fun_ite,
      store_apply, Nat.add_sub_cancel]
    split_ifs <;> first | (with_reducible rfl) | (exfalso; omega) | skip
    all_goals
      have hjk : j = k := by omega
      subst hjk
      with_reducible rfl

theorem update_arcf_arcf (arcf sum : Nat → Nat) (k T : Nat) (len : Nat → Int)
    (ti tr ltr v : Nat) (j o : Nat) (ho : o < 5879) :
    (update_arcf arcf sum k T len ti tr ltr v).1 (ARCF_IDX j o) =
      if 0 < k ∧ tr < 5878 ∧ j + 1 = k ∧ o = tr + 1 then
        u32 ((arcf (ARCF_IDX j tr) : Int)
              - (len j - (ltr : Int)) * (arcf (ARCF_IDX j (tr + 1)) : Int)
              - (sum j : Int) + len j * (v : Int))
      else if k < T ∧ j = k ∧ o = 0 then
        u32 ((arcf (ARCF_IDX k 0) : Int) + (v : Int) * ((ti : Int) + 1))
      else if k < T ∧ j = k ∧ tr < 5878 ∧ o = tr + 1 then v
      else arcf (ARCF_IDX j o) := by
  rw [update_arcf_eq, updateDerived_arcf _ _ _ _ _ _ _ _ ho]
  by_cases h : 0 < k ∧ tr < 5878 ∧ j + 1 = k ∧ o = tr + 1
  · have n1 : ¬ (k < T ∧ j = k ∧ tr = 0) := by omega
    have n2 : ¬ (k < T ∧ j = k ∧ tr < 5878 ∧ tr = tr + 1) := by omega
    have n3 : ¬ (k < T ∧ j = k ∧ tr + 1 = 0) := by omega
    have n4 : ¬ (k < T ∧ j = k ∧ tr < 5878 ∧ tr + 1 = tr + 1) := by omega
    have n5 : ¬ (k < T ∧ j = k) := by omega
    rw [if_pos h, if_pos h, updateBase_arcf _ _ _ _ _ _ _ _ _ (by omega : tr < 5879),
      updateBase_arcf _ _ _ _ _ _ _ _ _ (by omega : tr + 1 < 5879), updateBase_sum,
      if_neg n1, if_neg n2, if_neg n3, if_neg n4, if_neg n5]
  · rw [if_neg h, if_neg h, updateBase_arcf _ _ _ _ _ _ _ _ _ ho]

theorem update_arcf_sum (arcf sum : Nat → Nat) (k T : Nat) (len : Nat → Int)
    (ti tr ltr v : Nat) (j : Nat) :
    (update_arcf arcf sum k T len ti tr ltr v).2 j =
      if 0 < k ∧ tr < 5878 ∧ j + 1 = k then
        u32 ((sum j : Int) + ((v : Int) - (arcf (ARCF_IDX j (tr + 1)) : Int)))
      else if k < T ∧ j = k then u32 ((sum k : Int) + (v : Int))
      else sum j := by
  rw [update_arcf_eq, updateDerived_sum]
  by_cases h : 0 < k ∧ tr < 5878 ∧ j + 1 = k
  · have n3 : ¬ (k < T ∧ j = k ∧ tr + 1 = 0) := by omega
    have n4 : ¬ (k < T ∧ j = k ∧ tr < 5878 ∧ tr + 1 = tr + 1) := by omega
    have n5 : ¬ (k < T ∧ j = k) := by omega
    rw [if_pos h, if_pos h, updateBase_arcf _ _ _ _ _ _ _ _ _ (by omega : tr + 1 < 5879),
      updateBase_sum, if_neg n3, if_neg n4, if_neg n5]
  · rw [if_neg h, if_neg h, updateBase_sum]

/-! ## Arithmetic modulo `2^32` -/

theorem u32_lt (x : Int) : u32 x < 4294967296 := by
  unfold u32
  omega

theorem u32_cast (x : Int) : ((u32 x : Nat) : ZMod 4294967296) = (x : ZMod 4294967296) := by
  have h : ((u32 x : Nat) : Int) = x % ((4294967296 : Nat) : Int) := by
    unfold u32
    have : 0 ≤ x % 4294967296 := Int.emod_nonneg _ (by norm_num)
    rw [Int.toNat_of_nonneg this]
    norm_num
  rw [← Int.cast_natCast, h, ZMod.intCast_mod]

theorem eq_mod_of_cast_eq (a b : Nat) (ha : a < 4294967296)
    (h : (a : ZMod 4294967296) = (b : ZMod 4294967296)) : a = b % 4294967296 := by
  rw [ZMod.natCast_eq_natCast_iff'] at h
  rw [← h]
  exact (Nat.mod_eq_of_lt ha).symm

theorem u32_eq_mod (x : Int) (b : Nat)
    (h : (x : ZMod 4294967296) = (b : ZMod 4294967296)) : u32 x = b % 4294967296 :=
  eq_mod_of_cast_eq _ _ (u32_lt x) (by rw [u32_cast]; exact h)

theorem cast_mod32 (a : Nat) :
    ((a % 4294967296 : Nat) : ZMod 4294967296) = (a : ZMod 4294967296) :=
  ZMod.natCast_mod a 4294967296

theorem winCrc_succ (s : Nat → Nat) (b m c o : Nat) :
    winCrc s b (m + 1) c o = winCrc s b m c o + s (b + o + m) * (c + m + 1) := by
  simp [winCrc, Finset.sum_range_succ]

theorem winSum_succ (s : Nat → Nat) (b m o : Nat) :
    winSum s b (m + 1) o = winSum s b m o + s (b + o + m) := by
  simp [winSum, Finset.sum_range_succ]

theorem winCrc_zero (s : Nat → Nat) (b c o : Nat) : winCrc s b 0 c o = 0 := by
  simp [winCrc]

theorem winSum_zero (s : Nat → Nat) (b o : Nat) : winSum s b 0 o = 0 := by
  simp [winSum]

/-- Moving a window one sample forward, unweighted sum. -/
theorem winSum_shift (s : Nat → Nat) (b m o : Nat) :
    ((winSum s b m (o + 1) : Nat) : ZMod 4294967296)
      = (winSum s b m o : ZMod 4294967296) + (s (b + o + m) : ZMod 4294967296)
        - (s (b + o) : ZMod 4294967296) := by
  induction m with
  | zero => simp [winSum_zero]
  | succ m ih =>
    rw [winSum_succ, winSum_succ]
    push_cast
    rw [ih]
    have e : b + (o + 1) + m = b + o + (m + 1) := by omega
    rw [e]
    ring

/-- Moving a window one sample forward, weighted sum: the identity behind the
derivation of the shifted checksums. -/
theorem winCrc_shift (s : Nat → Nat) (b m c o : Nat) :
    ((winCrc s b m c (o + 1) : Nat) : ZMod 4294967296)
      = (winCrc s b m c o : ZMod 4294967296)
        - (c : ZMod 4294967296) * (s (b + o) : ZMod 4294967296)
        - (winSum s b m o : ZMod 4294967296)
        + ((c : ZMod 4294967296) + (m : ZMod 4294967296))
            * (s (b + o + m) : ZMod 4294967296) := by
  induction m with
  | zero => simp [winCrc_zero, winSum_zero]
  | succ m ih =>
    rw [winCrc_succ, winCrc_succ, winSum_succ]
    push_cast
    rw [ih]
    have e : b + (o + 1) + m = b + o + (m + 1) := by omega
    rw [e]
    ring

/-! ## The leading cursor -/

theorem loopBody_arcf (T : Nat) (len : Nat → Int) (st : State) (v : Nat) :
    (loopBody T len st v).arcf
      = (update_arcf st.arcf st.sum st.track T len st.ti st.tr st.last_tr v).1 := by
  unfold loopBody stepCounters stepTrailing stepArcf
  simp only
  split_ifs <;> rfl

theorem loopBody_sum (T : Nat) (len : Nat → Int) (st : State) (v : Nat) :
    (loopBody T len st v).sum
      = (update_arcf st.arcf st.sum st.track T len st.ti st.tr st.last_tr v).2 := by
  unfold loopBody stepCounters stepTrailing stepArcf
  simp only
  split_ifs <;> rfl

theorem loopBody_track (T : Nat) (len : Nat → Int) (st : State) (v : Nat) :
    (loopBody T len st v).track
      = if ((st.ti + 1 : Nat) : Int) = len st.track then st.track + 1 else st.track := by
  unfold loopBody stepCounters stepTrailing stepArcf
  simp only
  split_ifs <;> rfl

theorem loopBody_ti (T : Nat) (len : Nat → Int) (st : State) (v : Nat) :
    (loopBody T len st v).ti
      = if ((st.ti + 1 : Nat) : Int) = len st.track then 0 else st.ti + 1 := by
  unfold loopBody stepCounters stepTrailing stepArcf
  simp only
  split_ifs <;> rfl

theorem loopBody_tr (T : Nat) (len : Nat → Int) (st : State) (v : Nat) :
    (loopBody T len st v).tr
      = if ((st.ti + 1 : Nat) : Int) = len st.track then 0 else st.tr + 1 := by
  unfold loopBody stepCounters stepTrailing stepArcf
  simp only
  split_ifs <;> rfl

theorem loopBody_last_tr (T : Nat) (len : Nat → Int) (st : State) (v : Nat) :
    (loopBody T len st v).last_tr
      = if ((st.ti + 1 : Nat) : Int) = len st.track then st.tr + 1 else st.last_tr := by
  unfold loopBody stepCounters stepTrailing stepArcf
  simp only
  split_ifs <;> rfl

theorem bLead_succ (N : Nat → Nat) (k : Nat) : bLead N (k + 1) = bLead N k + mLead N k := by
  simp [bLead, Finset.sum_range_succ]

/-- Value of a derived slot (line 59). -/
theorem derived_value (s : Nat → Nat) (b m c tr : Nat) (A F Sm v : Nat) (lenj : Int)
    (ltr : Nat) (hA : A = winCrc s b m c tr % 4294967296) (hF : F = s (b + tr))
    (hS : Sm = winSum s b m tr % 4294967296) (hlen : lenj = ((c + m : Nat) : Int))
    (hltr : ltr = m) (hv : v = s (b + tr + m)) :
    u32 ((A : Int) - (lenj - (ltr : Int)) * (F : Int) - (Sm : Int) + lenj * (v : Int))
      = winCrc s b m c (tr + 1) % 4294967296 := by
  apply u32_eq_mod
  have hA2 : (A : ZMod 4294967296) = (winCrc s b m c tr : ZMod 4294967296) := by
    rw [hA, cast_mod32]
  have hS2 : (Sm : ZMod 4294967296) = (winSum s b m tr : ZMod 4294967296) := by
    rw [hS, cast_mod32]
  rw [winCrc_shift, hlen, hltr, hF, hv]
  push_cast
  rw [hA2, hS2]
  ring

/-- Value of the running sum after a derivation (line 64). -/
theorem derived_sum_value (s : Nat → Nat) (b m tr : Nat) (F Sm v : Nat)
    (hF : F = s (b + tr)) (hS : Sm = winSum s b m tr % 4294967296)
    (hv : v = s (b + tr + m)) :
    u32 ((Sm : Int) + ((v : Int) - (F : Int))) = winSum s b m (tr + 1) % 4294967296 := by
  apply u32_eq_mod
  have hS2 : (Sm : ZMod 4294967296) = (winSum s b m tr : ZMod 4294967296) := by
    rw [hS, cast_mod32]
  rw [winSum_shift, hF, hv]
  push_cast
  rw [hS2]
  ring

/-- Value of the base checksum after one more sample (line 49). -/
theorem base_value (s : Nat → Nat) (b c tr : Nat) (A v ti : Nat)
    (hA : A = winCrc s b tr c 0 % 4294967296) (hv : v = s (b + tr)) (hti : ti = c + tr) :
    u32 ((A : Int) + (v : Int) * ((ti : Int) + 1))
      = winCrc s b (tr + 1) c 0 % 4294967296 := by
  apply u32_eq_mod
  have hA2 : (A : ZMod 4294967296) = (winCrc s b tr c 0 : ZMod 4294967296) := by
    rw [hA, cast_mod32]
  rw [winCrc_succ, hv, hti]
  push_cast
  rw [hA2]
  simp only [add_zero]

/-- Value of the running sum after one more sample (line 48). -/
theorem base_sum_value (s : Nat → Nat) (b tr : Nat) (Sm v : Nat)
    (hS : Sm = winSum s b tr 0 % 4294967296) (hv : v = s (b + tr)) :
    u32 ((Sm : Int) + (v : Int)) = winSum s b (tr + 1) 0 % 4294967296 := by
  apply u32_eq_mod
  have hS2 : (Sm : ZMod 4294967296) = (winSum s b tr 0 : ZMod 4294967296) := by
    rw [hS, cast_mod32]
  rw [winSum_succ, hv]
  push_cast
  rw [hS2]
  simp only [add_zero]

theorem leadInv_init (T : Nat) (N : Nat → Nat) (s : Nat → Nat) (hm0 : 5878 ≤ mLead N 0) :
    LeadInv T N s initState where
  track_le := by simp [initState]
  di_eq := by simp [initState, bLead]
  ti_eq := by simp [initState, cFirst]
  tr_lt := by intro _; simp only [initState]; omega
  tr_end := by intro _; rfl
  last := by simp [initState]
  done := by intro j o h; simp [initState] at h
  prevDone := by intro j o h; simp [initState] at h
  prevSaved := by intro j o h; simp [initState] at h
  prevSum := by intro j h; simp [initState] at h
  curCrc := by intro _; simp [initState, winCrc_zero]
  curSaved := by intro _ o h; simp [initState] at h
  curSum := by intro _; simp [initState, winSum_zero]
  future := by intro j _; simp [initState]

theorem cFirst_zero : cFirst 0 = 2939 := by simp [cFirst, CHECK_RADIUS_eq]

theorem cFirst_pos (k : Nat) (h : 0 < k) : cFirst k = 0 := by
  have : k ≠ 0 := by omega
  simp [cFirst, this]

theorem cFirst_add_mLead (N : Nat → Nat) (hm0 : 5878 ≤ mLead N 0) (k : Nat) :
    cFirst k + mLead N k = N k := by
  rcases Nat.eq_zero_or_pos k with h | h
  · subst h
    unfold mLead at hm0 ⊢
    rw [cFirst_zero] at hm0 ⊢
    omega
  · unfold mLead
    rw [cFirst_pos k h]
    omega

theorem mLead_ge (T : Nat) (N : Nat → Nat) (hm0 : 5878 ≤ mLead N 0)
    (hmk : ∀ k, 1 ≤ k → k ≤ T → 5878 ≤ N k) (k : Nat) (hk : k ≤ T) : 5878 ≤ mLead N k := by
  rcases Nat.eq_zero_or_pos k with h | h
  · subst h; exact hm0
  · have := hmk k h hk
    unfold mLead
    rw [cFirst_pos k h]
    omega

set_option maxHeartbeats 1000000 in
theorem leadInv_step (T : Nat) (N : Nat → Nat) (s : Nat → Nat) (len : Nat → Int)
    (st : State) (v : Nat)
    (hlen : ∀ k, k ≤ T → len k = (N k : Int))
    (hm0 : 5878 ≤ mLead N 0) (hmk : ∀ k, 1 ≤ k → k ≤ T → 5878 ≤ N k)
    (inv : LeadInv T N s st) (hk : st.track ≤ T) (hv : v = s st.di) :
    LeadInv T N s (loopBody T len st v) := by
  have hc := cFirst_add_mLead N hm0 st.track
  have hmge := mLead_ge T N hm0 hmk st.track hk
  have htr := inv.tr_lt hk
  have hti := inv.ti_eq
  have hdi := inv.di_eq
  have hlk := hlen st.track hk
  have hcond : (((st.ti + 1 : Nat) : Int) = len st.track) ↔ st.tr + 1 = mLead N st.track := by
    rw [hlk]
    constructor
    · intro h; have : st.ti + 1 = N st.track := by exact_mod_cast h
      omega
    · intro h; have : st.ti + 1 = N st.track := by omega
      exact_mod_cast this
  have e_arcf := fun j o (ho : o < 5879) =>
    (congrFun (loopBody_arcf T len st v) (ARCF_IDX j o)).trans
      (update_arcf_arcf st.arcf st.sum st.track T len st.ti st.tr st.last_tr v j o ho)
  have e_sum := fun j =>
    (congrFun (loopBody_sum T len st v) j).trans
      (update_arcf_sum st.arcf st.sum st.track T len st.ti st.tr st.last_tr v j)
  have e_di := loopBody_di T len st v
  -- values written by this iteration
  have val_derived : ∀ j, j + 1 = st.track → st.tr < 5878 →
      u32 ((st.arcf (ARCF_IDX j st.tr) : Int)
            - (len j - (st.last_tr : Int)) * (st.arcf (ARCF_IDX j (st.tr + 1)) : Int)
            - (st.sum j : Int) + len j * (v : Int))
        = winCrc s (bLead N j) (mLead N j) (cFirst j) (st.tr + 1) % 4294967296 := by
    intro j hj htr2
    have hjT : j < T := by omega
    apply derived_value s (bLead N j) (mLead N j) (cFirst j) st.tr
    · exact inv.prevDone j st.tr hj hjT (le_refl _) (by omega)
    · exact inv.prevSaved j st.tr hj hjT (le_refl _) (by omega)
    · exact inv.prevSum j hj hjT (by omega)
    · rw [hlen j (by omega), cFirst_add_mLead N hm0 j]
    · have := inv.last (by omega)
      rw [this]
      congr 2
      omega
    · rw [hv, hdi, ← hj, bLead_succ]
      congr 1
      omega
  have val_dsum : ∀ j, j + 1 = st.track → st.tr < 5878 →
      u32 ((st.sum j : Int) + ((v : Int) - (st.arcf (ARCF_IDX j (st.tr + 1)) : Int)))
        = winSum s (bLead N j) (mLead N j) (st.tr + 1) % 4294967296 := by
    intro j hj htr2
    have hjT : j < T := by omega
    apply derived_sum_value s (bLead N j) (mLead N j) st.tr
    · exact inv.prevSaved j st.tr hj hjT (le_refl _) (by omega)
    · exact inv.prevSum j hj hjT (by omega)
    · rw [hv, hdi, ← hj, bLead_succ]
      congr 1
      omega
  have val_base : st.track < T →
      u32 ((st.arcf (ARCF_IDX st.track 0) : Int) + (v : Int) * ((st.ti : Int) + 1))
        = winCrc s (bLead N st.track) (st.tr + 1) (cFirst st.track) 0 % 4294967296 := by
    intro hT
    exact base_value s _ _ _ _ _ _ (inv.curCrc hT) (by rw [hv, hdi]) hti
  have val_bsum : st.track < T →
      u32 ((st.sum st.track : Int) + (v : Int))
        = winSum s (bLead N st.track) (st.tr + 1) 0 % 4294967296 := by
    intro hT
    exact base_sum_value s _ _ _ _ (inv.curSum hT) (by rw [hv, hdi])
  by_cases hb : st.tr + 1 = mLead N st.track
  · -- the end of the current track is reached
    have hc1 := hcond.mpr hb
    have e_track : (loopBody T len st v).track = st.track + 1 := by
      rw [loopBody_track, if_pos hc1]
    have e_tr : (loopBody T len st v).tr = 0 := by rw [loopBody_tr, if_pos hc1]
    have e_ti : (loopBody T len st v).ti = 0 := by rw [loopBody_ti, if_pos hc1]
    have e_last : (loopBody T len st v).last_tr = st.tr + 1 := by
      rw [loopBody_last_tr, if_pos hc1]
    refine ⟨?_, ?_, ?_, ?_, ?_, ?_, ?_, ?_, ?_, ?_, ?_, ?_, ?_, ?_⟩
    · rw [e_track]; omega
    · rw [e_di, e_track, e_tr, bLead_succ]; omega
    · rw [e_ti, e_track, e_tr, cFirst_pos _ (by omega)]
    · rw [e_track, e_tr]
      intro h
      have := mLead_ge T N hm0 hmk (st.track + 1) h
      omega
    · intro _; exact e_tr
    · intro _; rw [e_last, e_track, Nat.add_sub_cancel]; exact hb
    · intro j o hj ho
      rw [e_track] at hj
      rw [e_arcf j o ho]
      by_cases hjk : j + 1 = st.track
      · by_cases ho2 : o = st.tr + 1
        · have c1 : 0 < st.track ∧ st.tr < 5878 ∧ j + 1 = st.track ∧ o = st.tr + 1 := by
            omega
          rw [if_pos c1, ho2]
          exact val_derived j hjk (by omega)
        · have c1 : ¬ (0 < st.track ∧ st.tr < 5878 ∧ j + 1 = st.track ∧ o = st.tr + 1) := by
            omega
          have c2 : ¬ (st.track < T ∧ j = st.track ∧ o = 0) := by omega
          have c3 : ¬ (st.track < T ∧ j = st.track ∧ st.tr < 5878 ∧ o = st.tr + 1) := by
            omega
          rw [if_neg c1, if_neg c2, if_neg c3]
          exact inv.prevDone j o hjk (by omega) (by omega) ho
      · have c1 : ¬ (0 < st.track ∧ st.tr < 5878 ∧ j + 1 = st.track ∧ o = st.tr + 1) := by
          omega
        have c2 : ¬ (st.track < T ∧ j = st.track ∧ o = 0) := by omega
        have c3 : ¬ (st.track < T ∧ j = st.track ∧ st.tr < 5878 ∧ o = st.tr + 1) := by
          omega
        rw [if_neg c1, if_neg c2, if_neg c3]
        exact inv.done j o (by omega) ho
    · intro j o hj hjT ho0 ho
      rw [e_track] at hj
      rw [e_tr] at ho0
      have hjk : j = st.track := by omega
      have ho2 : o = 0 := by omega
      subst ho2
      rw [e_arcf j 0 ho]
      have c1 : ¬ (0 < st.track ∧ st.tr < 5878 ∧ j + 1 = st.track ∧ 0 = st.tr + 1) := by
        omega
      have c2 : st.track < T ∧ j = st.track ∧ 0 = 0 := by omega
      rw [if_neg c1, if_pos c2, hjk, ← hb]
      exact val_base (by omega)
    · intro j o hj hjT _ ho
      rw [e_track] at hj
      have hjk : j = st.track := by omega
      rw [e_arcf j (o + 1) ho]
      have c1 : ¬ (0 < st.track ∧ st.tr < 5878 ∧ j + 1 = st.track ∧ o + 1 = st.tr + 1) := by
        omega
      have c2 : ¬ (st.track < T ∧ j = st.track ∧ o + 1 = 0) := by omega
      rw [if_neg c1, if_neg c2]
      by_cases ho2 : o = st.tr
      · have c3 : st.track < T ∧ j = st.track ∧ st.tr < 5878 ∧ o + 1 = st.tr + 1 := by omega
        rw [if_pos c3, hv, hdi, hjk, ho2]
      · have c3 : ¬ (st.track < T ∧ j = st.track ∧ st.tr < 5878 ∧ o + 1 = st.tr + 1) := by
          omega
        rw [if_neg c3, hjk]
        exact inv.curSaved (by omega) o (by omega) ho
    · intro j hj hjT _
      rw [e_track] at hj
      have hjk : j = st.track := by omega
      rw [e_sum j, e_tr]
      have c1 : ¬ (0 < st.track ∧ st.tr < 5878 ∧ j + 1 = st.track) := by omega
      have c2 : st.track < T ∧ j = st.track := by omega
      rw [if_neg c1, if_pos c2, hjk, ← hb]
      exact val_bsum (by omega)
    · rw [e_track, e_tr]
      intro hT
      rw [e_arcf _ 0 (by omega)]
      have c1 : ¬ (0 < st.track ∧ st.tr < 5878 ∧ st.track + 1 + 1 = st.track
          ∧ 0 = st.tr + 1) := by omega
      have c2 : ¬ (st.track < T ∧ st.track + 1 = st.track ∧ 0 = 0) := by omega
      have c3 : ¬ (st.track < T ∧ st.track + 1 = st.track ∧ st.tr < 5878
          ∧ 0 = st.tr + 1) := by omega
      rw [if_neg c1, if_neg c2, if_neg c3, winCrc_zero]
      exact (inv.future (st.track + 1) (by omega)).1 0 (by omega)
    · rw [e_track, e_tr]
      intro _ o ho
      omega
    · rw [e_track, e_tr]
      intro hT
      rw [e_sum]
      have c1 : ¬ (0 < st.track ∧ st.tr < 5878 ∧ st.track + 1 + 1 = st.track) := by omega
      have c2 : ¬ (st.track < T ∧ st.track + 1 = st.track) := by omega
      rw [if_neg c1, if_neg c2, winSum_zero]
      exact (inv.future (st.track + 1) (by omega)).2
    · rw [e_track]
      intro j hj
      constructor
      · intro o ho
        rw [e_arcf j o ho]
        have c1 : ¬ (0 < st.track ∧ st.tr < 5878 ∧ j + 1 = st.track ∧ o = st.tr + 1) := by
          omega
        have c2 : ¬ (st.track < T ∧ j = st.track ∧ o = 0) := by omega
        have c3 : ¬ (st.track < T ∧ j = st.track ∧ st.tr < 5878 ∧ o = st.tr + 1) := by
          omega
        rw [if_neg c1, if_neg c2, if_neg c3]
        exact (inv.future j (by omega)).1 o ho
      · rw [e_sum]
        have c1 : ¬ (0 < st.track ∧ st.tr < 5878 ∧ j + 1 = st.track) := by omega
        have c2 : ¬ (st.track < T ∧ j = st.track) := by omega
        rw [if_neg c1, if_neg c2]
        exact (inv.future j (by omega)).2
  · -- the cursor stays in the current track
    have hc1 : ¬ (((st.ti + 1 : Nat) : Int) = len st.track) := fun h => hb (hcond.mp h)
    have e_track : (loopBody T len st v).track = st.track := by
      rw [loopBody_track, if_neg hc1]
    have e_tr : (loopBody T len st v).tr = st.tr + 1 := by rw [loopBody_tr, if_neg hc1]
    have e_ti : (loopBody T len st v).ti = st.ti + 1 := by rw [loopBody_ti, if_neg hc1]
    have e_last : (loopBody T len st v).last_tr = st.last_tr := by
      rw [loopBody_last_tr, if_neg hc1]
    refine ⟨?_, ?_, ?_, ?_, ?_, ?_, ?_, ?_, ?_, ?_, ?_, ?_, ?_, ?_⟩
    · rw [e_track]; omega
    · rw [e_di, e_track, e_tr]; omega
    · rw [e_ti, e_track, e_tr]; omega
    · rw [e_track, e_tr]; intro _; omega
    · rw [e_track]; intro h; omega
    · rw [e_track, e_last]; exact inv.last
    · intro j o hj ho
      rw [e_track] at hj
      rw [e_arcf j o ho]
      have c1 : ¬ (0 < st.track ∧ st.tr < 5878 ∧ j + 1 = st.track ∧ o = st.tr + 1) := by
        omega
      have c2 : ¬ (st.track < T ∧ j = st.track ∧ o = 0) := by omega
      have c3 : ¬ (st.track < T ∧ j = st.track ∧ st.tr < 5878 ∧ o = st.tr + 1) := by
        omega
      rw [if_neg c1, if_neg c2, if_neg c3]
      exact inv.done j o hj ho
    · intro j o hj hjT ho0 ho
      rw [e_track] at hj
      rw [e_tr] at ho0
      rw [e_arcf j o ho]
      by_cases ho2 : o = st.tr + 1
      · have c1 : 0 < st.track ∧ st.tr < 5878 ∧ j + 1 = st.track ∧ o = st.tr + 1 := by
          omega
        rw [if_pos c1, ho2]
        exact val_derived j hj (by omega)
      · have c1 : ¬ (0 < st.track ∧ st.tr < 5878 ∧ j + 1 = st.track ∧ o = st.tr + 1) := by
          omega
        have c2 : ¬ (st.track < T ∧ j = st.track ∧ o = 0) := by omega
        have c3 : ¬ (st.track < T ∧ j = st.track ∧ st.tr < 5878 ∧ o = st.tr + 1) := by
          omega
        rw [if_neg c1, if_neg c2, if_neg c3]
        exact inv.prevDone j o hj hjT (by omega) ho
    · intro j o hj hjT ho0 ho
      rw [e_track] at hj
      rw [e_tr] at ho0
      rw [e_arcf j (o + 1) ho]
      have c1 : ¬ (0 < st.track ∧ st.tr < 5878 ∧ j + 1 = st.track ∧ o + 1 = st.tr + 1) := by
        omega
      have c2 : ¬ (st.track < T ∧ j = st.track ∧ o + 1 = 0) := by omega
      have c3 : ¬ (st.track < T ∧ j = st.track ∧ st.tr < 5878 ∧ o + 1 = st.tr + 1) := by
        omega
      rw [if_neg c1, if_neg c2, if_neg c3]
      exact inv.prevSaved j o hj hjT (by omega) ho
    · intro j hj hjT htr2
      rw [e_track] at hj
      rw [e_tr] at htr2 ⊢
      rw [e_sum j]
      have c1 : 0 < st.track ∧ st.tr < 5878 ∧ j + 1 = st.track := by omega
      rw [if_pos c1]
      exact val_dsum j hj (by omega)
    · rw [e_track, e_tr]
      intro hT
      rw [e_arcf _ 0 (by omega)]
      have c1 : ¬ (0 < st.track ∧ st.tr < 5878 ∧ st.track + 1 = st.track
          ∧ 0 = st.tr + 1) := by omega
      have c2 : st.track < T ∧ st.track = st.track ∧ 0 = 0 := by omega
      rw [if_neg c1, if_pos c2]
      exact val_base hT
    · rw [e_track, e_tr]
      intro hT o ho0 ho
      rw [e_arcf _ (o + 1) ho]
      have c1 : ¬ (0 < st.track ∧ st.tr < 5878 ∧ st.track + 1 = st.track
          ∧ o + 1 = st.tr + 1) := by omega
      have c2 : ¬ (st.track < T ∧ st.track = st.track ∧ o + 1 = 0) := by omega
      rw [if_neg c1, if_neg c2]
      by_cases ho2 : o = st.tr
      · have c3 : st.track < T ∧ st.track = st.track ∧ st.tr < 5878 ∧ o + 1 = st.tr + 1 := by
          omega
        rw [if_pos c3, hv, hdi, ho2]
      · have c3 : ¬ (st.track < T ∧ st.track = st.track ∧ st.tr < 5878
            ∧ o + 1 = st.tr + 1) := by omega
        rw [if_neg c3]
        exact inv.curSaved hT o (by omega) ho
    · rw [e_track, e_tr]
      intro hT
      rw [e_sum]
      have c1 : ¬ (0 < st.track ∧ st.tr < 5878 ∧ st.track + 1 = st.track) := by omega
      have c2 : st.track < T ∧ st.track = st.track := by omega
      rw [if_neg c1, if_pos c2]
      exact val_bsum hT
    · rw [e_track]
      intro j hj
      constructor
      · intro o ho
        rw [e_arcf j o ho]
        have c1 : ¬ (0 < st.track ∧ st.tr < 5878 ∧ j + 1 = st.track ∧ o = st.tr + 1) := by
          omega
        have c2 : ¬ (st.track < T ∧ j = st.track ∧ o = 0) := by omega
        have c3 : ¬ (st.track < T ∧ j = st.track ∧ st.tr < 5878 ∧ o = st.tr + 1) := by
          omega
        rw [if_neg c1, if_neg c2, if_neg c3]
        exact (inv.future j hj).1 o ho
      · rw [e_sum]
        have c1 : ¬ (0 < st.track ∧ st.tr < 5878 ∧ j + 1 = st.track) := by omega
        have c2 : ¬ (st.track < T ∧ j = st.track) := by omega
        rw [if_neg c1, if_neg c2]
        exact (inv.future j hj).2

theorem bLead_mono (N : Nat → Nat) (a b : Nat) (h : a ≤ b) : bLead N a ≤ bLead N b := by
  induction b with
  | zero =>
    have : a = 0 := by omega
    rw [this]
  | succ b ih =>
    by_cases hab : a = b + 1
    · rw [hab]
    · have := ih (by omega)
      rw [bLead_succ]
      omega

theorem leadInv_iter (T : Nat) (N : Nat → Nat) (s : Nat → Nat) (len : Nat → Int)
    (hlen : ∀ k, k ≤ T → len k = (N k : Int))
    (hm0 : 5878 ≤ mLead N 0) (hmk : ∀ k, 1 ≤ k → k ≤ T → 5878 ≤ N k) :
    ∀ n, n ≤ bLead N (T + 1) → LeadInv T N s (iterBody T len s n) := by
  intro n
  induction n with
  | zero => intro _; exact leadInv_init T N s hm0
  | succ n ih =>
    intro hn
    have inv := ih (by omega)
    have hdi := iterBody_di T len s n
    have hk : (iterBody T len s n).track ≤ T := by
      by_contra hcon
      have h1 : (iterBody T len s n).track = T + 1 := by
        have := inv.track_le
        omega
      have h2 := inv.tr_end h1
      have h3 := inv.di_eq
      rw [h1, h2, hdi] at h3
      omega
    exact leadInv_step T N s len _ _ hlen hm0 hmk inv hk (by rw [hdi])

/-- The v1 table at the end of the loop, for tracks long enough to seed and finish
all shifts. -/
theorem lead_final (T : Nat) (N : Nat → Nat) (s : Nat → Nat) (len : Nat → Int)
    (hlen : ∀ k, k ≤ T → len k = (N k : Int))
    (hm0 : 5878 ≤ mLead N 0) (hmk : ∀ k, 1 ≤ k → k ≤ T → 5878 ≤ N k)
    (j o : Nat) (hj : j < T) (ho : o < 5879) :
    (iterBody T len s (bLead N (T + 1))).arcf (ARCF_IDX j o)
      = winCrc s (bLead N j) (mLead N j) (cFirst j) o % 4294967296 := by
  have inv := leadInv_iter T N s len hlen hm0 hmk (bLead N (T + 1)) (le_refl _)
  have hdi := iterBody_di T len s (bLead N (T + 1))
  have hk : (iterBody T len s (bLead N (T + 1))).track = T + 1 := by
    by_contra hcon
    have h1 : (iterBody T len s (bLead N (T + 1))).track ≤ T := by
      have := inv.track_le
      omega
    have h2 := inv.tr_lt h1
    have h3 := inv.di_eq
    rw [hdi] at h3
    have h4 := bLead_mono N ((iterBody T len s (bLead N (T + 1))).track + 1) (T + 1) (by omega)
    rw [bLead_succ] at h4
    omega
  exact inv.done j o (by omega) ho

/-! ## From the argument list to the table of lengths -/

theorem adjustedLength_of_lt (argv : List Int) (P T k : Nat) (h : k + 1 < T) :
    adjustedLength argv P T k = trackSamples argv P k := by
  have : ¬ (k + 1 = T) := by omega
  simp [adjustedLength, this]

theorem adjustedLength_last (argv : List Int) (P T : Nat) :
    adjustedLength argv P (T + 1) T = trackSamples argv P T - ((CHECK_RADIUS : Int) + 1) := by
  simp [adjustedLength]

theorem trackStart_succ (argv : List Int) (P k : Nat) :
    trackStart argv P (k + 1) = trackStart argv P k + trackSamples argv P k := by
  simp [trackStart, Finset.sum_range_succ]

theorem sum_adjusted_lt (argv : List Int) (P T k : Nat) (h : k < T) :
    ∑ j ∈ Finset.range k, adjustedLength argv P T j = trackStart argv P k := by
  unfold trackStart
  apply Finset.sum_congr rfl
  intro j hj
  have := Finset.mem_range.mp hj
  exact adjustedLength_of_lt argv P T j (by omega)

theorem sum_adjusted_all (argv : List Int) (P T : Nat) (h : 1 ≤ T) :
    ∑ j ∈ Finset.range T, adjustedLength argv P T j
      = trackStart argv P T - ((CHECK_RADIUS : Int) + 1) := by
  obtain ⟨T, rfl⟩ : ∃ T2, T = T2 + 1 := ⟨T - 1, by omega⟩
  rw [Finset.sum_range_succ, sum_adjusted_lt argv P (T + 1) T (by omega), adjustedLength_last,
    trackStart_succ]
  ring

/-- Cast of `bLead` once the first track is at least `R` long. -/
theorem bLead_cast (N : Nat → Nat) (h0 : 2939 ≤ N 0) (k : Nat) :
    ((bLead N (k + 1) : Nat) : Int) = ∑ j ∈ Finset.range (k + 1), (N j : Int) - 2939 := by
  induction k with
  | zero =>
    simp only [bLead, Finset.sum_range_one, mLead, cFirst_zero, zero_add]
    omega
  | succ k ih =>
    rw [bLead_succ, Finset.sum_range_succ, Nat.cast_add, ih]
    have : mLead N (k + 1) = N (k + 1) := by
      simp [mLead, cFirst_pos (k + 1) (by omega)]
    rw [this]
    ring

theorem winCrc_cast_Icc (s : Nat → Nat) (S : Int) (b m c o : Nat)
    (hb : (b : Int) = S - 2939 + (c : Int)) :
    ((winCrc s b m c o : Nat) : Int)
      = ∑ i ∈ Finset.Icc ((c : Int) + 1) (((c + m : Nat) : Int)),
          (s (S + ((o : Int) - 2939) + i - 1).toNat : Int) * i := by
  rw [Int.Icc_eq_finset_map, Finset.sum_map]
  have e : (((c + m : Nat) : Int) + 1 - ((c : Int) + 1)).toNat = m := by
    push_cast; omega
  rw [e]
  unfold winCrc
  push_cast
  apply Finset.sum_congr rfl
  intro t _
  have e2 : (S + ((o : Int) - 2939) + ((c : Int) + 1 + (t : Int)) - 1).toNat = b + o + t := by
    omega
  simp only [Function.Embedding.trans_apply, Nat.castEmbedding_apply, addLeftEmbedding_apply]
  rw [e2]
  ring

/-- Facts on the table of lengths under the hypotheses of the sliding-offset
theorem. -/
theorem long_tracks_table (argv : List Int) (P T : Nat) (hT : 1 ≤ T)
    (h0 : 3 * (CHECK_RADIUS : Int) ≤ adjustedLength argv P T 0)
    (hk : ∀ k, 1 ≤ k → k < T → 2 * (CHECK_RADIUS : Int) ≤ adjustedLength argv P T k) :
    (∀ k, k ≤ T → lengthTable argv P T k = (lenNat argv P T k : Int))
    ∧ 5878 ≤ mLead (lenNat argv P T) 0
    ∧ (∀ k, 1 ≤ k → k ≤ T → 5878 ≤ lenNat argv P T k)
    ∧ (∀ k, k < T → (lenNat argv P T k : Int) = adjustedLength argv P T k)
    ∧ lenNat argv P T T = 5879 := by
  rw [CHECK_RADIUS_eq] at h0 hk
  have hlt : ∀ k, k < T → lengthTable argv P T k = adjustedLength argv P T k := by
    intro k hk2
    rw [lengthTable_apply, if_neg (by omega), if_pos hk2]
  have hTT : lengthTable argv P T T = 5879 := by
    rw [lengthTable_apply, if_pos rfl, CHECK_RADIUS_eq]; norm_num
  have hge : ∀ k, k < T → 5878 ≤ adjustedLength argv P T k := by
    intro k hk2
    rcases Nat.eq_zero_or_pos k with h | h
    · subst h; omega
    · have := hk k h hk2; omega
  have hnat : ∀ k, k < T → (lenNat argv P T k : Int) = adjustedLength argv P T k := by
    intro k hk2
    have := hge k hk2
    unfold lenNat
    rw [hlt k hk2]
    omega
  have hnatT : lenNat argv P T T = 5879 := by
    unfold lenNat; rw [hTT]; rfl
  refine ⟨?_, ?_, ?_, hnat, hnatT⟩
  · intro k hk2
    by_cases hkT : k = T
    · subst hkT; rw [hnatT, hTT]; rfl
    · rw [hnat k (by omega), hlt k (by omega)]
  · have := hnat 0 (by omega)
    unfold mLead
    rw [cFirst_zero]
    omega
  · intro k h1 h2
    by_cases hkT : k = T
    · subst hkT; rw [hnatT]; omega
    · have := hnat k (by omega)
      have := hge k (by omega)
      omega

theorem long_tracks_total (argv : List Int) (P T : Nat) (hT : 1 ≤ T)
    (h0 : 3 * (CHECK_RADIUS : Int) ≤ adjustedLength argv P T 0)
    (hk : ∀ k, 1 ≤ k → k < T → 2 * (CHECK_RADIUS : Int) ≤ adjustedLength argv P T k) :
    (trackStart argv P T).toNat = bLead (lenNat argv P T) (T + 1)
    ∧ ∀ k, k < T →
        ((bLead (lenNat argv P T) k : Nat) : Int)
          = trackStart argv P k - 2939 + (cFirst k : Int) := by
  obtain ⟨_, hm0, _, hnat, hnatT⟩ := long_tracks_table argv P T hT h0 hk
  have hN0 : 2939 ≤ lenNat argv P T 0 := by
    unfold mLead at hm0; rw [cFirst_zero] at hm0; omega
  constructor
  · have h1 := bLead_cast (lenNat argv P T) hN0 T
    rw [Finset.sum_range_succ, hnatT] at h1
    have h2 : ∑ j ∈ Finset.range T, (lenNat argv P T j : Int)
        = ∑ j ∈ Finset.range T, adjustedLength argv P T j :=
      Finset.sum_congr rfl fun j hj => hnat j (Finset.mem_range.mp hj)
    rw [h2, sum_adjusted_all argv P T hT, CHECK_RADIUS_eq] at h1
    omega
  · intro k hk2
    rcases Nat.eq_zero_or_pos k with h | h
    · subst h
      simp [bLead, trackStart, cFirst_zero]
    · obtain ⟨k, rfl⟩ : ∃ k2, k = k2 + 1 := ⟨k - 1, by omega⟩
      rw [bLead_cast (lenNat argv P T) hN0 k, cFirst_pos _ (by omega)]
      have h2 : ∑ j ∈ Finset.range (k + 1), (lenNat argv P T j : Int)
          = ∑ j ∈ Finset.range (k + 1), adjustedLength argv P T j :=
        Finset.sum_congr rfl fun j hj =>
          hnat j (by have := Finset.mem_range.mp hj; omega)
      rw [h2, sum_adjusted_lt argv P T (k + 1) hk2]
      simp

/-- The v1 table of a run on tracks long enough to seed and finish all shifts. -/
theorem run_arcf (argv : List Int) (stdin : List (Nat × Nat)) (P T : Nat)
    (hargs : checkArgs argv = .ok ((P : Int), (T : Int))) (hT : 1 ≤ T)
    (h0 : 3 * (CHECK_RADIUS : Int) ≤ adjustedLength argv P T 0)
    (hk : ∀ k, 1 ≤ k → k < T → 2 * (CHECK_RADIUS : Int) ≤ adjustedLength argv P T k)
    (hlen : trackStart argv P T ≤ (stdin.length : Int)) :
    run argv stdin = .ok (finalOf argv stdin P T)
    ∧ ∀ k o, k < T → o < 5879 →
        (finalOf argv stdin P T).state.arcf (ARCF_IDX k o)
          = winCrc (sampleAt stdin) (bLead (lenNat argv P T) k) (mLead (lenNat argv P T) k)
              (cFirst k) o % 4294967296 := by
  obtain ⟨hl, hm0, hmk, _, _⟩ := long_tracks_table argv P T hT h0 hk
  obtain ⟨htot, _⟩ := long_tracks_total argv P T hT h0 hk
  constructor
  · rw [run_eq argv stdin P T hargs, if_pos (by omega)]
  · intro k o hk2 ho
    have := lead_final T (lenNat argv P T) (sampleAt stdin) (lengthTable argv P T) hl hm0 hmk
      k o hk2 ho
    simp only [finalOf, htot]
    exact this

/-! ## Slots never reached, and the naive checksum of a window -/

theorem finalOf_state (argv : List Int) (stdin : List (Nat × Nat)) (P T : Nat) :
    (finalOf argv stdin P T).state
      = iterBody T (lengthTable argv P T) (sampleAt stdin) (trackStart argv P T).toNat := rfl

theorem untouched_slots (T : Nat) (len : Nat → Int) (s : Nat → Nat) :
    ∀ n, (iterBody T len s n).tr ≤ n
      ∧ ∀ j o, n < o → o < 5879 → (iterBody T len s n).arcf (ARCF_IDX j o) = 0 := by
  intro n
  induction n with
  | zero => exact ⟨by simp [iterBody, initState], fun j o _ _ => by simp [iterBody, initState]⟩
  | succ n ih =>
    obtain ⟨h1, h2⟩ := ih
    constructor
    · rw [iterBody, loopBody_tr]
      split_ifs <;> omega
    · intro j o hn ho
      rw [iterBody, loopBody_arcf, update_arcf_arcf _ _ _ _ _ _ _ _ _ _ _ ho]
      rw [if_neg (by omega), if_neg (by omega), if_neg (by omega)]
      exact h2 j o (by omega) ho

theorem sampleAt_cons_succ (x : Nat × Nat) (xs : List (Nat × Nat)) (i : Nat) :
    sampleAt (x :: xs) (i + 1) = sampleAt xs i := by
  simp [sampleAt]

theorem sampleAt_cons_zero (x : Nat × Nat) (xs : List (Nat × Nat)) :
    sampleAt (x :: xs) 0 = packSample x.1 x.2 := by
  simp [sampleAt]

theorem naiveV1From_append (xs ys : List Nat) :
    ∀ i, naiveV1From i (xs ++ ys) = naiveV1From i xs + naiveV1From (i + xs.length) ys := by
  induction xs with
  | nil => intro i; simp [naiveV1From]
  | cons x xs ih =>
    intro i
    have e : i + 1 + xs.length = i + (xs.length + 1) := by omega
    rw [List.cons_append, naiveV1From, naiveV1From, ih (i + 1), List.length_cons, e]
    omega

theorem naiveV1From_map_range (f : Nat → Nat) (i n : Nat) :
    naiveV1From i ((List.range n).map f) = ∑ t ∈ Finset.range n, f t * (i + t) := by
  induction n with
  | zero => simp [naiveV1From]
  | succ n ih =>
    rw [List.range_succ, List.map_append, naiveV1From_append, ih, Finset.sum_range_succ]
    simp [naiveV1From]

theorem naiveV1_streamWindow (stdin : List (Nat × Nat)) (start : Int) (b m c o : Nat)
    (hb : start + (c : Int) = ((b + o : Nat) : Int)) :
    naiveV1 (streamWindow stdin start (c + m) c)
      = winCrc (sampleAt stdin) b m c o % 4294967296 := by
  unfold naiveV1 streamWindow
  rw [naiveV1From_map_range, Finset.sum_range_add]
  have h1 : ∑ x ∈ Finset.range c,
      (if x < c then 0 else sampleAt stdin (start + (x : Int)).toNat) * (1 + x) = 0 := by
    apply Finset.sum_eq_zero
    intro x hx
    rw [if_pos (Finset.mem_range.mp hx), zero_mul]
  rw [h1, zero_add]
  congr 1
  unfold winCrc
  apply Finset.sum_congr rfl
  intro t _
  have e : (start + ((c + t : Nat) : Int)).toNat = b + o + t := by
    push_cast
    omega
  rw [if_neg (by omega), e]
  ring

/-! ## The trailing cursor: fields after one iteration -/

theorem loopBody_track2 (T : Nat) (len : Nat → Int) (st : State) (v : Nat) :
    (loopBody T len st v).track2
      = if ((st.ti2 + 1 : Nat) : Int) = len st.track2 then st.track2 + 1 else st.track2 := by
  unfold loopBody stepCounters stepTrailing stepArcf
  simp only
  split_ifs <;> rfl

theorem loopBody_ti2 (T : Nat) (len : Nat → Int) (st : State) (v : Nat) :
    (loopBody T len st v).ti2
      = if ((st.ti2 + 1 : Nat) : Int) = len st.track2 then 0 else st.ti2 + 1 := by
  unfold loopBody stepCounters stepTrailing stepArcf
  simp only
  split_ifs <;> rfl

theorem stepTrailing_crc2 (st : State) (v : Nat) (j : Nat) :
    (stepTrailing st v).crc2 j =
      if 2939 ≤ st.di ∧ j = st.track2 then
        u32 ((u32 ((st.crc2 st.track2 : Int)
              + (((v * (st.ti2 + 1)) % 18446744073709551616 &&& 0xFFFFFFFF : Nat) : Int)) : Nat)
            + (((v * (st.ti2 + 1)) % 18446744073709551616 / 0x100000000 : Nat) : Int))
      else st.crc2 j := by
  unfold stepTrailing
  simp only [CHECK_RADIUS_eq]
  split_ifs <;> simp_all [store_apply]

theorem loopBody_crc2 (T : Nat) (len : Nat → Int) (st : State) (v : Nat) (j : Nat) :
    (loopBody T len st v).crc2 j =
      if 2939 ≤ st.di ∧ j = st.track2 then
        u32 ((u32 ((st.crc2 st.track2 : Int)
              + (((v * (st.ti2 + 1)) % 18446744073709551616 &&& 0xFFFFFFFF : Nat) : Int)) : Nat)
            + (((v * (st.ti2 + 1)) % 18446744073709551616 / 0x100000000 : Nat) : Int))
      else st.crc2 j := by
  have h : (loopBody T len st v).crc2 = (stepTrailing (stepArcf T len st v) v).crc2 := by
    unfold loopBody stepCounters
    simp only
    split_ifs <;> rfl
  rw [h, stepTrailing_crc2]
  rfl

/-! ## Positions of the two cursors, for any table of lengths -/

theorem lenSum_succ (len : Nat → Int) (k : Nat) : lenSum len (k + 1) = lenSum len k + len k := by
  simp [lenSum, Finset.sum_range_succ]

theorem lenSum_zero (len : Nat → Int) : lenSum len 0 = 0 := by
  simp [lenSum]

/-- The leading cursor is `ti` samples into track `track`, `R` samples ahead. -/
theorem lead_position (T : Nat) (len : Nat → Int) (s : Nat → Nat) (n : Nat) :
    (((iterBody T len s n).di : Nat) : Int) + 2939
      = lenSum len (iterBody T len s n).track + ((iterBody T len s n).ti : Int) := by
  induction n with
  | zero => simp [iterBody, initState, lenSum_zero, CHECK_RADIUS_eq]
  | succ n ih =>
    rw [iterBody, loopBody_di, loopBody_track, loopBody_ti]
    split_ifs with h
    · rw [lenSum_succ, ← h]
      push_cast at ih ⊢
      omega
    · push_cast at ih ⊢
      omega

/-- The trailing cursor is `ti2` samples into track `track2`. -/
theorem trail_position (T : Nat) (len : Nat → Int) (s : Nat → Nat) (n : Nat) :
    (((iterBody T len s n).di : Nat) : Int)
      = lenSum len (iterBody T len s n).track2 + ((iterBody T len s n).ti2 : Int) := by
  induction n with
  | zero => simp [iterBody, initState, lenSum_zero]
  | succ n ih =>
    rw [iterBody, loopBody_di, loopBody_track2, loopBody_ti2]
    split_ifs with h
    · rw [lenSum_succ, ← h]
      push_cast at ih ⊢
      omega
    · push_cast at ih ⊢
      omega

/-- Inside a track of positive length the trailing cursor has not reached its end. -/
theorem trail_inside (T : Nat) (len : Nat → Int) (s : Nat → Nat) (n : Nat) :
    1 ≤ len (iterBody T len s n).track2 →
      ((iterBody T len s n).ti2 : Int) < len (iterBody T len s n).track2 := by
  induction n with
  | zero => intro h; simp only [iterBody, initState] at h ⊢; omega
  | succ n ih =>
    rw [iterBody, loopBody_track2, loopBody_ti2]
    split_ifs with h
    · intro h1; push_cast; omega
    · intro h1
      have := ih h1
      push_cast at h ⊢
      omega

/-- Every track the trailing cursor has left has a positive length. -/
theorem trail_passed_pos (T : Nat) (len : Nat → Int) (s : Nat → Nat) (n : Nat) :
    ∀ j, j < (iterBody T len s n).track2 → 1 ≤ len j := by
  induction n with
  | zero => intro j h; simp [iterBody, initState] at h
  | succ n ih =>
    rw [iterBody, loopBody_track2]
    split_ifs with h
    · intro j hj
      by_cases hjk : j = (iterBody T len s n).track2
      · rw [hjk, ← h]; push_cast; omega
      · exact ih j (by omega)
    · exact ih

/-- Every track the leading cursor has left has a positive length. -/
theorem lead_passed_pos (T : Nat) (len : Nat → Int) (s : Nat → Nat) (n : Nat) :
    ∀ j, j < (iterBody T len s n).track → 1 ≤ len j := by
  induction n with
  | zero => intro j h; simp [iterBody, initState] at h
  | succ n ih =>
    rw [iterBody, loopBody_track]
    split_ifs with h
    · intro j hj
      by_cases hjk : j = (iterBody T len s n).track
      · rw [hjk, ← h]; push_cast; omega
      · exact ih j (by omega)
    · exact ih

/-! ## The v2 accumulator -/

theorem v2Sum_zero (s : Nat → Nat) (b : Nat) : v2Sum s b 0 = 0 := by
  simp [v2Sum]

theorem v2Sum_succ (s : Nat → Nat) (b m : Nat) :
    v2Sum s b (m + 1) = v2Sum s b m
      + (if 2939 ≤ b + m then foldProduct ((s (b + m) * (m + 1)) % 18446744073709551616)
         else 0) := by
  simp [v2Sum, Finset.sum_range_succ]

theorem and_mask_eq_mod (x : Nat) : x &&& 0xFFFFFFFF = x % 4294967296 := by
  have h := Nat.and_pow_two_sub_one_eq_mod x 32
  norm_num at h
  exact h

/-- Lines 211-212: both halves of the product are added modulo `2^32`. -/
theorem crc2_value (c prod64 A : Nat) (hc : c = A % 4294967296) :
    u32 ((u32 ((c : Int) + ((prod64 &&& 0xFFFFFFFF : Nat) : Int)) : Nat)
          + ((prod64 / 0x100000000 : Nat) : Int))
      = (A + foldProduct prod64) % 4294967296 := by
  apply u32_eq_mod
  have hc2 : (c : ZMod 4294967296) = (A : ZMod 4294967296) := by rw [hc, cast_mod32]
  rw [and_mask_eq_mod]
  have e1 : (((u32 ((c : Int) + ((prod64 % 4294967296 : Nat) : Int)) : Nat) : Int)
      : ZMod 4294967296) = (A : ZMod 4294967296) + ((prod64 % 4294967296 : Nat) : ZMod 4294967296) := by
    rw [Int.cast_natCast, u32_cast, Int.cast_add, Int.cast_natCast, Int.cast_natCast, hc2]
  rw [Int.cast_add, e1, Int.cast_natCast]
  unfold foldProduct
  rw [Nat.cast_add, Nat.cast_add]
  ring

theorem lenSum_nonneg_of_pos (len : Nat → Int) (k : Nat) (h : ∀ j, j < k → 1 ≤ len j) :
    0 ≤ lenSum len k := by
  unfold lenSum
  apply Finset.sum_nonneg
  intro j hj
  have := h j (Finset.mem_range.mp hj)
  omega

/-- The v2 table at the head of every iteration, for any table of lengths. -/
theorem trail_crc2 (T : Nat) (len : Nat → Int) (s : Nat → Nat) (n : Nat) :
    (∀ j, j < (iterBody T len s n).track2 →
        (iterBody T len s n).crc2 j
          = v2Sum s (lenSum len j).toNat (len j).toNat % 4294967296)
    ∧ (iterBody T len s n).crc2 (iterBody T len s n).track2
        = v2Sum s (lenSum len (iterBody T len s n).track2).toNat (iterBody T len s n).ti2
            % 4294967296
    ∧ ∀ j, (iterBody T len s n).track2 < j → (iterBody T len s n).crc2 j = 0 := by
  induction n with
  | zero =>
    refine ⟨fun j h => ?_, ?_, fun j _ => ?_⟩
    · simp [iterBody, initState] at h
    · simp [iterBody, initState, v2Sum_zero]
    · simp [iterBody, initState]
  | succ n ih =>
    obtain ⟨hdone, hcur, hfut⟩ := ih
    have hpos := trail_position T len s n
    have hdi := iterBody_di T len s n
    have hpassed := trail_passed_pos T len s n
    have hnn := lenSum_nonneg_of_pos len _ hpassed
    have hb : (lenSum len (iterBody T len s n).track2).toNat + (iterBody T len s n).ti2 = n := by
      rw [hdi] at hpos
      omega
    -- the accumulator of the current track after this iteration
    have hval : (loopBody T len (iterBody T len s n) (s n)).crc2 (iterBody T len s n).track2
        = v2Sum s (lenSum len (iterBody T len s n).track2).toNat
            ((iterBody T len s n).ti2 + 1) % 4294967296 := by
      rw [loopBody_crc2, v2Sum_succ, hb, hdi]
      by_cases hR : 2939 ≤ n
      · rw [if_pos ⟨hR, rfl⟩, if_pos hR]
        exact crc2_value _ _ _ hcur
      · rw [if_neg (fun h => hR h.1), if_neg hR, Nat.add_zero]
        exact hcur
    have hother : ∀ j, j ≠ (iterBody T len s n).track2 →
        (loopBody T len (iterBody T len s n) (s n)).crc2 j = (iterBody T len s n).crc2 j := by
      intro j hj
      rw [loopBody_crc2, if_neg (fun h => hj h.2)]
    rw [iterBody, loopBody_track2, loopBody_ti2]
    by_cases hbd : (((iterBody T len s n).ti2 + 1 : Nat) : Int) = len (iterBody T len s n).track2
    · rw [if_pos hbd, if_pos hbd]
      refine ⟨fun j hj => ?_, ?_, fun j hj => ?_⟩
      · by_cases hjk : j = (iterBody T len s n).track2
        · rw [hjk, hval]
          have : (len (iterBody T len s n).track2).toNat = (iterBody T len s n).ti2 + 1 := by
            rw [← hbd]; simp
          rw [this]
        · rw [hother j hjk]
          exact hdone j (by omega)
      · rw [hother _ (by omega), v2Sum_zero]
        exact hfut _ (by omega)
      · rw [hother j (by omega)]
        exact hfut j (by omega)
    · rw [if_neg hbd, if_neg hbd]
      refine ⟨fun j hj => ?_, hval, fun j hj => ?_⟩
      · rw [hother j (by omega)]
        exact hdone j hj
      · rw [hother j (by omega)]
        exact hfut j hj

/-! ## The v2 table of a run -/

theorem lenSum_mono (len : Nat → Int) (a b : Nat) (h : a ≤ b)
    (hpos : ∀ j, j < b → 0 ≤ len j) : lenSum len a ≤ lenSum len b := by
  induction b with
  | zero =>
    have : a = 0 := by omega
    rw [this]
  | succ b ih =>
    by_cases hab : a = b + 1
    · rw [hab]
    · have h1 := ih (by omega) (fun j hj => hpos j (by omega))
      have h2 := hpos b (by omega)
      rw [lenSum_succ]
      omega

theorem lengthTable_of_lt (argv : List Int) (P T k : Nat) (h : k < T) :
    lengthTable argv P T k = adjustedLength argv P T k := by
  rw [lengthTable_apply, if_neg (by omega), if_pos h]

theorem lengthTable_sentinel (argv : List Int) (P T : Nat) :
    lengthTable argv P T T = 5879 := by
  rw [lengthTable_apply, if_pos rfl, CHECK_RADIUS_eq]; norm_num

theorem lenSum_lengthTable_lt (argv : List Int) (P T k : Nat) (h : k < T) :
    lenSum (lengthTable argv P T) k = trackStart argv P k := by
  unfold lenSum
  rw [← sum_adjusted_lt argv P T k h]
  exact Finset.sum_congr rfl fun j hj =>
    lengthTable_of_lt argv P T j (by have := Finset.mem_range.mp hj; omega)

theorem lenSum_lengthTable_all (argv : List Int) (P T : Nat) (h : 1 ≤ T) :
    lenSum (lengthTable argv P T) T = trackStart argv P T - 2940 := by
  unfold lenSum
  have e : ∑ j ∈ Finset.range T, lengthTable argv P T j
      = ∑ j ∈ Finset.range T, adjustedLength argv P T j :=
    Finset.sum_congr rfl fun j hj => lengthTable_of_lt argv P T j (Finset.mem_range.mp hj)
  rw [e, sum_adjusted_all argv P T h, CHECK_RADIUS_eq]
  norm_num

theorem lenSum_lengthTable_succ (argv : List Int) (P T : Nat) (h : 1 ≤ T) :
    lenSum (lengthTable argv P T) (T + 1) = trackStart argv P T + 2939 := by
  rw [lenSum_succ, lenSum_lengthTable_all argv P T h, lengthTable_sentinel]
  ring

/-- With every adjusted length positive, the trailing cursor has left all tracks when
the loop ends. -/
theorem trail_final_track2 (argv : List Int) (P T : Nat) (s : Nat → Nat) (hT : 1 ≤ T)
    (hpos : ∀ k, k < T → 1 ≤ adjustedLength argv P T k) :
    (iterBody T (lengthTable argv P T) s (trackStart argv P T).toNat).track2 = T := by
  have hp := trail_position T (lengthTable argv P T) s (trackStart argv P T).toNat
  have hi := trail_inside T (lengthTable argv P T) s (trackStart argv P T).toNat
  have hpassed := trail_passed_pos T (lengthTable argv P T) s (trackStart argv P T).toNat
  rw [iterBody_di] at hp
  have hlp : ∀ j, j < T → 1 ≤ lengthTable argv P T j := by
    intro j hj; rw [lengthTable_of_lt argv P T j hj]; exact hpos j hj
  have hall := lenSum_lengthTable_all argv P T hT
  have hnn : 0 ≤ lenSum (lengthTable argv P T) T :=
    lenSum_nonneg_of_pos _ _ hlp
  have htot : 0 ≤ trackStart argv P T := by omega
  rcases Nat.lt_trichotomy
    (iterBody T (lengthTable argv P T) s (trackStart argv P T).toNat).track2 T with h | h | h
  · exfalso
    have h1 := hi (hlp _ h)
    have h2 := lenSum_mono (lengthTable argv P T)
      ((iterBody T (lengthTable argv P T) s (trackStart argv P T).toNat).track2 + 1) T
      (Nat.succ_le_of_lt h) (fun j hj => le_trans (by norm_num) (hlp j hj))
    rw [lenSum_succ] at h2
    omega
  · exact h
  · exfalso
    have h1 := lenSum_mono (lengthTable argv P T) (T + 1)
      (iterBody T (lengthTable argv P T) s (trackStart argv P T).toNat).track2 (by omega)
      (fun j hj => le_trans (by norm_num) (hpassed j hj))
    rw [lenSum_lengthTable_succ argv P T hT] at h1
    omega

/-- The v2 table of a run whose adjusted lengths are all positive. -/
theorem run_crc2 (argv : List Int) (stdin : List (Nat × Nat)) (P T : Nat)
    (hargs : checkArgs argv = .ok ((P : Int), (T : Int))) (hT : 1 ≤ T)
    (hpos : ∀ k, k < T → 1 ≤ adjustedLength argv P T k)
    (hlen : trackStart argv P T ≤ (stdin.length : Int)) :
    run argv stdin = .ok (finalOf argv stdin P T)
    ∧ ∀ k, k < T →
        (finalOf argv stdin P T).state.crc2 k
          = v2Sum (sampleAt stdin) (trackStart argv P k).toNat
              (adjustedLength argv P T k).toNat % 4294967296 := by
  constructor
  · rw [run_eq argv stdin P T hargs, if_pos (by omega)]
  · intro k hk
    have h := (trail_crc2 T (lengthTable argv P T) (sampleAt stdin)
      (trackStart argv P T).toNat).1 k
      (by rw [trail_final_track2 argv P T _ hT hpos]; exact hk)
    rw [finalOf_state, h, lenSum_lengthTable_lt argv P T k hk, lengthTable_of_lt argv P T k hk]

/-- A sum whose first terms vanish. -/
theorem sum_range_skip (g : Nat → Nat) (a m : Nat) (h : ∀ t, t < a → g t = 0) :
    ∑ t ∈ Finset.range m, g t = ∑ t ∈ Finset.range (m - a), g (a + t) := by
  by_cases ham : a ≤ m
  · have e : m = a + (m - a) := by omega
    conv_lhs => rw [e]
    rw [Finset.sum_range_add, Finset.sum_eq_zero (fun t ht => h t (Finset.mem_range.mp ht)),
      zero_add]
  · have e : m - a = 0 := by omega
    rw [e, Finset.sum_range_zero]
    exact Finset.sum_eq_zero fun t ht => h t (by have := Finset.mem_range.mp ht; omega)

/-- The accumulated value in the terms of the claim: weights `i` from
`max 1 (R + 1 - S)` to `n`, exact products. -/
theorem v2Sum_cast_Icc (s : Nat → Nat) (S n : Int) (hS : 0 ≤ S) (hn : 0 ≤ n)
    (hs : ∀ i, s i < 4294967296) (hbound : n < 4294967296) :
    ((v2Sum s S.toNat n.toNat : Nat) : Int)
      = ∑ i ∈ Finset.Icc (max 1 (2939 + 1 - S)) n,
          ((foldProduct (s (S + i - 1).toNat * i.toNat) : Nat) : Int) := by
  rw [Int.Icc_eq_finset_map, Finset.sum_map]
  unfold v2Sum
  rw [sum_range_skip _ (2939 - S.toNat) n.toNat
    (fun t ht => by rw [if_neg (by omega)])]
  have e : (n + 1 - max 1 (2939 + 1 - S)).toNat = n.toNat - (2939 - S.toNat) := by
    omega
  rw [e, Nat.cast_sum]
  apply Finset.sum_congr rfl
  intro t ht
  have ht2 := Finset.mem_range.mp ht
  simp only [Function.Embedding.trans_apply, Nat.castEmbedding_apply, addLeftEmbedding_apply]
  have e1 : (S + (max 1 (2939 + 1 - S) + (t : Int)) - 1).toNat
      = S.toNat + (2939 - S.toNat + t) := by omega
  have e2 : (max 1 (2939 + 1 - S) + (t : Int)).toNat = 2939 - S.toNat + t + 1 := by omega
  rw [if_pos (by omega), e1, e2]
  have hlt : s (S.toNat + (2939 - S.toNat + t)) * (2939 - S.toNat + t + 1)
      < 18446744073709551616 := by
    have h1 := hs (S.toNat + (2939 - S.toNat + t))
    have h2 : 2939 - S.toNat + t + 1 ≤ 4294967296 := by omega
    calc s (S.toNat + (2939 - S.toNat + t)) * (2939 - S.toNat + t + 1)
        < 4294967296 * 4294967296 :=
          Nat.mul_lt_mul_of_lt_of_le h1 h2 (by norm_num)
      _ = 18446744073709551616 := by norm_num
  rw [Nat.mod_eq_of_lt hlt]

/-- A stream that is 1 at position `a` and 0 elsewhere. -/
theorem sampleAt_impulse (a b i : Nat) :
    sampleAt (List.replicate a ((0 : Nat), (0 : Nat)) ++ (1, 0) :: List.replicate b (0, 0)) i
      = if i = a then 1 else 0 := by
  unfold sampleAt
  rw [List.map_append, List.map_replicate, List.map_cons, List.map_replicate]
  have hp0 : packSample 0 0 = 0 := by decide
  have hp1 : packSample 1 0 = 1 := by decide
  simp only [hp0, hp1]
  rcases Nat.lt_trichotomy i a with h | h | h
  · rw [List.getD_append _ _ _ _ (by simpa using h), if_neg (by omega)]
    rw [List.getD_eq_getElem?_getD, List.getElem?_replicate_of_lt h]
    rfl
  · subst h
    rw [List.getD_append_right _ _ _ _ (by simp), if_pos rfl]
    simp
  · rw [List.getD_append_right _ _ _ _ (by simpa using Nat.le_of_lt h), if_neg (by omega)]
    rw [List.length_replicate]
    obtain ⟨d, hd⟩ : ∃ d, i - a = d + 1 := ⟨i - a - 1, by omega⟩
    rw [hd, List.getD_cons_succ, List.getD_eq_getElem?_getD, List.getElem?_replicate]
    split_ifs <;> rfl

theorem adjustedLength_le_total (argv : List Int) (P T k : Nat) (hk : k < T)
    (hpos : ∀ j, j < T → 1 ≤ adjustedLength argv P T j) :
    adjustedLength argv P T k ≤ trackStart argv P T := by
  have h1 := sum_adjusted_all argv P T (by omega)
  have h2 : adjustedLength argv P T k ≤ ∑ j ∈ Finset.range T, adjustedLength argv P T j :=
    Finset.single_le_sum (f := fun j => adjustedLength argv P T j)
      (fun j hj => le_trans (by norm_num) (hpos j (Finset.mem_range.mp hj)))
      (Finset.mem_range.mpr hk)
  rw [h1, CHECK_RADIUS_eq] at h2
  omega

theorem trackStart_nonneg_of_pos (argv : List Int) (P T k : Nat) (hk : k < T)
    (hpos : ∀ j, j < T → 1 ≤ adjustedLength argv P T j) : 0 ≤ trackStart argv P k := by
  rw [← sum_adjusted_lt argv P T k hk]
  exact Finset.sum_nonneg fun j hj =>
    le_trans (by norm_num) (hpos j (by have := Finset.mem_range.mp hj; omega))

/-! ## The rolling frame checksum -/

theorem update_framecrc_lt (frame : Nat → Nat) (fs fc t v : Nat) (h : t < 588) :
    update_framecrc frame fs fc t v
      = (store frame (t % 588) v, u32 ((fs : Int) + ((v : Int) - ((0 : Nat) : Int))),
          u32 ((fc : Int) + (v : Int) * ((t : Int) + 1))) := by
  unfold update_framecrc
  rw [SAMPLES_PER_FRAME_eq, if_pos h]

theorem update_framecrc_ge (frame : Nat → Nat) (fs fc t v : Nat) (h : 588 ≤ t) :
    update_framecrc frame fs fc t v
      = (store frame (t % 588) v, u32 ((fs : Int) + ((v : Int) - (frame (t % 588) : Int))),
          u32 ((fc : Int) + ((v : Int) * ((588 : Nat) : Int) - (fs : Int)))) := by
  unfold update_framecrc
  rw [SAMPLES_PER_FRAME_eq, if_neg (by omega)]

theorem rolling_zero (g : Nat → Nat) : Rolling g 0 (fun _ => 0) 0 0 where
  ring := by intro x h; omega
  sum := by simp [frameWindowSum]
  crc := by simp [frameWindowCrc]

theorem rolling_of_zero (g : Nat → Nat) (t : Nat) (h : ∀ x, x < t → g x = 0) :
    Rolling g t (fun _ => 0) 0 0 where
  ring := by intro x hx _; rw [h x hx]
  sum := by
    unfold frameWindowSum
    rw [Finset.sum_eq_zero]
    · rfl
    · intro x hx; exact h x (Finset.mem_Ico.mp hx).2
  crc := by
    unfold frameWindowCrc
    rw [Finset.sum_eq_zero]
    · rfl
    · intro x hx; rw [h x (Finset.mem_Ico.mp hx).2, zero_mul]

set_option maxRecDepth 8192 in
/-- The window sums before and after step `t >= 588`, split into the value leaving the
window, the values staying and the value entering. -/
theorem frameWindow_split (g : Nat → Nat) (t : Nat) (h : 588 ≤ t) :
    ∃ M R1 : Nat,
      frameWindowSum g t = g (t - 588) + R1
      ∧ frameWindowCrc g t = g (t - 588) + M + R1
      ∧ frameWindowSum g (t + 1) = R1 + g t
      ∧ frameWindowCrc g (t + 1) = M + g t * 588 := by
  refine ⟨∑ x ∈ Finset.Ico (t - 588 + 1) t, g x * (x - (t - 588)),
    ∑ x ∈ Finset.Ico (t - 588 + 1) t, g x, ?_, ?_, ?_, ?_⟩
  · unfold frameWindowSum
    have hlt : t - 588 < t := by omega
    rw [Finset.sum_eq_sum_Ico_succ_bot hlt]
  · unfold frameWindowCrc
    have hlt : t - 588 < t := by omega
    rw [Finset.sum_eq_sum_Ico_succ_bot hlt]
    have e1 : t - 588 + 1 - (t - 588) = 1 := by omega
    rw [e1, mul_one, add_assoc, ← Finset.sum_add_distrib]
    congr 1
    apply Finset.sum_congr rfl
    intro x hx
    have := Finset.mem_Ico.mp hx
    have e2 : x + 1 - (t - 588) = (x - (t - 588)) + 1 := by omega
    rw [e2, mul_add, mul_one]
  · unfold frameWindowSum
    have e : t + 1 - 588 = t - 588 + 1 := by omega
    have hle : t - 588 + 1 ≤ t := by omega
    rw [e, Finset.sum_Ico_succ_top hle]
  · unfold frameWindowCrc
    have e : t + 1 - 588 = t - 588 + 1 := by omega
    have hle : t - 588 + 1 ≤ t := by omega
    rw [e, Finset.sum_Ico_succ_top hle]
    have e3 : t + 1 - (t - 588 + 1) = 588 := by omega
    rw [e3]
    congr 1
    apply Finset.sum_congr rfl
    intro x hx
    have := Finset.mem_Ico.mp hx
    have e2 : x + 1 - (t - 588 + 1) = x - (t - 588) := by omega
    rw [e2]

/-- One call of `update_framecrc` moves the rolling state one step on. -/
theorem rolling_step (g : Nat → Nat) (t : Nat) (frame : Nat → Nat) (fs fc : Nat)
    (inv : Rolling g t frame fs fc) :
    Rolling g (t + 1) (update_framecrc frame fs fc t (g t)).1
      (update_framecrc frame fs fc t (g t)).2.1 (update_framecrc frame fs fc t (g t)).2.2 := by
  have hfs : (fs : ZMod 4294967296) = (frameWindowSum g t : ZMod 4294967296) := by
    rw [inv.sum, cast_mod32]
  have hfc : (fc : ZMod 4294967296) = (frameWindowCrc g t : ZMod 4294967296) := by
    rw [inv.crc, cast_mod32]
  have hring : ∀ x, x < t + 1 → t + 1 ≤ x + 588 →
      store frame (t % 588) (g t) (x % 588) = g x := by
    intro x hx1 hx2
    rw [store_apply]
    by_cases hxt : x = t
    · rw [hxt, if_pos rfl]
    · rw [if_neg (by omega)]
      exact inv.ring x (by omega) (by omega)
  by_cases h : t < 588
  · rw [update_framecrc_lt _ _ _ _ _ h]
    have e0 : t - 588 = 0 := by omega
    have e1 : t + 1 - 588 = 0 := by omega
    refine ⟨hring, ?_, ?_⟩
    · dsimp only
      apply u32_eq_mod
      unfold frameWindowSum at hfs ⊢
      rw [e0] at hfs
      rw [e1, Finset.sum_Ico_succ_top (Nat.zero_le t)]
      push_cast
      rw [hfs]
      push_cast
      ring
    · dsimp only
      apply u32_eq_mod
      unfold frameWindowCrc at hfc ⊢
      rw [e0] at hfc
      rw [e1, Finset.sum_Ico_succ_top (Nat.zero_le t)]
      push_cast
      rw [hfc]
      push_cast
      ring
  · have h2 : 588 ≤ t := by omega
    rw [update_framecrc_ge _ _ _ _ _ h2]
    obtain ⟨M, R1, s1, s2, s3, s4⟩ := frameWindow_split g t h2
    have hsub : frame (t % 588) = g (t - 588) := by
      have := inv.ring (t - 588) (by omega) (by omega)
      have e : (t - 588) % 588 = t % 588 := by omega
      rw [e] at this
      exact this
    refine ⟨hring, ?_, ?_⟩
    · dsimp only
      apply u32_eq_mod
      rw [s3, hsub]
      rw [s1] at hfs
      push_cast at hfs ⊢
      rw [hfs]
      ring
    · dsimp only
      apply u32_eq_mod
      rw [s4]
      rw [s1] at hfs
      rw [s2] at hfc
      push_cast at hfs hfc ⊢
      rw [hfs, hfc]
      ring

/-! ## The frame-450 engine inside the loop -/

theorem offset_lt_iff (ti2 : Nat) :
    ((ti2 : Int) - (451 * ((SAMPLES_PER_FRAME : Nat) : Int) - 1 - ((CHECK_RADIUS : Nat) : Int))
        < ((ARCFS_PER_TRACK : Nat) : Int)) ↔ ti2 < 268127 := by
  rw [SAMPLES_PER_FRAME_eq, CHECK_RADIUS_eq, ARCFS_PER_TRACK_eq]
  push_cast
  omega

theorem offset_nonneg_iff (ti2 : Nat) :
    (0 ≤ (ti2 : Int) - (451 * ((SAMPLES_PER_FRAME : Nat) : Int) - 1
        - ((CHECK_RADIUS : Nat) : Int))) ↔ 262248 ≤ ti2 := by
  rw [SAMPLES_PER_FRAME_eq, CHECK_RADIUS_eq]
  push_cast
  omega

theorem offset_toNat (ti2 : Nat) :
    ((ti2 : Int) - (451 * ((SAMPLES_PER_FRAME : Nat) : Int) - 1
        - ((CHECK_RADIUS : Nat) : Int))).toNat = ti2 - 262248 := by
  rw [SAMPLES_PER_FRAME_eq, CHECK_RADIUS_eq]
  push_cast
  omega

theorem stepTrailing_frame (st : State) (v : Nat) :
    ((stepTrailing st v).frame, (stepTrailing st v).framesum, (stepTrailing st v).framecrc)
      = if 2939 ≤ st.di ∧ st.ti2 < 268127 then
          update_framecrc st.frame st.framesum st.framecrc st.ti2 v
        else (st.frame, st.framesum, st.framecrc) := by
  unfold stepTrailing
  simp only [offset_lt_iff, offset_nonneg_iff, offset_toNat]
  rw [CHECK_RADIUS_eq]
  split_ifs <;> first | rfl | (exfalso; omega)

theorem stepTrailing_arcf450 (st : State) (v : Nat) :
    (stepTrailing st v).arcf450
      = if 2939 ≤ st.di ∧ 262248 ≤ st.ti2 ∧ st.ti2 < 268127 then
          store st.arcf450 (ARCF_IDX st.track2 (st.ti2 - 262248))
            (update_framecrc st.frame st.framesum st.framecrc st.ti2 v).2.2
        else st.arcf450 := by
  unfold stepTrailing
  simp only [offset_lt_iff, offset_nonneg_iff, offset_toNat]
  rw [CHECK_RADIUS_eq]
  split_ifs <;> first | rfl | (exfalso; omega)

theorem loopBody_arcf450 (T : Nat) (len : Nat → Int) (st : State) (v : Nat) :
    (loopBody T len st v).arcf450
      = if 2939 ≤ st.di ∧ 262248 ≤ st.ti2 ∧ st.ti2 < 268127 then
          store st.arcf450 (ARCF_IDX st.track2 (st.ti2 - 262248))
            (update_framecrc st.frame st.framesum st.framecrc st.ti2 v).2.2
        else st.arcf450 := by
  have h : (loopBody T len st v).arcf450 = (stepTrailing (stepArcf T len st v) v).arcf450 := by
    unfold loopBody stepCounters
    simp only
    split_ifs <;> rfl
  rw [h, stepTrailing_arcf450]
  rfl

theorem loopBody_frame (T : Nat) (len : Nat → Int) (st : State) (v : Nat) :
    ((loopBody T len st v).frame, (loopBody T len st v).framesum,
        (loopBody T len st v).framecrc)
      = if ((st.ti2 + 1 : Nat) : Int) = len st.track2 then (fun _ => 0, 0, 0)
        else if 2939 ≤ st.di ∧ st.ti2 < 268127 then
          update_framecrc st.frame st.framesum st.framecrc st.ti2 v
        else (st.frame, st.framesum, st.framecrc) := by
  have hs := stepTrailing_frame (stepArcf T len st v) v
  have e1 : (stepArcf T len st v).di = st.di := rfl
  have e2 : (stepArcf T len st v).ti2 = st.ti2 := rfl
  have e3 : (stepArcf T len st v).frame = st.frame := rfl
  have e4 : (stepArcf T len st v).framesum = st.framesum := rfl
  have e5 : (stepArcf T len st v).framecrc = st.framecrc := rfl
  rw [e1, e2, e3, e4, e5] at hs
  have ht2 : (stepTrailing (stepArcf T len st v) v).ti2 = st.ti2 := by
    unfold stepTrailing; simp only; split_ifs <;> rfl
  have htr2 : (stepTrailing (stepArcf T len st v) v).track2 = st.track2 := by
    unfold stepTrailing; simp only; split_ifs <;> rfl
  rw [← hs]
  unfold loopBody stepCounters
  simp only [ht2, htr2]
  split_ifs <;> rfl

theorem frame_components (T : Nat) (len : Nat → Int) (st : State) (v : Nat)
    (p : (Nat → Nat) × Nat × Nat)
    (h : ((loopBody T len st v).frame, (loopBody T len st v).framesum,
        (loopBody T len st v).framecrc) = p) :
    (loopBody T len st v).frame = p.1 ∧ (loopBody T len st v).framesum = p.2.1
      ∧ (loopBody T len st v).framecrc = p.2.2 := by
  subst h
  exact ⟨rfl, rfl, rfl⟩

/-- The frame ring and its two accumulators at the head of every iteration, for any
table of lengths. -/
theorem trail_frame (T : Nat) (len : Nat → Int) (s : Nat → Nat) (n : Nat) :
    (n ≤ 2939 → (iterBody T len s n).frame = (fun _ => 0)
        ∧ (iterBody T len s n).framesum = 0 ∧ (iterBody T len s n).framecrc = 0)
    ∧ ((iterBody T len s n).ti2 ≤ 268127 →
        Rolling (fedValue s (lenSum len (iterBody T len s n).track2).toNat)
          (iterBody T len s n).ti2 (iterBody T len s n).frame
          (iterBody T len s n).framesum (iterBody T len s n).framecrc) := by
  induction n with
  | zero =>
    refine ⟨fun _ => ⟨rfl, rfl, rfl⟩, fun _ => ?_⟩
    simp only [iterBody, initState]
    exact rolling_zero _
  | succ n ih =>
    obtain ⟨hz, hroll⟩ := ih
    have hpos := trail_position T len s n
    have hdi := iterBody_di T len s n
    have hpassed := trail_passed_pos T len s n
    have hnn := lenSum_nonneg_of_pos len _ hpassed
    have hb : (lenSum len (iterBody T len s n).track2).toNat + (iterBody T len s n).ti2 = n := by
      rw [hdi] at hpos
      omega
    have hf := loopBody_frame T len (iterBody T len s n) (s n)
    rw [hdi] at hf
    rw [iterBody, loopBody_track2, loopBody_ti2]
    by_cases hbd : (((iterBody T len s n).ti2 + 1 : Nat) : Int) = len (iterBody T len s n).track2
    · rw [if_pos hbd] at hf
      obtain ⟨f1, f2, f3⟩ := frame_components T len _ _ _ hf
      rw [if_pos hbd, if_pos hbd, f1, f2, f3]
      exact ⟨fun _ => ⟨rfl, rfl, rfl⟩, fun _ => rolling_zero _⟩
    · rw [if_neg hbd] at hf
      rw [if_neg hbd, if_neg hbd]
      by_cases hR : 2939 ≤ n
      · constructor
        · intro h; omega
        · intro hle
          have hfed : 2939 ≤ n ∧ (iterBody T len s n).ti2 < 268127 := ⟨hR, by omega⟩
          rw [if_pos hfed] at hf
          obtain ⟨f1, f2, f3⟩ := frame_components T len _ _ _ hf
          rw [f1, f2, f3]
          have hv : s n = fedValue s (lenSum len (iterBody T len s n).track2).toNat
              (iterBody T len s n).ti2 := by
            unfold fedValue
            rw [hb, if_pos hR]
          rw [hv]
          exact rolling_step _ _ _ _ _ (hroll (by omega))
      · have hnf : ¬ (2939 ≤ n ∧ (iterBody T len s n).ti2 < 268127) := fun h => hR h.1
        rw [if_neg hnf] at hf
        obtain ⟨f1, f2, f3⟩ := frame_components T len _ _ _ hf
        obtain ⟨z1, z2, z3⟩ := hz (by omega)
        rw [f1, f2, f3]
        dsimp only
        rw [z1, z2, z3]
        refine ⟨fun _ => ⟨rfl, rfl, rfl⟩, fun _ => rolling_of_zero _ _ ?_⟩
        intro x hx
        unfold fedValue
        rw [if_neg (by omega)]

theorem ARCF_IDX_inj (j o k p : Nat) (ho : o < 5879) (hp : p < 5879) :
    ARCF_IDX j o = ARCF_IDX k p ↔ j = k ∧ o = p := by
  rw [ARCF_IDX_eq, ARCF_IDX_eq]
  omega

/-- The frame-450 table at the head of every iteration, for any table of lengths. -/
theorem trail_arcf450 (T : Nat) (len : Nat → Int) (s : Nat → Nat) (n : Nat) :
    (∀ j o, j < (iterBody T len s n).track2 → o < 5879 → 262248 + o < (len j).toNat →
        (iterBody T len s n).arcf450 (ARCF_IDX j o)
          = frameWindowCrc (fedValue s (lenSum len j).toNat) (262249 + o) % 4294967296)
    ∧ (∀ o, o < 5879 → 262248 + o < (iterBody T len s n).ti2 →
        (iterBody T len s n).arcf450 (ARCF_IDX (iterBody T len s n).track2 o)
          = frameWindowCrc (fedValue s (lenSum len (iterBody T len s n).track2).toNat)
              (262249 + o) % 4294967296)
    ∧ ∀ j o, (iterBody T len s n).track2 < j → o < 5879 →
        (iterBody T len s n).arcf450 (ARCF_IDX j o) = 0 := by
  induction n with
  | zero =>
    refine ⟨fun j o h => ?_, fun o _ h => ?_, fun j o _ _ => ?_⟩
    · simp [iterBody, initState] at h
    · simp [iterBody, initState] at h
    · simp [iterBody, initState]
  | succ n ih =>
    obtain ⟨hdone, hcur, hfut⟩ := ih
    have hpos := trail_position T len s n
    have hdi := iterBody_di T len s n
    have hpassed := trail_passed_pos T len s n
    have hnn := lenSum_nonneg_of_pos len _ hpassed
    have hroll := (trail_frame T len s n).2
    have hb : (lenSum len (iterBody T len s n).track2).toNat + (iterBody T len s n).ti2 = n := by
      rw [hdi] at hpos
      omega
    have ha := loopBody_arcf450 T len (iterBody T len s n) (s n)
    rw [hdi] at ha
    -- the slots of the current track after this iteration
    have hcur2 : ∀ o, o < 5879 → 262248 + o < (iterBody T len s n).ti2 + 1 →
        (loopBody T len (iterBody T len s n) (s n)).arcf450
            (ARCF_IDX (iterBody T len s n).track2 o)
          = frameWindowCrc (fedValue s (lenSum len (iterBody T len s n).track2).toNat)
              (262249 + o) % 4294967296 := by
      intro o ho hlt
      by_cases hw : 262248 + o = (iterBody T len s n).ti2
      · have hc : 2939 ≤ n ∧ 262248 ≤ (iterBody T len s n).ti2
            ∧ (iterBody T len s n).ti2 < 268127 := by omega
        have ho2 : (iterBody T len s n).ti2 - 262248 = o := by omega
        rw [ha, if_pos hc, ho2, store_apply, if_pos rfl]
        have hv : s n = fedValue s (lenSum len (iterBody T len s n).track2).toNat
            (iterBody T len s n).ti2 := by
          unfold fedValue
          rw [hb, if_pos hc.1]
        rw [hv, (rolling_step _ _ _ _ _ (hroll (by omega))).crc]
        have e : (iterBody T len s n).ti2 + 1 = 262249 + o := by omega
        rw [e]
      · have hother : (loopBody T len (iterBody T len s n) (s n)).arcf450
            (ARCF_IDX (iterBody T len s n).track2 o)
            = (iterBody T len s n).arcf450 (ARCF_IDX (iterBody T len s n).track2 o) := by
          rw [ha]
          split_ifs with hc
          · rw [store_apply, if_neg]
            rw [ARCF_IDX_inj _ _ _ _ ho (by omega)]
            omega
          · rfl
        rw [hother]
        exact hcur o ho (by omega)
    have hother : ∀ j o, j ≠ (iterBody T len s n).track2 → o < 5879 →
        (loopBody T len (iterBody T len s n) (s n)).arcf450 (ARCF_IDX j o)
          = (iterBody T len s n).arcf450 (ARCF_IDX j o) := by
      intro j o hj ho
      rw [ha]
      split_ifs with hc
      · rw [store_apply, if_neg]
        rw [ARCF_IDX_inj _ _ _ _ ho (by omega)]
        omega
      · rfl
    rw [iterBody, loopBody_track2, loopBody_ti2]
    by_cases hbd : (((iterBody T len s n).ti2 + 1 : Nat) : Int) = len (iterBody T len s n).track2
    · rw [if_pos hbd, if_pos hbd]
      refine ⟨fun j o hj ho hlt => ?_, fun o _ h => ?_, fun j o hj ho => ?_⟩
      · by_cases hjk : j = (iterBody T len s n).track2
        · have e : (len (iterBody T len s n).track2).toNat = (iterBody T len s n).ti2 + 1 := by
            rw [← hbd]; simp
          rw [hjk] at hlt ⊢
          rw [e] at hlt
          exact hcur2 o ho hlt
        · rw [hother j o hjk ho]
          exact hdone j o (by omega) ho hlt
      · omega
      · rw [hother j o (by omega) ho]
        exact hfut j o (by omega) ho
    · rw [if_neg hbd, if_neg hbd]
      refine ⟨fun j o hj ho hlt => ?_, hcur2, fun j o hj ho => ?_⟩
      · rw [hother j o (by omega) ho]
        exact hdone j o hj ho hlt
      · rw [hother j o (by omega) ho]
        exact hfut j o hj ho

/-! ## The frame-450 table of a run -/

theorem trackStart_le_of_nonneg (argv : List Int) (P a b : Nat) (h : a ≤ b)
    (hpos : ∀ j, a ≤ j → j < b → 0 ≤ trackSamples argv P j) :
    trackStart argv P a ≤ trackStart argv P b := by
  unfold trackStart
  rw [← Finset.sum_range_add_sum_Ico _ h]
  have : 0 ≤ ∑ j ∈ Finset.Ico a b, trackSamples argv P j :=
    Finset.sum_nonneg fun j hj =>
      hpos j (Finset.mem_Ico.mp hj).1 (Finset.mem_Ico.mp hj).2
  omega

theorem adjustedLength_le_trackSamples (argv : List Int) (P T k : Nat) :
    adjustedLength argv P T k ≤ trackSamples argv P k := by
  unfold adjustedLength
  rw [CHECK_RADIUS_eq]
  split_ifs
  · push_cast; omega
  · exact le_refl _

/-- The frame-450 slots of a track that is long enough and reached by the trailing
cursor. -/
theorem run_arcf450 (argv : List Int) (stdin : List (Nat × Nat)) (P T k : Nat)
    (hargs : checkArgs argv = .ok ((P : Int), (T : Int))) (hk : k < T)
    (hbefore : ∀ j, j < k → 1 ≤ trackSamples argv P j)
    (hlong : 268127 ≤ adjustedLength argv P T k)
    (hafter : ∀ j, k < j → j < T → 0 ≤ trackSamples argv P j)
    (hlen : trackStart argv P T ≤ (stdin.length : Int)) :
    run argv stdin = .ok (finalOf argv stdin P T)
    ∧ 0 ≤ trackStart argv P k
    ∧ ∀ o, o < 5879 →
        (finalOf argv stdin P T).state.arcf450 (ARCF_IDX k o)
          = frameWindowCrc (fedValue (sampleAt stdin) (trackStart argv P k).toNat)
              (262249 + o) % 4294967296 := by
  have hlb : ∀ j, j < k → lengthTable argv P T j = trackSamples argv P j := by
    intro j hj
    rw [lengthTable_of_lt argv P T j (by omega), adjustedLength_of_lt argv P T j (by omega)]
  have hlk : lengthTable argv P T k = adjustedLength argv P T k := lengthTable_of_lt argv P T k hk
  have hpos1 : ∀ j, j < k + 1 → 1 ≤ lengthTable argv P T j := by
    intro j hj
    by_cases hjk : j = k
    · rw [hjk, hlk]; omega
    · rw [hlb j (by omega)]; exact hbefore j (by omega)
  have hSk : lenSum (lengthTable argv P T) k = trackStart argv P k :=
    lenSum_lengthTable_lt argv P T k hk
  have hSnn : 0 ≤ trackStart argv P k := by
    rw [← hSk]
    exact lenSum_nonneg_of_pos _ _ fun j hj => hpos1 j (by omega)
  have htot : trackStart argv P k + adjustedLength argv P T k ≤ trackStart argv P T := by
    have h1 := trackStart_le_of_nonneg argv P (k + 1) T (by omega)
      (fun j h1 h2 => hafter j (by omega) h2)
    rw [trackStart_succ] at h1
    have h2 := adjustedLength_le_trackSamples argv P T k
    omega
  refine ⟨?_, hSnn, ?_⟩
  · rw [run_eq argv stdin P T hargs, if_pos (by omega)]
  · intro o ho
    have hp := trail_position T (lengthTable argv P T) (sampleAt stdin)
      (trackStart argv P T).toNat
    have hi := trail_inside T (lengthTable argv P T) (sampleAt stdin)
      (trackStart argv P T).toNat
    rw [iterBody_di] at hp
    have htr : k < (iterBody T (lengthTable argv P T) (sampleAt stdin)
        (trackStart argv P T).toNat).track2 := by
      by_contra hcon
      have hle : (iterBody T (lengthTable argv P T) (sampleAt stdin)
          (trackStart argv P T).toNat).track2 + 1 ≤ k + 1 := by omega
      have h1 := hi (hpos1 _ (by omega))
      have h2 := lenSum_mono (lengthTable argv P T) _ (k + 1) hle
        (fun j hj => le_trans (by norm_num) (hpos1 j hj))
      rw [lenSum_succ, lenSum_succ, hSk, hlk] at h2
      omega
    have h := (trail_arcf450 T (lengthTable argv P T) (sampleAt stdin)
      (trackStart argv P T).toNat).1 k o htr ho (by rw [hlk]; omega)
    rw [finalOf_state, h, hSk]

/-- The slot value in the terms of the claim: the 588 samples from position
`450 * 588 + (o - R)` of the track, weighted 1 to 588. -/
theorem frameWindowCrc_cast_Icc (s : Nat → Nat) (S : Int) (hS : 0 ≤ S) (o : Nat) :
    ((frameWindowCrc (fedValue s S.toNat) (262249 + o) : Nat) : Int)
      = ∑ j ∈ Finset.Icc (1 : Int) 588,
          (s (S + 264600 + ((o : Int) - 2939) + j - 1).toNat : Int) * j := by
  rw [Int.Icc_eq_finset_map, Finset.sum_map]
  unfold frameWindowCrc
  rw [Finset.sum_Ico_eq_sum_range]
  have e1 : 262249 + o - (262249 + o - 588) = 588 := by omega
  have e2 : ((588 : Int) + 1 - 1).toNat = 588 := by omega
  rw [e1, e2, Nat.cast_sum]
  apply Finset.sum_congr rfl
  intro t ht
  have ht2 := Finset.mem_range.mp ht
  simp only [Function.Embedding.trans_apply, Nat.castEmbedding_apply, addLeftEmbedding_apply]
  have e3 : (S + 264600 + ((o : Int) - 2939) + (1 + (t : Int)) - 1).toNat
      = S.toNat + (262249 + o - 588 + t) := by omega
  have e4 : 262249 + o - 588 + t + 1 - (262249 + o - 588) = 1 + t := by omega
  unfold fedValue
  rw [if_pos (by omega), e3, e4]
  push_cast
  ring

/-! ## Where the two cursors are -/

/-- While the stream position is within the span of entry `k` of the table, the trailing
cursor is in track `k`. -/
theorem trail_track2_eq (T : Nat) (len : Nat → Int) (s : Nat → Nat) (n k : Nat)
    (hpos : ∀ j, j ≤ k → 1 ≤ len j)
    (h1 : lenSum len k ≤ (n : Int)) (h2 : (n : Int) < lenSum len (k + 1)) :
    (iterBody T len s n).track2 = k := by
  have hp := trail_position T len s n
  have hi := trail_inside T len s n
  have hpassed := trail_passed_pos T len s n
  rw [iterBody_di] at hp
  rcases Nat.lt_trichotomy (iterBody T len s n).track2 k with h | h | h
  · exfalso
    have h3 := hi (hpos _ (le_of_lt h))
    have h4 := lenSum_mono len ((iterBody T len s n).track2 + 1) k (Nat.succ_le_of_lt h)
      (fun j hj => le_trans (by norm_num) (hpos j (le_of_lt hj)))
    rw [lenSum_succ] at h4
    omega
  · exact h
  · exfalso
    have h3 := lenSum_mono len (k + 1) (iterBody T len s n).track2 (by omega)
      (fun j hj => le_trans (by norm_num) (hpassed j hj))
    omega

/-- The trailing cursor does not pass the sentinel entry before the stream position
`total_length + R`. -/
theorem trail_track2_le (argv : List Int) (P T : Nat) (s : Nat → Nat) (n : Nat) (hT : 1 ≤ T)
    (hn : (n : Int) < trackStart argv P T + 2939) :
    (iterBody T (lengthTable argv P T) s n).track2 ≤ T := by
  have hp := trail_position T (lengthTable argv P T) s n
  have hpassed := trail_passed_pos T (lengthTable argv P T) s n
  rw [iterBody_di] at hp
  by_contra hgt
  have h3 := lenSum_mono (lengthTable argv P T) (T + 1)
    (iterBody T (lengthTable argv P T) s n).track2 (by omega)
    (fun j hj => le_trans (by norm_num) (hpassed j hj))
  rw [lenSum_lengthTable_succ argv P T hT] at h3
  omega

/-- The leading cursor is at most in the sentinel entry while samples remain. -/
theorem lead_track_le (argv : List Int) (P T : Nat) (s : Nat → Nat) (n : Nat) (hT : 1 ≤ T)
    (hn : (n : Int) < trackStart argv P T) :
    (iterBody T (lengthTable argv P T) s n).track ≤ T := by
  have hp := lead_position T (lengthTable argv P T) s n
  have hpassed := lead_passed_pos T (lengthTable argv P T) s n
  rw [iterBody_di] at hp
  by_contra hgt
  have h3 := lenSum_mono (lengthTable argv P T) (T + 1)
    (iterBody T (lengthTable argv P T) s n).track (by omega)
    (fun j hj => le_trans (by norm_num) (hpassed j hj))
  rw [lenSum_lengthTable_succ argv P T hT] at h3
  omega

/-- The leading track index grows by at most one per iteration. -/
theorem lead_track_step (T : Nat) (len : Nat → Int) (s : Nat → Nat) (n : Nat) :
    (iterBody T len s (n + 1)).track ≤ (iterBody T len s n).track + 1 := by
  rw [iterBody, loopBody_track]
  split_ifs <;> omega

/-- The leading track index never decreases. -/
theorem lead_track_mono (T : Nat) (len : Nat → Int) (s : Nat → Nat) (n : Nat) :
    (iterBody T len s n).track ≤ (iterBody T len s (n + 1)).track := by
  rw [iterBody, loopBody_track]
  split_ifs <;> omega

/-- A sum over `1..w` as a sum over `range w`. -/
theorem sum_Icc_one {M : Type} [AddCommMonoid M] (g : Nat → M) (w : Nat) :
    ∑ j ∈ Finset.Icc 1 w, g j = ∑ k ∈ Finset.range w, g (k + 1) := by
  rw [← Nat.Ico_succ_right, Finset.sum_Ico_eq_sum_range]
  simp [add_comm]

/-- Two integers with the same residue modulo `2^32` convert to the same `uint32_t`. -/
theorem u32_congr (a b : Int)
    (h : (a : ZMod 4294967296) = (b : ZMod 4294967296)) : u32 a = u32 b := by
  rw [u32_eq_mod a (u32 b) (h.trans (u32_cast b).symm), Nat.mod_eq_of_lt (u32_lt b)]

/-- C7 (counterexample): with one track of one frame (`total_length = 588`) a stream of
exactly 588 samples is shorter than `total_length - R - 1 + W`, yet the run does not end
in the premature-EOF error: it reports results. -/
theorem stream_requirement_counterexample :
    checkArgs [0, 0, 1] = .ok (0, 1)
    ∧ trackStart [0, 0, 1] 0 1 = 588
    ∧ ((List.replicate 588 ((0 : Nat), (0 : Nat))).length : Int)
        < trackStart [0, 0, 1] 0 1 - (CHECK_RADIUS : Int) - 1 + (ARCFS_PER_TRACK : Int)
    ∧ ∃ lines, main [0, 0, 1] (List.replicate 588 ((0 : Nat), (0 : Nat))) = .ok lines := by
  have hc : checkArgs [0, 0, 1] = .ok (((0 : Nat) : Int), ((1 : Nat) : Int)) := rfl
  have ht : trackStart [0, 0, 1] 0 1 = 588 := by
    simp [trackStart, trackSamples, atoiArg, SAMPLES_PER_FRAME]
  refine ⟨hc, ht, ?_, ?_⟩
  · rw [ht, List.length_replicate]; decide
  · rw [main_eq _ _ 0 1 hc, ht, if_pos (by rw [List.length_replicate]; decide)]
    exact ⟨_, rfl⟩

/-- C7 (amended): for accepted arguments the run ends in the premature-EOF error exactly
when the stream carries fewer than `total_length` samples (the sum of the track sample
counts); with at least `total_length` samples it reports results. -/
theorem eof_iff_stream_shorter_than_total (argv : List Int) (stdin : List (Nat × Nat))
    (P T : Nat) (hargs : checkArgs argv = .ok ((P : Int), (T : Int))) :
    (main argv stdin = .error .eof ↔ (stdin.length : Int) < trackStart argv P T)
    ∧ (trackStart argv P T ≤ (stdin.length : Int) → ∃ lines, main argv stdin = .ok lines) := by
  rw [main_eq argv stdin P T hargs]
  by_cases h : (trackStart argv P T).toNat ≤ stdin.length
  · rw [if_pos h]
    refine ⟨⟨fun h1 => by simp at h1, fun h1 => by omega⟩, fun _ => ⟨_, rfl⟩⟩
  · rw [if_neg h]
    refine ⟨⟨fun _ => by omega, fun _ => rfl⟩, fun h1 => by omega⟩

theorem eof_iff_stream_shorter_than_total_witness :
    (main [0, 0, 1] (List.replicate 587 ((0 : Nat), (0 : Nat))) = .error .eof
      ↔ ((List.replicate 587 ((0 : Nat), (0 : Nat))).length : Int) < trackStart [0, 0, 1] 0 1)
    ∧ (trackStart [0, 0, 1] 0 1 ≤ ((List.replicate 587 ((0 : Nat), (0 : Nat))).length : Int) →
        ∃ lines, main [0, 0, 1] (List.replicate 587 ((0 : Nat), (0 : Nat))) = .ok lines) :=
  eof_iff_stream_shorter_than_total [0, 0, 1] (List.replicate 587 (0, 0)) 0 1 rfl

/-- C8: for `argc >= 2` and `P >= 0` the run is rejected as an argument error, whatever
the stream, exactly when `(argc - 2) mod (2P + 1)` is not zero; otherwise the track
count is `(argc - 2) / (2P + 1)` and the block of track `k` starts at
`argv[2 + k(2P+1)]`: its length, then `P` v1 candidates, then `P` frame-450 candidates. -/
theorem argument_count_validation (argv : List Int) (P : Nat) (h2 : 2 ≤ argv.length)
    (hP : atoiArg argv 1 = (P : Int)) :
    (∀ stdin, main argv stdin = .error .arguments ↔ (argv.length - 2) % (2 * P + 1) ≠ 0)
    ∧ ((argv.length - 2) % (2 * P + 1) = 0 →
        checkArgs argv = .ok ((P : Int), (((argv.length - 2) / (2 * P + 1) : Nat) : Int))
        ∧ (∀ stdin f, run argv stdin = .ok f →
            f.track_count = (argv.length - 2) / (2 * P + 1) ∧ f.num_pairs = P
            ∧ f.tables.dbcrc = (readTables argv P f.track_count).dbcrc
            ∧ f.tables.dbcrc450 = (readTables argv P f.track_count).dbcrc450
            ∧ f.tables.length = adjustLength (readTables argv P f.track_count).length
                f.track_count)
        ∧ ∀ k, k < (argv.length - 2) / (2 * P + 1) →
            (readTables argv P ((argv.length - 2) / (2 * P + 1))).length k
              = atoiArg argv (2 + k * (2 * P + 1)) * 588
            ∧ ∀ j, j < P →
              (readTables argv P ((argv.length - 2) / (2 * P + 1))).dbcrc (k * P + j)
                = u32 (atoiArg argv (2 + k * (2 * P + 1) + 1 + j))
              ∧ (readTables argv P ((argv.length - 2) / (2 * P + 1))).dbcrc450 (k * P + j)
                = u32 (atoiArg argv (2 + k * (2 * P + 1) + 1 + P + j))) := by
  have hc := checkArgs_eq argv P h2 hP
  refine ⟨fun stdin => ?_, fun hm => ?_⟩
  · rw [main_arguments_iff, hc]
    by_cases h : (argv.length - 2) % (2 * P + 1) = 0
    · simp [h]
    · simp [h]
  · have hc2 : checkArgs argv
        = .ok ((P : Int), (((argv.length - 2) / (2 * P + 1) : Nat) : Int)) := by
      rw [hc, if_neg (by simpa using hm)]
    refine ⟨hc2, fun stdin f hf => ?_, fun k hk => ⟨?_, fun j hj => ?_⟩⟩
    · rw [run_eq argv stdin P _ hc2] at hf
      split_ifs at hf
      cases hf
      exact ⟨rfl, rfl, rfl, rfl, rfl⟩
    · rw [readTables_length, if_pos hk]
      simp [trackSamples, SAMPLES_PER_FRAME]
    · have := readTables_dbcrc argv P _ k j hk hj
      have e1 : 2 + k * (2 * P + 1) + 1 + j = 2 + k * (2 * P + 1) + j + 1 := by omega
      have e2 : 2 + k * (2 * P + 1) + 1 + P + j = 2 + k * (2 * P + 1) + (P + j) + 1 := by
        omega
      rw [e1, e2]
      exact this

theorem argument_count_validation_witness :
    (∀ stdin, main [0, 1, 5, 7, 8] stdin = .error .arguments ↔ (5 - 2) % (2 * 1 + 1) ≠ 0)
    ∧ (∀ stdin, main [0, 1, 5, 7] stdin = .error .arguments ↔ (4 - 2) % (2 * 1 + 1) ≠ 0) :=
  ⟨(argument_count_validation [0, 1, 5, 7, 8] 1 (by decide) (by decide)).1,
   (argument_count_validation [0, 1, 5, 7] 1 (by decide) (by decide)).1⟩

/-- C9: from the 16-bit words `left`, `right` of one record `read_value` yields
`right * 65536 + left`, a 32-bit word whose low half is `left` and high half `right`
(also for `right >= 0x8000`), and the packing is injective. -/
theorem read_value_packing (left right : Nat) (rest : List (Nat × Nat))
    (hl : left < 65536) (hr : right < 65536) :
    read_value ((left, right) :: rest) = some (right * 65536 + left, rest)
    ∧ (right * 65536 + left) % 65536 = left
    ∧ (right * 65536 + left) / 65536 = right
    ∧ right * 65536 + left < 4294967296
    ∧ ∀ left2 right2 : Nat, left2 < 65536 → right2 < 65536 →
        packSample left2 right2 = packSample left right → left2 = left ∧ right2 = right := by
  refine ⟨?_, by omega, by omega, by omega, ?_⟩
  · simp [read_value, packSample_eq left right hl hr]
  · intro left2 right2 hl2 hr2 h
    rw [packSample_eq left right hl hr, packSample_eq left2 right2 hl2 hr2] at h
    omega

theorem read_value_packing_witness :
    read_value ((4660, 32768) :: []) = some (32768 * 65536 + 4660, [])
    ∧ (32768 * 65536 + 4660) % 65536 = 4660
    ∧ (32768 * 65536 + 4660) / 65536 = 32768 :=
  ⟨(read_value_packing 4660 32768 [] (by decide) (by decide)).1,
   (read_value_packing 4660 32768 [] (by decide) (by decide)).2.1,
   (read_value_packing 4660 32768 [] (by decide) (by decide)).2.2.1⟩

/-- C5: for every final state and database table, every track `k < T` and every offset
index `o < W` other than `R`, the result lines emitted for `(k, o - R)` are exactly one
line `(k, o - R, arcf[k][o], arcf450[k][o])` per candidate `p < P` with
`arcf[k][o] = dbcrc[k][p]` or `arcf450[k][o] = dbcrc450[k][p]`. -/
theorem report_nonzero_offset_lines (T P : Nat) (dbcrc dbcrc450 arcf arcf450 crc2 : Nat → Nat)
    (k o : Nat) (hk : k < T) (ho : o < ARCFS_PER_TRACK) (hne : o ≠ CHECK_RADIUS) :
    (report T P dbcrc dbcrc450 arcf arcf450 crc2).filter
        (fun l => decide (l.trackno = k ∧ l.offset = (o : Int) - (CHECK_RADIUS : Int)))
      = List.replicate
          ((List.range P).filter fun p =>
              arcf (ARCF_IDX k o) = dbcrc (k * P + p)
                ∨ arcf450 (ARCF_IDX k o) = dbcrc450 (k * P + p)).length
          (.matched k ((o : Int) - (CHECK_RADIUS : Int)) (arcf (ARCF_IDX k o))
            (arcf450 (ARCF_IDX k o))) := by
  unfold report
  rw [List.filter_flatMap]
  rw [flatMap_range_single T k _ _ hk]
  · rw [List.filter_flatMap, flatMap_range_single _ o _ _ ho]
    · rw [reportSlot_of_ne _ _ _ _ _ _ _ _ hne, List.filter_eq_self]
      intro a ha
      rw [List.mem_replicate] at ha
      rw [ha.2]
      simp [ResultLine.trackno, ResultLine.offset]
    · intro i hi
      rw [List.filter_eq_nil_iff]
      intro a ha
      have := mem_reportSlot ha
      simp only [decide_eq_true_eq, not_and]
      intro _
      rw [this.2.1]
      omega
  · intro i hi
    rw [List.filter_eq_nil_iff]
    intro a ha
    rw [List.mem_flatMap] at ha
    obtain ⟨o2, _, ha⟩ := ha
    have := mem_reportSlot ha
    simp only [decide_eq_true_eq, not_and]
    intro h
    omega

theorem report_nonzero_offset_lines_witness :
    (report 1 1 (fun _ => 0) (fun _ => 0) (fun _ => 0) (fun _ => 0) (fun _ => 0)).filter
        (fun l => decide (l.trackno = 0 ∧ l.offset = ((0 : Nat) : Int) - (CHECK_RADIUS : Int)))
      = List.replicate
          ((List.range 1).filter fun p =>
              (fun _ => 0 : Nat → Nat) (ARCF_IDX 0 0) = (fun _ => 0 : Nat → Nat) (0 * 1 + p)
                ∨ (fun _ => 0 : Nat → Nat) (ARCF_IDX 0 0)
                    = (fun _ => 0 : Nat → Nat) (0 * 1 + p)).length
          (.matched 0 (((0 : Nat) : Int) - (CHECK_RADIUS : Int))
            ((fun _ => 0 : Nat → Nat) (ARCF_IDX 0 0)) ((fun _ => 0 : Nat → Nat) (ARCF_IDX 0 0))) :=
  report_nonzero_offset_lines 1 1 (fun _ => 0) (fun _ => 0) (fun _ => 0) (fun _ => 0)
    (fun _ => 0) 0 0 (by decide) (by decide) (by decide)

/-- C6: whatever the database table, the five-field lines of the report are exactly one
line `(k, 0, arcf[k][R], arcf450[k][R], crc2[k])` per track `k < T`, in increasing
track order, and the lines of the whole report are ordered by track and, within a
track, by offset. -/
theorem report_offset0_lines (T P : Nat) (dbcrc dbcrc450 arcf arcf450 crc2 : Nat → Nat) :
    (report T P dbcrc dbcrc450 arcf arcf450 crc2).filter ResultLine.isOffset0
      = (List.range T).map (fun k =>
          ResultLine.offset0 k 0 (arcf (ARCF_IDX k CHECK_RADIUS))
            (arcf450 (ARCF_IDX k CHECK_RADIUS)) (crc2 k))
    ∧ (report T P dbcrc dbcrc450 arcf arcf450 crc2).Pairwise
        (fun a b => a.trackno < b.trackno
          ∨ (a.trackno = b.trackno ∧ a.offset ≤ b.offset)) := by
  constructor
  · exact report_filter_offset0 T P dbcrc dbcrc450 arcf arcf450 crc2
  · unfold report
    rw [List.pairwise_flatMap]
    constructor
    · intro k _
      rw [List.pairwise_flatMap]
      constructor
      · intro o _
        apply List.pairwise_of_forall_mem_list
        intro a ha b hb
        have h1 := mem_reportSlot ha
        have h2 := mem_reportSlot hb
        right
        exact ⟨by rw [h1.1, h2.1], by rw [h1.2.1, h2.2.1]⟩
      · refine (List.pairwise_lt_range _).imp ?_
        intro o1 o2 h12 a ha b hb
        have h1 := mem_reportSlot ha
        have h2 := mem_reportSlot hb
        right
        exact ⟨by rw [h1.1, h2.1], by rw [h1.2.1, h2.2.1]; omega⟩
    · refine (List.pairwise_lt_range _).imp ?_
      intro k1 k2 h12 a ha b hb
      rw [List.mem_flatMap] at ha hb
      obtain ⟨_, _, ha⟩ := ha
      obtain ⟨_, _, hb⟩ := hb
      have h1 := mem_reportSlot ha
      have h2 := mem_reportSlot hb
      left
      rw [h1.1, h2.1]
      exact h12

/-- C10: for accepted arguments with at least one track and an all-zero stream long
enough for the run to complete, the run succeeds, every `arcf[k][o]`, every
`arcf450[k][o]` and every `crc2[k]` is 0, and the report holds the offset-0 line of
track 0, which reads `000,0: 00000000 00000000 00000000`. -/
theorem silence_yields_zero_checksums (argv : List Int) (stdin : List (Nat × Nat))
    (P T : Nat) (hargs : checkArgs argv = .ok ((P : Int), (T : Int))) (hT : 1 ≤ T)
    (hzero : ∀ r ∈ stdin, r = (0, 0))
    (hlen : trackStart argv P T ≤ (stdin.length : Int)) :
    ∃ f, run argv stdin = .ok f ∧ main argv stdin = .ok (reportFinal f)
      ∧ (∀ k o, f.state.arcf (ARCF_IDX k o) = 0)
      ∧ (∀ k o, f.state.arcf450 (ARCF_IDX k o) = 0)
      ∧ (∀ k, f.state.crc2 k = 0)
      ∧ ∃ l ∈ reportFinal f, l.isOffset0 = true ∧ l.trackno = 0
          ∧ l.render = "000,0: 00000000 00000000 00000000" := by
  have hl : (trackStart argv P T).toNat ≤ stdin.length := by omega
  have hz := iterBody_zeroed T (lengthTable argv P T) (sampleAt stdin)
    (trackStart argv P T).toNat (fun i _ => sampleAt_zero stdin hzero i)
  obtain ⟨h1, _, h3, h4, _, _, _⟩ := hz
  refine ⟨finalOf argv stdin P T, ?_, ?_, ?_, ?_, ?_, ?_⟩
  · rw [run_eq argv stdin P T hargs, if_pos hl]
  · rw [main_eq argv stdin P T hargs, if_pos hl]
  · intro k o; simp only [finalOf, h1]
  · intro k o; simp only [finalOf, h4]
  · intro k; simp only [finalOf, h3]
  · refine ⟨ResultLine.offset0 0 0 0 0 0, ?_, rfl, rfl, by decide⟩
    have := offset0_mem_report T P (readTables argv P T).dbcrc (readTables argv P T).dbcrc450
      (iterBody T (lengthTable argv P T) (sampleAt stdin) (trackStart argv P T).toNat).arcf
      (iterBody T (lengthTable argv P T) (sampleAt stdin) (trackStart argv P T).toNat).arcf450
      (iterBody T (lengthTable argv P T) (sampleAt stdin) (trackStart argv P T).toNat).crc2
      0 (by omega)
    simp only [h1, h3, h4] at this
    simp only [reportFinal, finalOf, h1, h3, h4]
    exact this

theorem silence_yields_zero_checksums_witness :
    ∃ f, run [0, 0, 1] (List.replicate 588 ((0 : Nat), (0 : Nat))) = .ok f
      ∧ main [0, 0, 1] (List.replicate 588 ((0 : Nat), (0 : Nat))) = .ok (reportFinal f)
      ∧ (∀ k o, f.state.arcf (ARCF_IDX k o) = 0)
      ∧ (∀ k o, f.state.arcf450 (ARCF_IDX k o) = 0)
      ∧ (∀ k, f.state.crc2 k = 0)
      ∧ ∃ l ∈ reportFinal f, l.isOffset0 = true ∧ l.trackno = 0
          ∧ l.render = "000,0: 00000000 00000000 00000000" :=
  silence_yields_zero_checksums [0, 0, 1] (List.replicate 588 (0, 0)) 0 1 rfl (by decide)
    (fun r hr => (List.mem_replicate.mp hr).2)
    (by
      have ht : trackStart [0, 0, 1] 0 1 = 588 := by
        simp [trackStart, trackSamples, atoiArg, SAMPLES_PER_FRAME]
      rw [ht, List.length_replicate]; decide)

/-- C1: with `T >= 1`, adjusted lengths `n_0 >= 3R` and `n_k >= 2R` for `1 <= k < T`, and
a stream of at least `total_length` samples, the run succeeds and for every track
`k < T` and every slot `o < W`, `arcf[k][o]` is the sum over `i` from `c_k + 1` to `n_k`
of `s[S_k + (o - R) + i - 1] * i` modulo `2^32` (`c_0 = R`, `c_k = 0` otherwise): the
AccurateRip v1 checksum of track `k` read at signed offset `o - R`. -/
theorem sliding_offsets_v1 (argv : List Int) (stdin : List (Nat × Nat)) (P T : Nat)
    (hargs : checkArgs argv = .ok ((P : Int), (T : Int))) (hT : 1 ≤ T)
    (h0 : 3 * (CHECK_RADIUS : Int) ≤ adjustedLength argv P T 0)
    (hk : ∀ k, 1 ≤ k → k < T → 2 * (CHECK_RADIUS : Int) ≤ adjustedLength argv P T k)
    (hlen : trackStart argv P T ≤ (stdin.length : Int)) :
    ∃ f, run argv stdin = .ok f ∧ ∀ k o, k < T → o < ARCFS_PER_TRACK →
      (f.state.arcf (ARCF_IDX k o) : Int)
        = (∑ i ∈ Finset.Icc ((cFirst k : Int) + 1) (adjustedLength argv P T k),
            (sampleAt stdin
              (trackStart argv P k + ((o : Int) - (CHECK_RADIUS : Int)) + i - 1).toNat : Int)
              * i) % 4294967296 := by
  obtain ⟨hrun, harcf⟩ := run_arcf argv stdin P T hargs hT h0 hk hlen
  obtain ⟨_, hm0, _, hnat, _⟩ := long_tracks_table argv P T hT h0 hk
  obtain ⟨_, hb⟩ := long_tracks_total argv P T hT h0 hk
  refine ⟨_, hrun, ?_⟩
  intro k o hk2 ho
  rw [ARCFS_PER_TRACK_eq] at ho
  have hR : (CHECK_RADIUS : Int) = 2939 := by rw [CHECK_RADIUS_eq]; rfl
  rw [harcf k o hk2 ho, hR]
  have hc := cFirst_add_mLead (lenNat argv P T) hm0 k
  have e := winCrc_cast_Icc (sampleAt stdin) (trackStart argv P k)
    (bLead (lenNat argv P T) k) (mLead (lenNat argv P T) k) (cFirst k) o (hb k hk2)
  rw [hc, hnat k hk2] at e
  rw [← e, Int.natCast_mod]
  rfl

theorem sliding_offsets_v1_witness :
    ∃ f, run [0, 0, 20] (List.replicate 11760 ((0 : Nat), (0 : Nat))) = .ok f
      ∧ ∀ k o, k < 1 → o < ARCFS_PER_TRACK →
        (f.state.arcf (ARCF_IDX k o) : Int)
          = (∑ i ∈ Finset.Icc ((cFirst k : Int) + 1) (adjustedLength [0, 0, 20] 0 1 k),
              (sampleAt (List.replicate 11760 ((0 : Nat), (0 : Nat)))
                (trackStart [0, 0, 20] 0 k + ((o : Int) - (CHECK_RADIUS : Int)) + i - 1).toNat
                  : Int) * i) % 4294967296 :=
  sliding_offsets_v1 [0, 0, 20] (List.replicate 11760 (0, 0)) 0 1 rfl (by decide)
    (by simp [adjustedLength, trackSamples, atoiArg, CHECK_RADIUS_eq, SAMPLES_PER_FRAME_eq])
    (fun k h1 h2 => absurd h2 (by omega))
    (by
      have ht : trackStart [0, 0, 20] 0 1 = 11760 := by
        simp [trackStart, trackSamples, atoiArg, SAMPLES_PER_FRAME]
      rw [ht, List.length_replicate]; decide)

/-- A window whose samples after the first are all 0 has the first sample as its weighted
sum. -/
theorem winCrc_single (s : Nat → Nat) (m : Nat) (hm : 0 < m) (hs : ∀ t, 1 ≤ t → s t = 0) :
    winCrc s 0 m 0 0 = s 0 := by
  unfold winCrc
  rw [Finset.sum_eq_single 0]
  · simp
  · intro t _ ht0
    simp only [Nat.zero_add]
    rw [hs t (by omega), zero_mul]
  · intro h
    exact absurd (Finset.mem_range.mpr hm) h

/-- C2 (counterexample): two tracks of two frames each and a stream of 2352 samples whose
first sample is 1 and the others 0.  The naive v1 checksum of the 1176-sample window of
track 0 at offset 0 is 1, but the loop ends after 2352 < R iterations without ever
writing slot `R`, so `arcf[0][R]` is 0. -/
theorem sliding_consistency_counterexample :
    checkArgs [0, 0, 2, 2] = .ok (0, 2)
    ∧ trackSamples [0, 0, 2, 2] 0 0 = 1176
    ∧ adjustedLength [0, 0, 2, 2] 0 2 0 = 1176
    ∧ ∃ f, run [0, 0, 2, 2] ((1, 0) :: List.replicate 2351 ((0 : Nat), (0 : Nat))) = .ok f
        ∧ f.state.arcf (ARCF_IDX 0 CHECK_RADIUS) = 0
        ∧ naiveV1 (streamWindow ((1, 0) :: List.replicate 2351 ((0 : Nat), (0 : Nat)))
            (trackStart [0, 0, 2, 2] 0 0 + ((CHECK_RADIUS : Int) - (CHECK_RADIUS : Int)))
            1176 0) = 1 := by
  have hc : checkArgs [0, 0, 2, 2] = .ok (((0 : Nat) : Int), ((2 : Nat) : Int)) := rfl
  have hL : trackSamples [0, 0, 2, 2] 0 0 = 1176 := by
    simp [trackSamples, atoiArg, SAMPLES_PER_FRAME]
  have ht : trackStart [0, 0, 2, 2] 0 2 = 2352 := by
    simp [trackStart, trackSamples, atoiArg, SAMPLES_PER_FRAME, Finset.sum_range_succ]
  refine ⟨hc, hL, ?_,
    finalOf [0, 0, 2, 2] ((1, 0) :: List.replicate 2351 ((0 : Nat), (0 : Nat))) 0 2, ?_, ?_, ?_⟩
  · simp [adjustedLength, hL]
  · rw [run_eq _ _ 0 2 hc, ht, if_pos]
    rw [List.length_cons, List.length_replicate]
    decide
  · have h := (untouched_slots 2 (lengthTable [0, 0, 2, 2] 0 2)
      (sampleAt ((1, 0) :: List.replicate 2351 ((0 : Nat), (0 : Nat)))) 2352).2 0 2939
      (by omega) (by omega)
    have e : (2352 : Int).toNat = 2352 := rfl
    rw [finalOf_state, ht, e, CHECK_RADIUS_eq]
    exact h
  · have hs : ∀ t, 1 ≤ t →
        sampleAt ((1, 0) :: List.replicate 2351 ((0 : Nat), (0 : Nat))) t = 0 := by
      intro t ht1
      obtain ⟨t, rfl⟩ : ∃ t2, t = t2 + 1 := ⟨t - 1, by omega⟩
      rw [sampleAt_cons_succ]
      exact sampleAt_zero _ (fun r hr => (List.mem_replicate.mp hr).2) t
    have hw := naiveV1_streamWindow ((1, 0) :: List.replicate 2351 ((0 : Nat), (0 : Nat)))
      (trackStart [0, 0, 2, 2] 0 0 + ((CHECK_RADIUS : Int) - (CHECK_RADIUS : Int))) 0 1176 0 0
      (by simp [trackStart])
    rw [Nat.zero_add] at hw
    rw [hw, winCrc_single _ 1176 (by omega) hs, sampleAt_cons_zero]
    decide

/-- C2 (amended): with `T >= 1`, adjusted lengths `n_0 >= 3R` and `n_k >= 2R` for
`1 <= k < T`, and a stream of at least `total_length` samples, after the run every
`arcf[k][o]` is the naive v1 checksum of the `n_k`-sample window of the stream that
starts at position `S_k + (o - R)`, `n_k` being the adjusted length and the first `R`
entries of the windows of track 0 being excluded; in particular `arcf[k][R]`, `k >= 1`,
is the naive checksum of the first `n_k` samples of track `k`. -/
theorem sliding_consistency_long_tracks (argv : List Int) (stdin : List (Nat × Nat))
    (P T : Nat) (hargs : checkArgs argv = .ok ((P : Int), (T : Int))) (hT : 1 ≤ T)
    (h0 : 3 * (CHECK_RADIUS : Int) ≤ adjustedLength argv P T 0)
    (hk : ∀ k, 1 ≤ k → k < T → 2 * (CHECK_RADIUS : Int) ≤ adjustedLength argv P T k)
    (hlen : trackStart argv P T ≤ (stdin.length : Int)) :
    ∃ f, run argv stdin = .ok f
      ∧ (∀ k o, k < T → o < ARCFS_PER_TRACK →
          f.state.arcf (ARCF_IDX k o)
            = naiveV1 (streamWindow stdin
                (trackStart argv P k + ((o : Int) - (CHECK_RADIUS : Int)))
                (adjustedLength argv P T k).toNat (cFirst k)))
      ∧ (∀ k, 1 ≤ k → k < T →
          f.state.arcf (ARCF_IDX k CHECK_RADIUS)
            = naiveV1 ((List.range (adjustedLength argv P T k).toNat).map fun t =>
                sampleAt stdin ((trackStart argv P k).toNat + t))) := by
  obtain ⟨hrun, harcf⟩ := run_arcf argv stdin P T hargs hT h0 hk hlen
  obtain ⟨_, hm0, _, hnat, _⟩ := long_tracks_table argv P T hT h0 hk
  obtain ⟨_, hb⟩ := long_tracks_total argv P T hT h0 hk
  have hR : (CHECK_RADIUS : Int) = 2939 := by rw [CHECK_RADIUS_eq]; rfl
  have key : ∀ k o, k < T → o < ARCFS_PER_TRACK →
      (finalOf argv stdin P T).state.arcf (ARCF_IDX k o)
        = naiveV1 (streamWindow stdin
            (trackStart argv P k + ((o : Int) - (CHECK_RADIUS : Int)))
            (adjustedLength argv P T k).toNat (cFirst k)) := by
    intro k o hk2 ho
    rw [ARCFS_PER_TRACK_eq] at ho
    have hc := cFirst_add_mLead (lenNat argv P T) hm0 k
    have hn : (adjustedLength argv P T k).toNat
        = cFirst k + mLead (lenNat argv P T) k := by
      rw [hc, ← hnat k hk2]; simp
    rw [harcf k o hk2 ho, hn, hR]
    refine (naiveV1_streamWindow stdin _ (bLead (lenNat argv P T) k) _ _ o ?_).symm
    have := hb k hk2
    push_cast
    omega
  refine ⟨_, hrun, key, ?_⟩
  intro k h1 hk2
  have hRW : CHECK_RADIUS < ARCFS_PER_TRACK := by
    rw [CHECK_RADIUS_eq, ARCFS_PER_TRACK_eq]; omega
  rw [key k CHECK_RADIUS hk2 hRW, cFirst_pos k h1]
  have hS : 0 ≤ trackStart argv P k := by
    have := hb k hk2
    rw [cFirst_pos k h1] at this
    omega
  unfold streamWindow
  congr 1
  apply List.map_congr_left
  intro t _
  have e : (trackStart argv P k + ((CHECK_RADIUS : Int) - (CHECK_RADIUS : Int)) + (t : Int)).toNat
      = (trackStart argv P k).toNat + t := by omega
  rw [if_neg (by omega), e]

theorem sliding_consistency_long_tracks_witness :
    ∃ f, run [0, 0, 20] (List.replicate 11760 ((0 : Nat), (0 : Nat))) = .ok f
      ∧ (∀ k o, k < 1 → o < ARCFS_PER_TRACK →
          f.state.arcf (ARCF_IDX k o)
            = naiveV1 (streamWindow (List.replicate 11760 ((0 : Nat), (0 : Nat)))
                (trackStart [0, 0, 20] 0 k + ((o : Int) - (CHECK_RADIUS : Int)))
                (adjustedLength [0, 0, 20] 0 1 k).toNat (cFirst k)))
      ∧ (∀ k, 1 ≤ k → k < 1 →
          f.state.arcf (ARCF_IDX k CHECK_RADIUS)
            = naiveV1 ((List.range (adjustedLength [0, 0, 20] 0 1 k).toNat).map fun t =>
                sampleAt (List.replicate 11760 ((0 : Nat), (0 : Nat)))
                  ((trackStart [0, 0, 20] 0 k).toNat + t))) :=
  sliding_consistency_long_tracks [0, 0, 20] (List.replicate 11760 (0, 0)) 0 1 rfl (by decide)
    (by simp [adjustedLength, trackSamples, atoiArg, CHECK_RADIUS_eq, SAMPLES_PER_FRAME_eq])
    (fun k h1 h2 => absurd h2 (by omega))
    (by
      have ht : trackStart [0, 0, 20] 0 1 = 11760 := by
        simp [trackStart, trackSamples, atoiArg, SAMPLES_PER_FRAME]
      rw [ht, List.length_replicate]; decide)

/-- C3 (counterexample): two tracks of 1 and 6 frames (adjusted lengths 588 and 588) and
a stream of 4116 samples that is 1 at position 588, the first sample of track 1, and 0
elsewhere.  The sum of the claim over `i = 1..588` is 1, but the trailing cursor is in
track 1 at stream positions 588..1175, all below `R`, where it consumes nothing:
`crc2[1]` is 0. -/
theorem v2_correspondence_counterexample :
    checkArgs [0, 0, 1, 6] = .ok (0, 2)
    ∧ (∀ k, k < 2 → 1 ≤ adjustedLength [0, 0, 1, 6] 0 2 k)
    ∧ ∃ f, run [0, 0, 1, 6]
          (List.replicate 588 ((0 : Nat), (0 : Nat)) ++ (1, 0) :: List.replicate 3527 (0, 0))
          = .ok f
        ∧ f.state.crc2 1 = 0
        ∧ (∑ i ∈ Finset.Icc (1 : Int) (adjustedLength [0, 0, 1, 6] 0 2 1),
            ((foldProduct
              (sampleAt
                (List.replicate 588 ((0 : Nat), (0 : Nat)) ++ (1, 0) :: List.replicate 3527 (0, 0))
                (trackStart [0, 0, 1, 6] 0 1 + i - 1).toNat * i.toNat) : Nat) : Int))
            % 4294967296 = 1 := by
  have hc : checkArgs [0, 0, 1, 6] = .ok (((0 : Nat) : Int), ((2 : Nat) : Int)) := rfl
  have hS1 : trackStart [0, 0, 1, 6] 0 1 = 588 := by
    simp [trackStart, trackSamples, atoiArg, SAMPLES_PER_FRAME]
  have ht : trackStart [0, 0, 1, 6] 0 2 = 4116 := by
    simp [trackStart, trackSamples, atoiArg, SAMPLES_PER_FRAME, Finset.sum_range_succ]
  have hn0 : adjustedLength [0, 0, 1, 6] 0 2 0 = 588 := by
    simp [adjustedLength, trackSamples, atoiArg, SAMPLES_PER_FRAME]
  have hn1 : adjustedLength [0, 0, 1, 6] 0 2 1 = 588 := by
    simp [adjustedLength, trackSamples, atoiArg, SAMPLES_PER_FRAME, CHECK_RADIUS_eq]
  have hpos : ∀ k, k < 2 → 1 ≤ adjustedLength [0, 0, 1, 6] 0 2 k := by
    intro k hk
    rcases Nat.lt_or_ge k 1 with h | h
    · have : k = 0 := by omega
      rw [this, hn0]; norm_num
    · have : k = 1 := by omega
      rw [this, hn1]; norm_num
  have hrun := run_crc2 [0, 0, 1, 6]
    (List.replicate 588 ((0 : Nat), (0 : Nat)) ++ (1, 0) :: List.replicate 3527 (0, 0)) 0 2 hc
    (by omega) hpos
    (by rw [ht, List.length_append, List.length_cons, List.length_replicate,
          List.length_replicate]; decide)
  refine ⟨hc, hpos, _, hrun.1, ?_, ?_⟩
  · rw [hrun.2 1 (by omega), hS1, hn1]
    have e : (588 : Int).toNat = 588 := rfl
    rw [e]
    unfold v2Sum
    rw [Finset.sum_eq_zero]
    · norm_num
    intro t ht2
    have := Finset.mem_range.mp ht2
    rw [if_neg (by omega)]
  · rw [hS1, hn1, Finset.sum_eq_single 1]
    · rw [sampleAt_impulse]
      decide
    · intro i hi hne
      have := Finset.mem_Icc.mp hi
      rw [sampleAt_impulse, if_neg (by omega)]
      simp [foldProduct]
    · intro h
      exact absurd (Finset.mem_Icc.mpr ⟨le_refl _, by norm_num⟩) h

/-- C3 (amended): with `T >= 1`, every adjusted length `n_k >= 1`, `total_length` within
the range of `int` and a stream of at least `total_length` samples, after the run
`crc2[k]` is, for every `k < T`, the sum over `i` from `a_k` to `n_k` of
`(s_i * i) mod 2^32 + (s_i * i) div 2^32`, modulo `2^32`, with `s_i = s[S_k + i - 1]`,
the exact product, and `a_k = max(1, R + 1 - S_k)`: only samples at stream positions
from `R` on are consumed (`a_0 = R + 1`, and `a_k = 1` once `S_k >= R`). -/
theorem v2_correspondence (argv : List Int) (stdin : List (Nat × Nat)) (P T : Nat)
    (hargs : checkArgs argv = .ok ((P : Int), (T : Int))) (hT : 1 ≤ T)
    (hpos : ∀ k, k < T → 1 ≤ adjustedLength argv P T k)
    (hint : trackStart argv P T < 2147483648)
    (hlen : trackStart argv P T ≤ (stdin.length : Int)) :
    ∃ f, run argv stdin = .ok f ∧ ∀ k, k < T →
      (f.state.crc2 k : Int)
        = (∑ i ∈ Finset.Icc (max 1 ((CHECK_RADIUS : Int) + 1 - trackStart argv P k))
              (adjustedLength argv P T k),
            ((foldProduct
              (sampleAt stdin (trackStart argv P k + i - 1).toNat * i.toNat) : Nat) : Int))
          % 4294967296 := by
  obtain ⟨hrun, hcrc⟩ := run_crc2 argv stdin P T hargs hT hpos hlen
  refine ⟨_, hrun, ?_⟩
  intro k hk
  have hR : (CHECK_RADIUS : Int) = 2939 := by rw [CHECK_RADIUS_eq]; rfl
  have h1 := adjustedLength_le_total argv P T k hk hpos
  have h2 := trackStart_nonneg_of_pos argv P T k hk hpos
  have h3 := hpos k hk
  have e := v2Sum_cast_Icc (sampleAt stdin) (trackStart argv P k) (adjustedLength argv P T k)
    h2 (by omega) (sampleAt_lt stdin) (by omega)
  rw [hcrc k hk, hR, ← e, Int.natCast_mod]
  rfl

theorem v2_correspondence_witness :
    ∃ f, run [0, 0, 20] (List.replicate 11760 ((0 : Nat), (0 : Nat))) = .ok f ∧ ∀ k, k < 1 →
      (f.state.crc2 k : Int)
        = (∑ i ∈ Finset.Icc (max 1 ((CHECK_RADIUS : Int) + 1 - trackStart [0, 0, 20] 0 k))
              (adjustedLength [0, 0, 20] 0 1 k),
            ((foldProduct
              (sampleAt (List.replicate 11760 ((0 : Nat), (0 : Nat)))
                (trackStart [0, 0, 20] 0 k + i - 1).toNat * i.toNat) : Nat) : Int))
          % 4294967296 :=
  v2_correspondence [0, 0, 20] (List.replicate 11760 (0, 0)) 0 1 rfl (by decide)
    (fun k hk => by
      have : k = 0 := by omega
      rw [this]
      simp [adjustedLength, trackSamples, atoiArg, CHECK_RADIUS_eq, SAMPLES_PER_FRAME_eq])
    (by simp [trackStart, trackSamples, atoiArg, SAMPLES_PER_FRAME])
    (by
      have ht : trackStart [0, 0, 20] 0 1 = 11760 := by
        simp [trackStart, trackSamples, atoiArg, SAMPLES_PER_FRAME]
      rw [ht, List.length_replicate]; decide)

/-- C4 (counterexample): a first track of 0 frames and a second one of 461 frames
(adjusted length 268128, at least `451 * 588 + R`), with a stream of 271068 samples that
is 1 at position 264600 and 0 elsewhere.  The sum of the claim for track 1 at `o = R` is
1, but the trailing cursor never leaves track 0 (its counter is already 1 at the first
comparison with the length 0), so `arcf450[1][R]` stays 0. -/
theorem frame450_counterexample :
    checkArgs [0, 0, 0, 461] = .ok (0, 2)
    ∧ 451 * (SAMPLES_PER_FRAME : Int) + (CHECK_RADIUS : Int)
        ≤ adjustedLength [0, 0, 0, 461] 0 2 1
    ∧ ∃ f, run [0, 0, 0, 461]
          (List.replicate 264600 ((0 : Nat), (0 : Nat)) ++ (1, 0) :: List.replicate 6467 (0, 0))
          = .ok f
        ∧ f.state.arcf450 (ARCF_IDX 1 CHECK_RADIUS) = 0
        ∧ (∑ j ∈ Finset.Icc (1 : Int) 588,
            (sampleAt
              (List.replicate 264600 ((0 : Nat), (0 : Nat)) ++ (1, 0) :: List.replicate 6467 (0, 0))
              (trackStart [0, 0, 0, 461] 0 1 + 450 * (SAMPLES_PER_FRAME : Int)
                + (((CHECK_RADIUS : Nat) : Int) - (CHECK_RADIUS : Int)) + j - 1).toNat : Int) * j)
            % 4294967296 = 1 := by
  have hc : checkArgs [0, 0, 0, 461] = .ok (((0 : Nat) : Int), ((2 : Nat) : Int)) := rfl
  have hS1 : trackStart [0, 0, 0, 461] 0 1 = 0 := by
    simp [trackStart, trackSamples, atoiArg, SAMPLES_PER_FRAME]
  have ht : trackStart [0, 0, 0, 461] 0 2 = 271068 := by
    simp [trackStart, trackSamples, atoiArg, SAMPLES_PER_FRAME, Finset.sum_range_succ]
  have hn1 : adjustedLength [0, 0, 0, 461] 0 2 1 = 268128 := by
    simp [adjustedLength, trackSamples, atoiArg, SAMPLES_PER_FRAME, CHECK_RADIUS_eq]
  have hl0 : lengthTable [0, 0, 0, 461] 0 2 0 = 0 := by
    rw [lengthTable_of_lt _ _ _ _ (by omega)]
    simp [adjustedLength, trackSamples, atoiArg, SAMPLES_PER_FRAME]
  have hF : (SAMPLES_PER_FRAME : Int) = 588 := by rw [SAMPLES_PER_FRAME_eq]; rfl
  have hR : (CHECK_RADIUS : Int) = 2939 := by rw [CHECK_RADIUS_eq]; rfl
  refine ⟨hc, ?_, finalOf [0, 0, 0, 461]
    (List.replicate 264600 ((0 : Nat), (0 : Nat)) ++ (1, 0) :: List.replicate 6467 (0, 0)) 0 2,
    ?_, ?_, ?_⟩
  · rw [hn1, hF, hR]; norm_num
  · rw [run_eq _ _ 0 2 hc, ht, if_pos]
    rw [List.length_append, List.length_cons, List.length_replicate, List.length_replicate]
    decide
  · have htr : (iterBody 2 (lengthTable [0, 0, 0, 461] 0 2)
        (sampleAt (List.replicate 264600 ((0 : Nat), (0 : Nat))
          ++ (1, 0) :: List.replicate 6467 (0, 0)))
        (trackStart [0, 0, 0, 461] 0 2).toNat).track2 = 0 := by
      by_contra hcon
      have := trail_passed_pos 2 (lengthTable [0, 0, 0, 461] 0 2)
        (sampleAt (List.replicate 264600 ((0 : Nat), (0 : Nat))
          ++ (1, 0) :: List.replicate 6467 (0, 0)))
        (trackStart [0, 0, 0, 461] 0 2).toNat 0 (by omega)
      rw [hl0] at this
      omega
    have h := (trail_arcf450 2 (lengthTable [0, 0, 0, 461] 0 2)
      (sampleAt (List.replicate 264600 ((0 : Nat), (0 : Nat))
        ++ (1, 0) :: List.replicate 6467 (0, 0)))
      (trackStart [0, 0, 0, 461] 0 2).toNat).2.2 1 2939 (by omega) (by omega)
    rw [finalOf_state, CHECK_RADIUS_eq]
    exact h
  · rw [hS1, hF, hR, Finset.sum_eq_single 1]
    · rw [sampleAt_impulse, if_pos (by omega)]
      norm_num
    · intro j hj hne
      have := Finset.mem_Icc.mp hj
      rw [sampleAt_impulse, if_neg (by omega)]
      simp
    · intro h
      exact absurd (Finset.mem_Icc.mpr ⟨le_refl _, by norm_num⟩) h

/-- C4 (amended): for a track `k` whose adjusted length is at least `451 * 588 + R`, when
every track before `k` has at least one sample, no track after `k` has a negative
length and the stream carries at least `total_length` samples, after the run every
`arcf450[k][o]`, `o < W`, is the naive v1 checksum of the 588-sample window that starts
at sample `450 * 588 + (o - R)` of track `k`; this holds for track 0 as well. -/
theorem frame450_correspondence (argv : List Int) (stdin : List (Nat × Nat)) (P T k : Nat)
    (hargs : checkArgs argv = .ok ((P : Int), (T : Int))) (hk : k < T)
    (hbefore : ∀ j, j < k → 1 ≤ trackSamples argv P j)
    (hlong : 451 * (SAMPLES_PER_FRAME : Int) + (CHECK_RADIUS : Int)
      ≤ adjustedLength argv P T k)
    (hafter : ∀ j, k < j → j < T → 0 ≤ trackSamples argv P j)
    (hlen : trackStart argv P T ≤ (stdin.length : Int)) :
    ∃ f, run argv stdin = .ok f ∧ ∀ o, o < ARCFS_PER_TRACK →
      (f.state.arcf450 (ARCF_IDX k o) : Int)
        = (∑ j ∈ Finset.Icc (1 : Int) 588,
            (sampleAt stdin
              (trackStart argv P k + 450 * (SAMPLES_PER_FRAME : Int)
                + ((o : Int) - (CHECK_RADIUS : Int)) + j - 1).toNat : Int) * j)
          % 4294967296 := by
  have hF : (SAMPLES_PER_FRAME : Int) = 588 := by rw [SAMPLES_PER_FRAME_eq]; rfl
  have hR : (CHECK_RADIUS : Int) = 2939 := by rw [CHECK_RADIUS_eq]; rfl
  rw [hF, hR] at hlong
  obtain ⟨hrun, hS, ha⟩ := run_arcf450 argv stdin P T k hargs hk hbefore (by omega) hafter hlen
  refine ⟨_, hrun, ?_⟩
  intro o ho
  rw [ARCFS_PER_TRACK_eq] at ho
  have e := frameWindowCrc_cast_Icc (sampleAt stdin) (trackStart argv P k) hS o
  have e450 : (450 : Int) * 588 = 264600 := by norm_num
  rw [ha o ho, hF, hR, e450, ← e, Int.natCast_mod]
  rfl

theorem frame450_correspondence_witness :
    ∃ f, run [0, 0, 461] (List.replicate 271068 ((0 : Nat), (0 : Nat))) = .ok f
      ∧ ∀ o, o < ARCFS_PER_TRACK →
        (f.state.arcf450 (ARCF_IDX 0 o) : Int)
          = (∑ j ∈ Finset.Icc (1 : Int) 588,
              (sampleAt (List.replicate 271068 ((0 : Nat), (0 : Nat)))
                (trackStart [0, 0, 461] 0 0 + 450 * (SAMPLES_PER_FRAME : Int)
                  + ((o : Int) - (CHECK_RADIUS : Int)) + j - 1).toNat : Int) * j)
            % 4294967296 :=
  frame450_correspondence [0, 0, 461] (List.replicate 271068 (0, 0)) 0 1 0 rfl (by decide)
    (fun j hj => absurd hj (by omega))
    (by simp [adjustedLength, trackSamples, atoiArg, CHECK_RADIUS_eq, SAMPLES_PER_FRAME_eq])
    (fun j h1 h2 => absurd h2 (by omega))
    (by
      have ht : trackStart [0, 0, 461] 0 1 = 271068 := by
        simp [trackStart, trackSamples, atoiArg, SAMPLES_PER_FRAME]
      rw [ht, List.length_replicate]; decide)

/-- The v2 sum of a track whose first sample is 1 and whose other samples are 0, at a
stream position from `R` on. -/
theorem v2Sum_single (s : Nat → Nat) (b m : Nat) (hb : 2939 ≤ b) (hm : 0 < m)
    (h0 : s b = 1) (hs : ∀ t, 1 ≤ t → s (b + t) = 0) : v2Sum s b m = 1 := by
  unfold v2Sum
  rw [Finset.sum_eq_single 0]
  · rw [if_pos (by omega), Nat.add_zero, h0]
    decide
  · intro t _ ht0
    rw [if_pos (by omega), hs t (by omega)]
    simp [foldProduct]
  · intro h
    exact absurd (Finset.mem_range.mpr hm) h

/-- C11 (divergence): one track of 20 frames (`ckcdda 0 20`, `T = 1`, `total_length =
11760`, adjusted length 8820) and a stream of 11760 samples that is 1 at position 8820
and 0 elsewhere.  At the head of iteration 8820 the trailing cursor consumes a sample
(`R <= di < total_length`) with `track2 = 1 = T`, the sentinel: the store to
`crc2[track2]` addresses entry 1 of a table of one entry, and after the run that entry
holds 1. -/
theorem trailing_cursor_reaches_sentinel :
    checkArgs [0, 0, 20] = .ok (0, 1)
    ∧ (readTables [0, 0, 20] 0 1).total_length = 11760
    ∧ CHECK_RADIUS ≤ (iterBody 1 (lengthTable [0, 0, 20] 0 1)
        (sampleAt (List.replicate 8820 ((0 : Nat), (0 : Nat))
          ++ (1, 0) :: List.replicate 2939 (0, 0))) 8820).di
    ∧ ((iterBody 1 (lengthTable [0, 0, 20] 0 1)
        (sampleAt (List.replicate 8820 ((0 : Nat), (0 : Nat))
          ++ (1, 0) :: List.replicate 2939 (0, 0))) 8820).di : Int)
        < (readTables [0, 0, 20] 0 1).total_length
    ∧ (iterBody 1 (lengthTable [0, 0, 20] 0 1)
        (sampleAt (List.replicate 8820 ((0 : Nat), (0 : Nat))
          ++ (1, 0) :: List.replicate 2939 (0, 0))) 8820).track2 = 1
    ∧ ∃ f, run [0, 0, 20]
          (List.replicate 8820 ((0 : Nat), (0 : Nat)) ++ (1, 0) :: List.replicate 2939 (0, 0))
          = .ok f
        ∧ f.track_count = 1 ∧ f.state.crc2 1 = 1 := by
  have hc : checkArgs [0, 0, 20] = .ok (((0 : Nat) : Int), ((1 : Nat) : Int)) := rfl
  have ht : trackStart [0, 0, 20] 0 1 = 11760 := by
    simp [trackStart, trackSamples, atoiArg, SAMPLES_PER_FRAME]
  have hn0 : adjustedLength [0, 0, 20] 0 1 0 = 8820 := by
    simp [adjustedLength, trackSamples, atoiArg, SAMPLES_PER_FRAME, CHECK_RADIUS_eq]
  have hpos : ∀ k, k < 1 → 1 ≤ adjustedLength [0, 0, 20] 0 1 k := by
    intro k hk
    have : k = 0 := by omega
    rw [this, hn0]; norm_num
  have hl0 : lengthTable [0, 0, 20] 0 1 0 = 8820 := by
    rw [lengthTable_of_lt _ _ _ _ (by omega), hn0]
  have hl1 : lengthTable [0, 0, 20] 0 1 1 = 5879 := lengthTable_sentinel _ _ _
  have hs1 : lenSum (lengthTable [0, 0, 20] 0 1) 1 = 8820 := by
    rw [lenSum_succ, lenSum_zero, hl0]; norm_num
  have hs2 : lenSum (lengthTable [0, 0, 20] 0 1) (1 + 1) = 14699 := by
    rw [lenSum_succ, hs1, hl1]; norm_num
  have hlpos : ∀ j, j ≤ 1 → 1 ≤ lengthTable [0, 0, 20] 0 1 j := by
    intro j hj
    rcases Nat.lt_or_ge j 1 with h | h
    · have : j = 0 := by omega
      rw [this, hl0]; norm_num
    · have : j = 1 := by omega
      rw [this, hl1]; norm_num
  have htot : (readTables [0, 0, 20] 0 1).total_length = 11760 := by
    rw [readTables_total, ht]
  refine ⟨hc, htot, ?_, ?_, ?_, ?_⟩
  · rw [iterBody_di, CHECK_RADIUS_eq]; omega
  · rw [iterBody_di, htot]; norm_num
  · exact trail_track2_eq 1 _ _ 8820 1 hlpos (by rw [hs1]; norm_num) (by rw [hs2]; norm_num)
  · have hrun := run_crc2 [0, 0, 20]
      (List.replicate 8820 ((0 : Nat), (0 : Nat)) ++ (1, 0) :: List.replicate 2939 (0, 0)) 0 1
      hc (by omega) hpos
      (by rw [ht, List.length_append, List.length_cons, List.length_replicate,
            List.length_replicate]; decide)
    refine ⟨_, hrun.1, rfl, ?_⟩
    have e : (11760 : Int).toNat = 11760 := rfl
    rw [finalOf_state, ht, e]
    have h2 := trail_track2_eq 1 (lengthTable [0, 0, 20] 0 1)
      (sampleAt (List.replicate 8820 ((0 : Nat), (0 : Nat))
        ++ (1, 0) :: List.replicate 2939 (0, 0))) 11760 1 hlpos
      (by rw [hs1]; norm_num) (by rw [hs2]; norm_num)
    have hp := trail_position 1 (lengthTable [0, 0, 20] 0 1)
      (sampleAt (List.replicate 8820 ((0 : Nat), (0 : Nat))
        ++ (1, 0) :: List.replicate 2939 (0, 0))) 11760
    have hv := (trail_crc2 1 (lengthTable [0, 0, 20] 0 1)
      (sampleAt (List.replicate 8820 ((0 : Nat), (0 : Nat))
        ++ (1, 0) :: List.replicate 2939 (0, 0))) 11760).2.1
    rw [iterBody_di, h2, hs1] at hp
    have hti2 : (iterBody 1 (lengthTable [0, 0, 20] 0 1)
      (sampleAt (List.replicate 8820 ((0 : Nat), (0 : Nat))
        ++ (1, 0) :: List.replicate 2939 (0, 0))) 11760).ti2 = 2940 := by omega
    have e2 : (8820 : Int).toNat = 8820 := rfl
    rw [h2, hs1, hti2, e2] at hv
    rw [hv, v2Sum_single _ 8820 2940 (by omega) (by omega)]
    · rw [sampleAt_impulse, if_pos rfl]
    · intro t ht1
      rw [sampleAt_impulse, if_neg (by omega)]

/-- C16 (divergence): an argument list that supplies only `P` (`argc = 2`) passes the
argument validation with `track_count = 0`: for every `P` and every stream `checkArgs`
succeeds with `T = 0`, the sample loop reads nothing and the program ends successfully
with no result line, instead of being rejected as an argument error. -/
theorem no_track_block_accepted (P : Int) (stdin : List (Nat × Nat)) :
    checkArgs [0, P] = .ok (P, 0) ∧ main [0, P] stdin = .ok [] := by
  have hc : checkArgs [0, P] = .ok (P, 0) := by
    simp [checkArgs, atoiArg]
  refine ⟨hc, ?_⟩
  have hloop : ∀ len : Nat → Int,
      mainLoop 0 len 0 stdin initState = .ok initState := by
    intro len
    cases stdin with
    | nil => simp [mainLoop, initState]
    | cons x xs => simp [mainLoop, initState]
  simp [main, run, hc, readTables, zeroTables, hloop, reportFinal, report]

/-- C15: at the head of every iteration (after any number `n` of iterations, for every
argument list and stream) in which both cursors are in the same track, `ti2 = ti - R`
(and `ti >= R`); and whenever the trailing cursor is in a track `k < T`, the sample it is
about to weight by `ti2 + 1` is the stream sample at position `S_k + ti2`, the sample
number `ti2 + 1` of track `k`, which is the alignment of the offset-0 window. -/
theorem trailing_cursor_lag (argv : List Int) (stdin : List (Nat × Nat)) (P T n : Nat) :
    ((iterBody T (lengthTable argv P T) (sampleAt stdin) n).track
        = (iterBody T (lengthTable argv P T) (sampleAt stdin) n).track2 →
      CHECK_RADIUS ≤ (iterBody T (lengthTable argv P T) (sampleAt stdin) n).ti
      ∧ (iterBody T (lengthTable argv P T) (sampleAt stdin) n).ti2
          = (iterBody T (lengthTable argv P T) (sampleAt stdin) n).ti - CHECK_RADIUS)
    ∧ ((iterBody T (lengthTable argv P T) (sampleAt stdin) n).track2 < T →
      (n : Int) = trackStart argv P (iterBody T (lengthTable argv P T) (sampleAt stdin) n).track2
        + ((iterBody T (lengthTable argv P T) (sampleAt stdin) n).ti2 : Int)) := by
  have hl := lead_position T (lengthTable argv P T) (sampleAt stdin) n
  have ht := trail_position T (lengthTable argv P T) (sampleAt stdin) n
  rw [iterBody_di] at hl ht
  constructor
  · intro h
    rw [h] at hl
    rw [CHECK_RADIUS_eq]
    omega
  · intro h
    rw [lenSum_lengthTable_lt argv P T _ h] at ht
    exact ht

theorem trailing_cursor_lag_witness :
    (CHECK_RADIUS ≤ (iterBody 1 (lengthTable [0, 0, 20] 0 1) (sampleAt []) 0).ti
      ∧ (iterBody 1 (lengthTable [0, 0, 20] 0 1) (sampleAt []) 0).ti2
          = (iterBody 1 (lengthTable [0, 0, 20] 0 1) (sampleAt []) 0).ti - CHECK_RADIUS)
    ∧ ((0 : Nat) : Int)
        = trackStart [0, 0, 20] 0 (iterBody 1 (lengthTable [0, 0, 20] 0 1) (sampleAt []) 0).track2
          + ((iterBody 1 (lengthTable [0, 0, 20] 0 1) (sampleAt []) 0).ti2 : Int) :=
  ⟨(trailing_cursor_lag [0, 0, 20] [] 0 1 0).1 rfl,
    (trailing_cursor_lag [0, 0, 20] [] 0 1 0).2 (by decide)⟩

/-- The state of the frame checksum after `t` calls from the reset state. -/
theorem feedFrame_rolling (f : Nat → Nat) (t : Nat) :
    Rolling f t (feedFrame f t).1 (feedFrame f t).2.1 (feedFrame f t).2.2 := by
  induction t with
  | zero => exact rolling_zero f
  | succ t ih => exact rolling_step f t _ _ _ ih

/-- A sum over the last `w` indices before `t` as a sum over `range w`. -/
theorem sum_Ico_last (g : Nat → Nat) (t w : Nat) (h : w ≤ t) :
    ∑ x ∈ Finset.Ico (t - w) t, g x = ∑ k ∈ Finset.range w, g (t - w + k) := by
  rw [Finset.sum_Ico_eq_sum_range]
  have e : t - (t - w) = w := by omega
  rw [e]

/-- C14: from the reset state, after the calls of `update_framecrc` with `ti = 0, ..., m`
on the samples `f 0, ..., f m`: if `m < 588`, `framecrc` is the sum of `f i * (i + 1)`
and `framesum` the sum of `f i` over `i = 0..m`; if `m >= 587`, `framecrc` is the sum of
`f (m - 588 + j) * j` over `j = 1..588` and `framesum` the sum of these last 588 samples;
all modulo `2^32`, for every `m` and every sample sequence. -/
theorem rolling_frame_checksum (f : Nat → Nat) (m : Nat) :
    (m < 588 →
      (feedFrame f (m + 1)).2.2 = (∑ i ∈ Finset.range (m + 1), f i * (i + 1)) % 4294967296
      ∧ (feedFrame f (m + 1)).2.1 = (∑ i ∈ Finset.range (m + 1), f i) % 4294967296)
    ∧ (587 ≤ m →
      (feedFrame f (m + 1)).2.2
          = (∑ j ∈ Finset.Icc 1 588, f (m + j - 588) * j) % 4294967296
      ∧ (feedFrame f (m + 1)).2.1
          = (∑ j ∈ Finset.Icc 1 588, f (m + j - 588)) % 4294967296) := by
  have inv := feedFrame_rolling f (m + 1)
  constructor
  · intro hm
    have e : m + 1 - 588 = 0 := by omega
    constructor
    · rw [inv.crc, frameWindowCrc, e, ← Finset.range_eq_Ico]
      rfl
    · rw [inv.sum, frameWindowSum, e, ← Finset.range_eq_Ico]
  · intro hm
    constructor
    · rw [inv.crc, frameWindowCrc, sum_Icc_one, sum_Ico_last _ (m + 1) 588 (by omega)]
      refine congrArg (fun x => x % 4294967296) ?_
      apply Finset.sum_congr rfl
      intro k hk
      have := Finset.mem_range.mp hk
      have a1 : m + 1 - 588 + k = m + (k + 1) - 588 := by omega
      have a2 : m + (k + 1) - 588 + 1 - (m + 1 - 588) = k + 1 := by omega
      rw [a1, a2]
    · rw [inv.sum, frameWindowSum, sum_Icc_one, sum_Ico_last _ (m + 1) 588 (by omega)]
      refine congrArg (fun x => x % 4294967296) ?_
      apply Finset.sum_congr rfl
      intro k hk
      have := Finset.mem_range.mp hk
      have a1 : m + 1 - 588 + k = m + (k + 1) - 588 := by omega
      rw [a1]

theorem rolling_frame_checksum_witness :
    ((feedFrame (fun i => i + 1) (587 + 1)).2.2
        = (∑ i ∈ Finset.range (587 + 1), (i + 1) * (i + 1)) % 4294967296
      ∧ (feedFrame (fun i => i + 1) (587 + 1)).2.1
        = (∑ i ∈ Finset.range (587 + 1), (i + 1)) % 4294967296)
    ∧ ((feedFrame (fun i => i + 1) (587 + 1)).2.2
        = (∑ j ∈ Finset.Icc 1 588, (587 + j - 588 + 1) * j) % 4294967296
      ∧ (feedFrame (fun i => i + 1) (587 + 1)).2.1
        = (∑ j ∈ Finset.Icc 1 588, (587 + j - 588 + 1)) % 4294967296) :=
  ⟨(rolling_frame_checksum (fun i => i + 1) 587).1 (Nat.lt_succ_self 587),
    (rolling_frame_checksum (fun i => i + 1) 587).2 (Nat.le_refl 587)⟩

/-- The weighted sum of a window moved one sample forward, over the integers. -/
theorem window_shift_int (x : Nat → Nat) (n : Nat) (len : Int) :
    (∑ j ∈ Finset.range n, (x j : Int) * (len - n + 1 + j))
        - (len - n) * (x 0 : Int) - (∑ j ∈ Finset.range n, (x j : Int)) + len * (x n : Int)
      = ∑ j ∈ Finset.Icc 1 n, (x j : Int) * (len - n + j) := by
  have h1 : (∑ j ∈ Finset.range n, (x j : Int) * (len - n + 1 + j))
      - (∑ j ∈ Finset.range n, (x j : Int))
      = ∑ j ∈ Finset.range n, (x j : Int) * (len - n + j) := by
    rw [← Finset.sum_sub_distrib]
    apply Finset.sum_congr rfl
    intro j _
    ring
  have h2 := Finset.sum_range_succ (fun j => (x j : Int) * (len - n + j)) n
  have h3 := Finset.sum_range_succ' (fun j => (x j : Int) * (len - n + j)) n
  rw [sum_Icc_one (fun j => (x j : Int) * (len - n + j)) n]
  simp only [Nat.cast_zero, add_zero] at h3
  linarith

/-- The plain sum of a window moved one sample forward, over the integers. -/
theorem window_sum_shift_int (x : Nat → Nat) (n : Nat) :
    (∑ j ∈ Finset.range n, (x j : Int)) + ((x n : Int) - (x 0 : Int))
      = ∑ j ∈ Finset.Icc 1 n, (x j : Int) := by
  have h2 := Finset.sum_range_succ (fun j => (x j : Int)) n
  have h3 := Finset.sum_range_succ' (fun j => (x j : Int)) n
  rw [sum_Icc_one (fun j => (x j : Int)) n]
  linarith

/-- C13: one derivation step of `update_arcf` (lines 54-65) moves the window of the
previous track one sample forward.  If, for the previous track, slot `tr` holds
`C = sum_{j<n} x_j * (len - n + 1 + j)` and `sum` holds `sum_{j<n} x_j` (both reduced
modulo `2^32`), the saved first value in slot `tr + 1` is `x_0`, `last_tr = n` and the
table gives the length `len`, then after the call on the value `v = x_n` slot `tr + 1`
holds `C - (len - last_tr) * first - sum + len * v`, which is
`sum_{j=1..n} x_j * (len - n + j)`, and `sum` holds `sum_{j=1..n} x_j`, both modulo
`2^32`. -/
theorem derivation_step_shifts_window (arcf sum : Nat → Nat) (track track_count : Nat)
    (length : Nat → Int) (ti tr last_tr v : Nat) (x : Nat → Nat) (n : Nat) (len : Int)
    (htrack : 0 < track) (htr : tr < ARCFS_PER_TRACK - 1)
    (hlen : length (track - 1) = len) (hlast : last_tr = n)
    (hfirst : arcf (ARCF_IDX (track - 1) (tr + 1)) = x 0)
    (hC : arcf (ARCF_IDX (track - 1) tr)
      = u32 (∑ j ∈ Finset.range n, (x j : Int) * (len - n + 1 + j)))
    (hsum : sum (track - 1) = u32 (∑ j ∈ Finset.range n, (x j : Int)))
    (hv : x n = v) :
    (update_arcf arcf sum track track_count length ti tr last_tr v).1
        (ARCF_IDX (track - 1) (tr + 1))
      = u32 ((arcf (ARCF_IDX (track - 1) tr) : Int) - (len - (last_tr : Int)) * (x 0 : Int)
          - (sum (track - 1) : Int) + len * (v : Int))
    ∧ (update_arcf arcf sum track track_count length ti tr last_tr v).1
        (ARCF_IDX (track - 1) (tr + 1))
      = u32 (∑ j ∈ Finset.Icc 1 n, (x j : Int) * (len - n + j))
    ∧ (update_arcf arcf sum track track_count length ti tr last_tr v).2 (track - 1)
      = u32 (∑ j ∈ Finset.Icc 1 n, (x j : Int)) := by
  rw [ARCFS_PER_TRACK_eq] at htr
  have hval : (update_arcf arcf sum track track_count length ti tr last_tr v).1
        (ARCF_IDX (track - 1) (tr + 1))
      = u32 ((arcf (ARCF_IDX (track - 1) tr) : Int) - (len - (last_tr : Int)) * (x 0 : Int)
          - (sum (track - 1) : Int) + len * (v : Int)) := by
    rw [update_arcf_arcf _ _ _ _ _ _ _ _ _ (track - 1) (tr + 1) (by omega),
      if_pos ⟨htrack, by omega, by omega, rfl⟩, hfirst, hlen]
  refine ⟨hval, ?_, ?_⟩
  · rw [hval, hC, hsum, hlast, ← hv, ← window_shift_int x n len]
    apply u32_congr
    push_cast
    rw [u32_cast, u32_cast]
    push_cast
    ring
  · rw [update_arcf_sum, if_pos ⟨htrack, by omega, by omega⟩, hfirst, hsum, ← hv,
      ← window_sum_shift_int x n]
    apply u32_congr
    push_cast
    rw [u32_cast]
    push_cast
    ring

theorem derivation_step_shifts_window_witness :
    (update_arcf (fun i => if i = 0 then 15 else 5) (fun _ => 5) 1 1 (fun _ => 3) 0 0 1 7).1
        (ARCF_IDX (1 - 1) (0 + 1))
      = u32 (∑ j ∈ Finset.Icc 1 1,
          (((fun j => if j = 0 then 5 else 7) j : Nat) : Int) * (3 - ((1 : Nat) : Int) + j))
    ∧ (update_arcf (fun i => if i = 0 then 15 else 5) (fun _ => 5) 1 1 (fun _ => 3) 0 0 1 7).2
        (1 - 1)
      = u32 (∑ j ∈ Finset.Icc 1 1, (((fun j => if j = 0 then 5 else 7) j : Nat) : Int)) :=
  (derivation_step_shifts_window (fun i => if i = 0 then 15 else 5) (fun _ => 5) 1 1
    (fun _ => 3) 0 0 1 7 (fun j => if j = 0 then 5 else 7) 1 3 (by decide)
    (by rw [ARCFS_PER_TRACK_eq]; decide) rfl rfl (by decide) (by decide) (by decide) rfl).2

/-- The leading track index after `i` iterations is at most the one after `n >= i`. -/
theorem lead_track_le_of_le (T : Nat) (len : Nat → Int) (s : Nat → Nat) (i n : Nat)
    (h : i ≤ n) : (iterBody T len s i).track ≤ (iterBody T len s n).track := by
  induction n with
  | zero =>
    have : i = 0 := by omega
    rw [this]
  | succ n ih =>
    rcases Nat.lt_or_ge i (n + 1) with h1 | h1
    · exact le_trans (ih (by omega)) (lead_track_mono T len s n)
    · have : i = n + 1 := by omega
      rw [this]

theorem leadConsumed_zero (T : Nat) (len : Nat → Int) (s : Nat → Nat) (k : Nat) :
    leadConsumed T len s 0 k = [] := by
  simp [leadConsumed]

theorem leadConsumed_succ (T : Nat) (len : Nat → Int) (s : Nat → Nat) (n k : Nat) :
    leadConsumed T len s (n + 1) k
      = leadConsumed T len s n k ++ (if (iterBody T len s n).track = k then [s n] else []) := by
  unfold leadConsumed
  rw [List.range_succ, List.filter_append, List.map_append]
  by_cases h : (iterBody T len s n).track = k
  · simp [h]
  · simp [h]

/-- No sample has been consumed in a track the leading cursor has not reached. -/
theorem leadConsumed_future (T : Nat) (len : Nat → Int) (s : Nat → Nat) (n k : Nat)
    (h : (iterBody T len s n).track < k) : leadConsumed T len s n k = [] := by
  unfold leadConsumed
  rw [List.map_eq_nil_iff, List.filter_eq_nil_iff]
  intro i hi
  have hi2 := List.mem_range.mp hi
  have := lead_track_le_of_le T len s i n (le_of_lt hi2)
  simp only [decide_eq_true_eq]
  omega

/-- The counters of the leading cursor: `tr` counts the samples consumed in the current
track, and `ti` runs `cFirst` ahead of it. -/
theorem lead_counters (T : Nat) (len : Nat → Int) (s : Nat → Nat) (n : Nat) :
    (leadConsumed T len s n (iterBody T len s n).track).length = (iterBody T len s n).tr
    ∧ (iterBody T len s n).ti = cFirst (iterBody T len s n).track + (iterBody T len s n).tr := by
  induction n with
  | zero =>
    constructor
    · rw [leadConsumed_zero]; rfl
    · rw [iterBody]
      simp [initState, cFirst]
  | succ n ih =>
    obtain ⟨h1, h2⟩ := ih
    have ht : (iterBody T len s (n + 1)).track
        = if (((iterBody T len s n).ti + 1 : Nat) : Int) = len (iterBody T len s n).track
          then (iterBody T len s n).track + 1 else (iterBody T len s n).track := by
      rw [iterBody, loopBody_track]
    have hr : (iterBody T len s (n + 1)).tr
        = if (((iterBody T len s n).ti + 1 : Nat) : Int) = len (iterBody T len s n).track
          then 0 else (iterBody T len s n).tr + 1 := by
      rw [iterBody, loopBody_tr]
    have hi : (iterBody T len s (n + 1)).ti
        = if (((iterBody T len s n).ti + 1 : Nat) : Int) = len (iterBody T len s n).track
          then 0 else (iterBody T len s n).ti + 1 := by
      rw [iterBody, loopBody_ti]
    rw [ht, hr, hi, leadConsumed_succ]
    by_cases hb : (((iterBody T len s n).ti + 1 : Nat) : Int) = len (iterBody T len s n).track
    · rw [if_pos hb, if_pos hb, if_pos hb, if_neg (by omega), List.append_nil,
        leadConsumed_future T len s n _ (by omega), cFirst_pos _ (by omega)]
      exact ⟨rfl, rfl⟩
    · rw [if_neg hb, if_neg hb, if_neg hb, if_pos rfl, List.length_append, h1, h2]
      exact ⟨rfl, by omega⟩

/-- The base checksum of every track, after any number of iterations. -/
theorem lead_base (T : Nat) (len : Nat → Int) (s : Nat → Nat) (n : Nat) :
    ∀ k, k < T →
      (iterBody T len s n).arcf (ARCF_IDX k 0)
        = naiveV1From (cFirst k + 1) (leadConsumed T len s n k) % 4294967296 := by
  induction n with
  | zero =>
    intro k _
    rw [leadConsumed_zero]
    rfl
  | succ n ih =>
    intro k hk
    obtain ⟨h1, h2⟩ := lead_counters T len s n
    rw [iterBody, loopBody_arcf, update_arcf_arcf _ _ _ _ _ _ _ _ _ k 0 (by omega),
      if_neg (by omega), leadConsumed_succ]
    by_cases hc : (iterBody T len s n).track = k
    · rw [if_pos ⟨by omega, hc.symm, rfl⟩, if_pos hc, naiveV1From_append, hc]
      rw [hc] at h1 h2
      have hA : (((iterBody T len s n).arcf (ARCF_IDX k 0) : Nat) : ZMod 4294967296)
          = ((naiveV1From (cFirst k + 1) (leadConsumed T len s n k) : Nat)
              : ZMod 4294967296) := by
        rw [ih k hk, cast_mod32]
      apply u32_eq_mod
      simp only [naiveV1From]
      push_cast
      rw [hA, h2, h1]
      push_cast
      ring
    · rw [if_neg (by intro h; exact hc h.2.1.symm), if_neg (by intro h; exact hc h.2.1.symm),
        if_neg hc, List.append_nil]
      exact ih k hk

/-- C12 (counterexample): one track of 20 frames and a stream whose first sample is 1.
After the first iteration the samples of track 0 consumed so far are `[1]`, whose sum of
`sample * (i + 1)` is 1, but `arcf[0][0]` is 2940 = `R + 1`. -/
theorem base_invariant_counterexample :
    checkArgs [0, 0, 20] = .ok (0, 1)
    ∧ leadConsumed 1 (lengthTable [0, 0, 20] 0 1)
        (sampleAt ((1, 0) :: List.replicate 11759 ((0 : Nat), (0 : Nat)))) 1 0 = [1]
    ∧ naiveV1 [1] = 1
    ∧ (iterBody 1 (lengthTable [0, 0, 20] 0 1)
        (sampleAt ((1, 0) :: List.replicate 11759 ((0 : Nat), (0 : Nat)))) 1).arcf
          (ARCF_IDX 0 0) = 2940 := by
  have hL : leadConsumed 1 (lengthTable [0, 0, 20] 0 1)
      (sampleAt ((1, 0) :: List.replicate 11759 ((0 : Nat), (0 : Nat)))) 1 0 = [1] := by
    rw [leadConsumed_succ, leadConsumed_zero, List.nil_append,
      if_pos (show (iterBody 1 _ _ 0).track = 0 from rfl), sampleAt_cons_zero]
    rfl
  refine ⟨rfl, hL, by decide, ?_⟩
  rw [lead_base 1 _ _ 1 0 (by omega), hL, cFirst_zero]
  decide

/-- C12 (amended): after any number `n` of iterations, for every argument list and
stream and every track `k < T`, `arcf[k][0]` is the sum, over the samples of the stream
that the leading cursor has consumed in track `k` so far, of (i-th consumed sample, `i`
from 0) times `c_k + i + 1`, modulo `2^32`, where `c_0 = R` and `c_k = 0` for `k >= 1`:
the weights of track 0 start at `R + 1`, those of the other tracks at 1. -/
theorem base_checksum_running (argv : List Int) (stdin : List (Nat × Nat)) (P T n k : Nat)
    (hk : k < T) :
    (iterBody T (lengthTable argv P T) (sampleAt stdin) n).arcf (ARCF_IDX k 0)
      = naiveV1From ((if k = 0 then CHECK_RADIUS else 0) + 1)
          (leadConsumed T (lengthTable argv P T) (sampleAt stdin) n k) % 4294967296 :=
  lead_base T _ _ n k hk

theorem base_checksum_running_witness :
    (iterBody 1 (lengthTable [0, 0, 20] 0 1)
        (sampleAt ((1, 0) :: List.replicate 11759 ((0 : Nat), (0 : Nat)))) 1).arcf
          (ARCF_IDX 0 0)
      = naiveV1From ((if 0 = 0 then CHECK_RADIUS else 0) + 1)
          (leadConsumed 1 (lengthTable [0, 0, 20] 0 1)
            (sampleAt ((1, 0) :: List.replicate 11759 ((0 : Nat), (0 : Nat)))) 1 0)
          % 4294967296 :=
  base_checksum_running [0, 0, 20] ((1, 0) :: List.replicate 11759 (0, 0)) 0 1 1 0
    (by decide)

/-- The slots of one call of `update_arcf` lie inside the `arcf` table when the leading
track index is at most `track_count`. -/
theorem arcfSlots_bound (track track_count tr : Nat) (h : track ≤ track_count) :
    ∀ p ∈ arcfSlots track track_count tr, p.1 < track_count ∧ p.2 < ARCFS_PER_TRACK := by
  intro p hp
  rw [ARCFS_PER_TRACK_eq]
  unfold arcfSlots at hp
  rw [ARCFS_PER_TRACK_eq] at hp
  rcases List.mem_append.mp hp with h1 | h1
  · split_ifs at h1 with ha hb
    · rcases List.mem_append.mp h1 with h2 | h2
      · rw [List.mem_singleton] at h2
        rw [h2]
        exact ⟨ha, by omega⟩
      · rw [List.mem_singleton] at h2
        rw [h2]
        exact ⟨ha, by omega⟩
    · rcases List.mem_append.mp h1 with h2 | h2
      · exact absurd h2 (List.not_mem_nil _)
      · rw [List.mem_singleton] at h2
        rw [h2]
        exact ⟨ha, by omega⟩
    · exact absurd h1 (List.not_mem_nil _)
  · split_ifs at h1 with ha
    · rcases List.mem_cons.mp h1 with h2 | h2
      · rw [h2]
        exact ⟨by dsimp only; omega, by dsimp only; omega⟩
      · rw [List.mem_singleton] at h2
        rw [h2]
        exact ⟨by dsimp only; omega, by dsimp only; omega⟩
    · exact absurd h1 (List.not_mem_nil _)

/-- The slot of `arcf450Slot` in terms of the counters. -/
theorem arcf450Slot_eq (st : State) :
    arcf450Slot st
      = if 2939 ≤ st.di ∧ 262248 ≤ st.ti2 ∧ st.ti2 < 268127 then
          some (st.track2, (st.ti2 : Int)
            - (451 * ((SAMPLES_PER_FRAME : Nat) : Int) - 1 - ((CHECK_RADIUS : Nat) : Int)))
        else none := by
  unfold arcf450Slot
  simp only [offset_lt_iff, offset_nonneg_iff]
  rw [CHECK_RADIUS_eq]
  split_ifs <;> first | rfl | (exfalso; omega)

/-- The `arcf450` store of one iteration is the store into the slot of `arcf450Slot`. -/
theorem stepTrailing_arcf450_slot (st : State) (v : Nat) :
    (stepTrailing st v).arcf450
      = match arcf450Slot st with
        | some p => store st.arcf450 (ARCF_IDX p.1 p.2.toNat)
            (update_framecrc st.frame st.framesum st.framecrc st.ti2 v).2.2
        | none => st.arcf450 := by
  rw [stepTrailing_arcf450, arcf450Slot_eq]
  split_ifs
  · simp only [offset_toNat]
  · rfl

/-- C17: for every argument list, every `P` and `T >= 1` (so for the ones derived from
the arguments) and every stream, at the head of every iteration (`n < total_length` iterations done) the leading and the trailing track
index are at most `T`, every `arcf` slot that `update_arcf` reads or writes has track
index below `T` and offset index below `W`, and the `arcf450` slot written, if any, has
track index below `T` and offset in `[0, W)`; and up to the end of the loop
(`n <= total_length`) the leading index is at most `T + 1`, the value `T + 1` occurring
only when `n = total_length`. -/
theorem table_accesses_in_bounds (argv : List Int) (stdin : List (Nat × Nat)) (P T : Nat)
    (hT : 1 ≤ T) (n : Nat) :
    ((n : Int) < (readTables argv P T).total_length →
      (iterBody T (lengthTable argv P T) (sampleAt stdin) n).track ≤ T
      ∧ (iterBody T (lengthTable argv P T) (sampleAt stdin) n).track2 ≤ T
      ∧ (∀ p ∈ arcfSlots (iterBody T (lengthTable argv P T) (sampleAt stdin) n).track T
            (iterBody T (lengthTable argv P T) (sampleAt stdin) n).tr,
          p.1 < T ∧ p.2 < ARCFS_PER_TRACK)
      ∧ (∀ p, arcf450Slot (iterBody T (lengthTable argv P T) (sampleAt stdin) n) = some p →
          p.1 < T ∧ 0 ≤ p.2 ∧ p.2 < (ARCFS_PER_TRACK : Int)))
    ∧ ((n : Int) ≤ (readTables argv P T).total_length →
      (iterBody T (lengthTable argv P T) (sampleAt stdin) n).track ≤ T + 1
      ∧ ((iterBody T (lengthTable argv P T) (sampleAt stdin) n).track = T + 1 →
          (n : Int) = (readTables argv P T).total_length)) := by
  rw [readTables_total]
  constructor
  · intro hn
    have h1 := lead_track_le argv P T (sampleAt stdin) n hT hn
    have h2 := trail_track2_le argv P T (sampleAt stdin) n hT (by omega)
    refine ⟨h1, h2, arcfSlots_bound _ _ _ h1, ?_⟩
    intro p hp
    rw [arcf450Slot_eq] at hp
    split_ifs at hp with hc
    have hp2 := Option.some.inj hp
    rw [← hp2]
    refine ⟨?_, (offset_nonneg_iff _).mpr hc.2.1, (offset_lt_iff _).mpr hc.2.2⟩
    rcases Nat.lt_or_ge (iterBody T (lengthTable argv P T) (sampleAt stdin) n).track2 T
      with h3 | h3
    · exact h3
    · exfalso
      have h4 : (iterBody T (lengthTable argv P T) (sampleAt stdin) n).track2 = T := by omega
      have h5 := trail_inside T (lengthTable argv P T) (sampleAt stdin) n
      rw [h4, lengthTable_sentinel] at h5
      have h6 := h5 (by norm_num)
      have h7 := hc.2.1
      omega
  · intro hn
    constructor
    · rcases Nat.eq_zero_or_pos n with h0 | h0
      · rw [h0]
        show initState.track ≤ T + 1
        simp [initState]
      · obtain ⟨m, rfl⟩ : ∃ m, n = m + 1 := ⟨n - 1, by omega⟩
        have h1 := lead_track_le argv P T (sampleAt stdin) m hT (by push_cast at hn; omega)
        have h2 := lead_track_step T (lengthTable argv P T) (sampleAt stdin) m
        omega
    · intro ht
      by_contra hne
      have h1 := lead_track_le argv P T (sampleAt stdin) n hT (by omega)
      omega

theorem table_accesses_in_bounds_witness :
    ((iterBody 1 (lengthTable [0, 0, 20] 0 1) (sampleAt []) 0).track ≤ 1
      ∧ (iterBody 1 (lengthTable [0, 0, 20] 0 1) (sampleAt []) 0).track2 ≤ 1
      ∧ (∀ p ∈ arcfSlots (iterBody 1 (lengthTable [0, 0, 20] 0 1) (sampleAt []) 0).track 1
            (iterBody 1 (lengthTable [0, 0, 20] 0 1) (sampleAt []) 0).tr,
          p.1 < 1 ∧ p.2 < ARCFS_PER_TRACK)
      ∧ (∀ p, arcf450Slot (iterBody 1 (lengthTable [0, 0, 20] 0 1) (sampleAt []) 0) = some p →
          p.1 < 1 ∧ 0 ≤ p.2 ∧ p.2 < (ARCFS_PER_TRACK : Int)))
    ∧ (iterBody 1 (lengthTable [0, 0, 20] 0 1) (sampleAt []) 0).track ≤ 1 + 1 :=
  ⟨(table_accesses_in_bounds [0, 0, 20] [] 0 1 (by decide) 0).1 (by decide),
    ((table_accesses_in_bounds [0, 0, 20] [] 0 1 (by decide) 0).2 (by decide)).1⟩

end Ckcdda
